import Mathlib

/-!
# Bounded pipes of `common::io`

A shallow embedding of the pipe classes of `src/common/io`
(`PipedInputStream`, `PipedOutputStream`, `PipedReader`, `PipedWriter`) and the
properties of them that the specification talks about.

Conventions of the embedding.

* A member function of a class becomes a function from the object state to a
  pair `(outcome, state after the call)`.  An outcome is `Except PipeError α`:
  `.error e` stands for a thrown exception.  The state is returned in both cases,
  because a C++ exception does not roll back what the call did before throwing.
* `std::vector<T>` is a `List T`.  An index outside the vector and a modulo by
  zero are undefined behaviour in C++; the embedding reports them as
  `PipeError.undefinedBehaviour` and leaves the state as it was.
* A `std::shared_ptr<T>` is an `Option Nat`: `none` is the null pointer and
  `some p` the address of an object of class `T`.  The objects of a class that
  are reached through pointers live in a heap, a `List T` indexed by address; a
  function that calls a member through a pointer takes the heap and returns it.
* `size_t` values supplied by a caller wrap modulo `2 ^ 64`.  The ring indices
  `in_` and `out_` stay below `buffer_.size()`, which itself is bounded by
  `vector::max_size() < 2 ^ 63`, so their arithmetic is written on `Nat`.
* Locks are not modelled: every function below is the body of one critical
  section, executed atomically.  Allocation failure is not modelled either.
-/

namespace common.io

/-- The exceptions thrown by the pipe classes, plus a marker for undefined behaviour. -/
inductive PipeError where
  /-- `std::runtime_error("PipedInputStream is empty")` -/
  | empty
  /-- `std::runtime_error("PipedInputStream is overflow")`,
  `std::runtime_error("Pipe buffer overflow: Reader has not consumed data.")` -/
  | overflow
  /-- `std::runtime_error("PipedOutputStream is not connected")`,
  `std::runtime_error("Pipe is not connected to a reader.")` -/
  | notConnected
  /-- `std::runtime_error("PipedInputStream is already connected")`,
  `std::runtime_error("already connected")`,
  `std::runtime_error("Pipe already connected or closed.")` -/
  | alreadyConnected
  /-- `std::runtime_error("Cannot write to a closed pipe.")` -/
  | closedPipe
  /-- `std::runtime_error("Buffer not initialized or closed.")` -/
  | bufferClosed
  /-- `std::out_of_range` -/
  | outOfRange
  /-- `std::invalid_argument("PipedInputStream cannot be null")` -/
  | invalidArgument
  /-- `std::length_error` of a `std::vector` constructor asked for more than `max_size()` -/
  | lengthError
  /-- Not an exception: the call has undefined behaviour. -/
  | undefinedBehaviour
  /-- `std::overflow_error("Pushback buffer overflow")` -/
  | overflowError
  /-- Not an exception: the call does not return. -/
  | doesNotReturn
  deriving DecidableEq

/-- The type `std::byte`. -/
abbrev Byte := Fin 256

/-- Reduction of a natural number to the range of `size_t`. -/
def wrapSize (n : Nat) : Nat := n % 2 ^ 64

/-! ## PipedInputStream -/

/-- The data members of `PipedInputStream` (the mutex apart). -/
structure PipedInputStream where
  buffer_ : List Byte
  in_ : Nat := 0
  out_ : Nat := 0
  src_ : Option Nat := none
  deriving DecidableEq

namespace PipedInputStream

/-- The constructor `PipedInputStream(size_t pipeSize)`: `buffer_(pipeSize)`. -/
def new (pipeSize : Nat) : PipedInputStream :=
  { buffer_ := List.replicate pipeSize 0 }

/-- The default pipe size `PIPE_SIZE`. -/
def PIPE_SIZE : Nat := 1024

/-- The member `close()`: `buffer_.clear(); in_ = out_ = 0;`. -/
def close (s : PipedInputStream) : Except PipeError Unit × PipedInputStream :=
  (.ok (), { s with buffer_ := [], in_ := 0, out_ := 0 })

/-- The member `available()`: `(in_ + buffer_.size() - out_) % buffer_.size()`. -/
def available (s : PipedInputStream) : Except PipeError Nat × PipedInputStream :=
  if s.buffer_.length = 0 then (.error .undefinedBehaviour, s)
  else (.ok ((s.in_ + s.buffer_.length - s.out_) % s.buffer_.length), s)

/-- The member `read()`: throws when `in_ == out_`, otherwise returns `buffer_[out_]` and
advances `out_` modulo the buffer size. -/
def read (s : PipedInputStream) : Except PipeError Byte × PipedInputStream :=
  if s.in_ = s.out_ then (.error .empty, s)
  else
    match s.buffer_[s.out_]? with
    | none => (.error .undefinedBehaviour, s)
    | some result => (.ok result, { s with out_ := (s.out_ + 1) % s.buffer_.length })

/-- The loop of `read(buffer, offset, len)`; `remaining` is `len - bytesRead`.  The loop
body stores into the member `buffer_`, as the source does, not into the caller's buffer. -/
def readLoop (offset : Nat) : Nat → Nat → PipedInputStream → Except PipeError Nat × PipedInputStream
  | 0, bytesRead, s => (.ok bytesRead, s)
  | remaining + 1, bytesRead, s =>
    if s.out_ = s.in_ then (.ok bytesRead, s)
    else
      match s.buffer_[s.out_]? with
      | none => (.error .undefinedBehaviour, s)
      | some v =>
        if wrapSize (offset + bytesRead) < s.buffer_.length then
          let s1 := { s with buffer_ := s.buffer_.set (wrapSize (offset + bytesRead)) v }
          readLoop offset remaining (wrapSize (bytesRead + 1))
            { s1 with out_ := (s1.out_ + 1) % s1.buffer_.length }
        else (.error .undefinedBehaviour, s)

/-- The member `read(buffer, offset, len)`.  The caller's buffer is passed by reference;
its value after the call is the second component of the result. -/
def readInto (s : PipedInputStream) (buffer : List Byte) (offset len : Nat) :
    Except PipeError Nat × List Byte × PipedInputStream :=
  let r := readLoop offset len 0 s
  (r.1, buffer, r.2)

/-- The member `connect(src)`: throws when `src_` is non-null, otherwise stores `src`. -/
def connect (s : PipedInputStream) (src : Option Nat) : Except PipeError Unit × PipedInputStream :=
  if s.src_.isSome then (.error .alreadyConnected, s)
  else (.ok (), { s with src_ := src })

/-- The constructor `PipedInputStream(src, pipeSize)`: `PipedInputStream(pipeSize)`
followed by `connect(src)`. -/
def newConnected (src : Option Nat) (pipeSize : Nat) : PipedInputStream :=
  ((new pipeSize).connect src).2

/-- The member `receive(b)`: throws when `(in_ + 1) % buffer_.size() == out_`, otherwise
stores `b` at `in_` and advances `in_` modulo the buffer size. -/
def receive (s : PipedInputStream) (b : Byte) : Except PipeError Unit × PipedInputStream :=
  if s.buffer_.length = 0 then (.error .undefinedBehaviour, s)
  else if (s.in_ + 1) % s.buffer_.length = s.out_ then (.error .overflow, s)
  else if s.in_ < s.buffer_.length then
    (.ok (), { s with buffer_ := s.buffer_.set s.in_ b, in_ := (s.in_ + 1) % s.buffer_.length })
  else (.error .undefinedBehaviour, s)

end PipedInputStream

/-! ## Calls through a pointer -/

/-- The call `p->m(...)` of a member `m` on the object at address `p` of the heap. -/
def callAt {σ α : Type} (heap : List σ) (p : Nat) (m : σ → Except PipeError α × σ) :
    Except PipeError α × List σ :=
  match heap[p]? with
  | none => (.error .undefinedBehaviour, heap)
  | some obj => ((m obj).1, heap.set p (m obj).2)

/-! ## PipedOutputStream -/

/-- The data members of `PipedOutputStream`. -/
structure PipedOutputStream where
  snk_ : Option Nat := none
  closed_ : Bool := true
  connected_ : Bool := false
  deriving DecidableEq

namespace PipedOutputStream

/-- The constructor `PipedOutputStream(snk)`: a null `snk` is rejected. -/
def new (snk : Option Nat) : Except PipeError PipedOutputStream :=
  match snk with
  | none => .error .invalidArgument
  | some p => .ok { snk_ := some p, connected_ := true, closed_ := false }

/-- The member `flush()`. -/
def flush (o : PipedOutputStream) : Except PipeError Unit × PipedOutputStream :=
  if o.closed_ || !o.connected_ || o.snk_.isNone then (.error .notConnected, o)
  else (.ok (), o)

/-- The member `close()`. -/
def close (o : PipedOutputStream) (heap : List PipedInputStream) :
    Except PipeError Unit × PipedOutputStream × List PipedInputStream :=
  if o.closed_ then (.ok (), o, heap)
  else
    match o.flush with
    | (.error e, o1) => (.error e, o1, heap)
    | (.ok (), o1) =>
      let o2 := { o1 with connected_ := false, closed_ := true }
      match o2.snk_ with
      | none => (.ok (), o2, heap)
      | some p => ((callAt heap p PipedInputStream.close).1, o2,
                   (callAt heap p PipedInputStream.close).2)

/-- The member `write(b)`. -/
def write (o : PipedOutputStream) (b : Byte) (heap : List PipedInputStream) :
    Except PipeError Unit × PipedOutputStream × List PipedInputStream :=
  if o.closed_ || !o.connected_ || o.snk_.isNone then (.error .notConnected, o, heap)
  else
    match o.snk_ with
    | none => (.error .notConnected, o, heap)
    | some p => ((callAt heap p (fun s => s.receive b)).1, o,
                 (callAt heap p (fun s => s.receive b)).2)

/-- The loop of `write(buffer, offset, len)`; `remaining` is `len - i`. -/
def writeLoop (buffer : List Byte) (offset p : Nat) :
    Nat → Nat → List PipedInputStream → Except PipeError Unit × List PipedInputStream
  | 0, _, heap => (.ok (), heap)
  | remaining + 1, i, heap =>
    match buffer[wrapSize (offset + i)]? with
    | none => (.error .undefinedBehaviour, heap)
    | some b =>
      match callAt heap p (fun s => s.receive b) with
      | (.error e, heap1) => (.error e, heap1)
      | (.ok (), heap1) => writeLoop buffer offset p remaining (wrapSize (i + 1)) heap1

/-- The member `write(buffer, offset, len)`. -/
def writeFrom (o : PipedOutputStream) (buffer : List Byte) (offset len : Nat)
    (heap : List PipedInputStream) :
    Except PipeError Unit × PipedOutputStream × List PipedInputStream :=
  if o.closed_ || !o.connected_ || o.snk_.isNone then (.error .notConnected, o, heap)
  else if wrapSize (offset + len) > buffer.length then (.error .outOfRange, o, heap)
  else
    match o.snk_ with
    | none => (.error .notConnected, o, heap)
    | some p => ((writeLoop buffer offset p len 0 heap).1, o,
                 (writeLoop buffer offset p len 0 heap).2)

end PipedOutputStream

/-! ## PipedReader -/

/-- The type `char`: its eight bits. -/
abbrev CChar := Fin 256

/-- The conversion of a `char` to `int` (`char` is a signed type on the targets of this
repository's build). -/
def CChar.toInt (c : CChar) : Int :=
  if c.val < 128 then (c.val : Int) else (c.val : Int) - 256

/-- The data members of `PipedReader` (the mutex apart). -/
structure PipedReader where
  src_ : Option Nat := none
  buffer_ : List CChar
  bufferSize_ : Nat := 0
  readPos_ : Nat := 0
  writePos_ : Nat := 0
  deriving DecidableEq

namespace PipedReader

/-- The default pipe size `DEFAULT_PIPE_SIZE`. -/
def DEFAULT_PIPE_SIZE : Int := 1024

/-- The constructor `PipedReader(std::shared_ptr<PipedWriter> src, int pipeSize)`:
`src_(src), buffer_(pipeSize), bufferSize_(pipeSize)`.  A negative `pipeSize` converts to a
`size_t` above `max_size()` and the vector constructor throws. -/
def newConnected (src : Option Nat) (pipeSize : Int) : Except PipeError PipedReader :=
  if pipeSize < 0 then .error .lengthError
  else .ok { src_ := src, buffer_ := List.replicate pipeSize.toNat 0,
             bufferSize_ := pipeSize.toNat }

/-- The constructor `PipedReader(int pipeSize)`. -/
def new (pipeSize : Int) : Except PipeError PipedReader :=
  newConnected none pipeSize

/-- The member `close()`: `src_.reset(); buffer_.clear(); readPos_ = writePos_ = 0;`. -/
def close (r : PipedReader) : Except PipeError Unit × PipedReader :=
  (.ok (), { r with src_ := none, buffer_ := [], readPos_ := 0, writePos_ := 0 })

/-- The member `ready()`: `readPos_ != writePos_`. -/
def ready (r : PipedReader) : Bool :=
  r.readPos_ != r.writePos_

/-- The member `read()`: `-1` when not ready, otherwise
`buffer_[readPos_++ % bufferSize_]`. -/
def read (r : PipedReader) : Except PipeError Int × PipedReader :=
  if !r.ready then (.ok (-1), r)
  else if r.bufferSize_ = 0 then (.error .undefinedBehaviour, r)
  else
    match r.buffer_[r.readPos_ % r.bufferSize_]? with
    | none => (.error .undefinedBehaviour, r)
    | some c => (.ok c.toInt, { r with readPos_ := wrapSize (r.readPos_ + 1) })

/-- The loop of `read(cBuf, off, len)`; `remaining` is `len - bytesRead`. -/
def readLoop (off : Nat) :
    Nat → Nat → List CChar → PipedReader → Except PipeError Nat × List CChar × PipedReader
  | 0, bytesRead, cBuf, r => (.ok bytesRead, cBuf, r)
  | remaining + 1, bytesRead, cBuf, r =>
    if !r.ready then (.ok bytesRead, cBuf, r)
    else if r.bufferSize_ = 0 then (.error .undefinedBehaviour, cBuf, r)
    else
      match r.buffer_[r.readPos_ % r.bufferSize_]? with
      | none => (.error .undefinedBehaviour, cBuf, r)
      | some c =>
        if wrapSize (off + bytesRead) < cBuf.length then
          readLoop off remaining (wrapSize (bytesRead + 1))
            (cBuf.set (wrapSize (off + bytesRead)) c)
            { r with readPos_ := wrapSize (r.readPos_ + 1) }
        else (.error .undefinedBehaviour, cBuf, r)

/-- The member `read(cBuf, off, len)`. -/
def readInto (r : PipedReader) (cBuf : List CChar) (off len : Nat) :
    Except PipeError Nat × List CChar × PipedReader :=
  if wrapSize (off + len) > cBuf.length then (.error .outOfRange, cBuf, r)
  else readLoop off len 0 cBuf r

/-- The member `connect(src)`: throws when `src_` is non-null, otherwise stores `src`. -/
def connect (r : PipedReader) (src : Option Nat) : Except PipeError Unit × PipedReader :=
  if r.src_.isSome then (.error .alreadyConnected, r)
  else (.ok (), { r with src_ := src })

/-- The member `writeToBuffer(c)`. -/
def writeToBuffer (r : PipedReader) (c : CChar) : Except PipeError Unit × PipedReader :=
  if r.bufferSize_ = 0 then (.error .bufferClosed, r)
  else if (wrapSize (r.writePos_ + 1)) % r.bufferSize_ = r.readPos_ then (.error .overflow, r)
  else if r.writePos_ < r.buffer_.length then
    (.ok (), { r with buffer_ := r.buffer_.set r.writePos_ c,
                      writePos_ := (wrapSize (r.writePos_ + 1)) % r.bufferSize_ })
  else (.error .undefinedBehaviour, r)

end PipedReader

/-! ## PipedWriter -/

/-- The data members of `PipedWriter` (the mutex apart). -/
structure PipedWriter where
  reader_ : Option Nat := none
  closed_ : Bool := false
  deriving DecidableEq

namespace PipedWriter

/-- The constructor `PipedWriter(std::shared_ptr<PipedReader> writer)`; the default
constructor is `new none`. -/
def new (writer : Option Nat) : PipedWriter :=
  { reader_ := writer }

/-- The member `flush()`: no operation. -/
def flush (w : PipedWriter) : Except PipeError Unit × PipedWriter :=
  (.ok (), w)

/-- The member `close()`. -/
def close (w : PipedWriter) (heap : List PipedReader) :
    Except PipeError Unit × PipedWriter × List PipedReader :=
  if w.closed_ then (.ok (), w, heap)
  else
    let w1 := { w.flush.2 with closed_ := true }
    match w1.reader_ with
    | none => (.ok (), w1, heap)
    | some p => ((callAt heap p PipedReader.close).1, { w1 with reader_ := none },
                 (callAt heap p PipedReader.close).2)

/-- The member `write(c)`. -/
def write (w : PipedWriter) (c : CChar) (heap : List PipedReader) :
    Except PipeError Unit × PipedWriter × List PipedReader :=
  if w.closed_ then (.error .closedPipe, w, heap)
  else
    match w.reader_ with
    | none => (.error .notConnected, w, heap)
    | some p => ((callAt heap p (fun r => r.writeToBuffer c)).1, w,
                 (callAt heap p (fun r => r.writeToBuffer c)).2)

/-- The loop of `write(cBuf, off, len)`; `remaining` is `len - i`. -/
def writeLoop (cBuf : List CChar) (off p : Nat) :
    Nat → Nat → List PipedReader → Except PipeError Unit × List PipedReader
  | 0, _, heap => (.ok (), heap)
  | remaining + 1, i, heap =>
    match cBuf[wrapSize (off + i)]? with
    | none => (.error .undefinedBehaviour, heap)
    | some c =>
      match callAt heap p (fun r => r.writeToBuffer c) with
      | (.error e, heap1) => (.error e, heap1)
      | (.ok (), heap1) => writeLoop cBuf off p remaining (wrapSize (i + 1)) heap1

/-- The member `write(cBuf, off, len)`. -/
def writeFrom (w : PipedWriter) (cBuf : List CChar) (off len : Nat) (heap : List PipedReader) :
    Except PipeError Unit × PipedWriter × List PipedReader :=
  if wrapSize (off + len) > cBuf.length then (.error .outOfRange, w, heap)
  else if w.closed_ then (.error .closedPipe, w, heap)
  else
    match w.reader_ with
    | none => (.error .notConnected, w, heap)
    | some p => ((writeLoop cBuf off p len 0 heap).1, w, (writeLoop cBuf off p len 0 heap).2)

/-- The member `connect(snk)`: throws when `reader_` is non-null or the writer is closed,
otherwise stores `snk`. -/
def connect (w : PipedWriter) (snk : Option Nat) : Except PipeError Unit × PipedWriter :=
  if w.reader_.isSome || w.closed_ then (.error .alreadyConnected, w)
  else (.ok (), { w with reader_ := snk })

end PipedWriter

/-! ## Call sequences and observations

The definitions of this section are not taken from the source: they describe the call
sequences a client performs and what can be observed of a pipe, so that the properties
below can be stated. -/

namespace PipedInputStream

/-- A call a client makes on a `PipedInputStream`. -/
inductive Call where
  | receive (b : Byte)
  | read
  | connect (src : Option Nat)
  deriving DecidableEq

/-- One call: its outcome (the byte read, for `read`) and the state after it. -/
def perform (s : PipedInputStream) : Call → Except PipeError (Option Byte) × PipedInputStream
  | .receive b => ((s.receive b).1.map (fun _ => none), (s.receive b).2)
  | .read => (s.read.1.map some, s.read.2)
  | .connect src => ((s.connect src).1.map (fun _ => none), (s.connect src).2)

/-- A sequence of calls, each made whether or not the calls before it threw: the outcomes
in order and the final state. -/
def run (s : PipedInputStream) :
    List Call → List (Except PipeError (Option Byte)) × PipedInputStream
  | [] => ([], s)
  | c :: cs => ((s.perform c).1 :: ((s.perform c).2.run cs).1, ((s.perform c).2.run cs).2)

/-- The number of `receive` calls of a call sequence that return normally. -/
def okReceives (s : PipedInputStream) : List Call → Nat
  | [] => 0
  | .receive b :: cs =>
    (if (s.receive b).1.toBool then 1 else 0) + (s.receive b).2.okReceives cs
  | c :: cs => (s.perform c).2.okReceives cs

/-- The number of `read()` calls of a call sequence that return normally. -/
def okReads (s : PipedInputStream) : List Call → Nat
  | [] => 0
  | .read :: cs => (if s.read.1.toBool then 1 else 0) + s.read.2.okReads cs
  | c :: cs => (s.perform c).2.okReads cs

/-- The states of a pipe of capacity `c`: those a constructor and then calls of `receive`,
`read()` and `connect` lead to. -/
def Reachable (c : Nat) (s : PipedInputStream) : Prop :=
  ∃ (src : Option Nat) (calls : List Call), s = ((newConnected src c).run calls).2

/-- The number of queued bytes, as `available()` computes it. -/
def count (s : PipedInputStream) : Nat :=
  (s.in_ + s.buffer_.length - s.out_) % s.buffer_.length

/-- The queued bytes, oldest first: the ring slots from `out_` up to `in_`. -/
def queued (s : PipedInputStream) : List Byte :=
  (List.range s.count).map (fun i => s.buffer_.getD ((s.out_ + i) % s.buffer_.length) 0)

/-- The invariant of an open pipe of capacity `c`: the storage has `c` slots and both
indices are inside it. -/
structure WF (c : Nat) (s : PipedInputStream) : Prop where
  len : s.buffer_.length = c
  hin : s.in_ < c
  hout : s.out_ < c

end PipedInputStream

/-- The `n` next calls `p->read()` on the `PipedInputStream` at address `p`: the outcomes in
order and the heap afterwards. -/
def readManyAt (p : Nat) :
    Nat → List PipedInputStream → List (Except PipeError Byte) × List PipedInputStream
  | 0, heap => ([], heap)
  | n + 1, heap =>
    ((callAt heap p PipedInputStream.read).1 ::
        (readManyAt p n (callAt heap p PipedInputStream.read).2).1,
      (readManyAt p n (callAt heap p PipedInputStream.read).2).2)

namespace PipedOutputStream

/-- The calls `write(w1)`, ..., `write(wN)` in order: the outcomes and the state after. -/
def writeMany (o : PipedOutputStream) :
    List Byte → List PipedInputStream →
      List (Except PipeError Unit) × PipedOutputStream × List PipedInputStream
  | [], heap => ([], o, heap)
  | b :: bs, heap =>
    ((o.write b heap).1 :: ((o.write b heap).2.1.writeMany bs (o.write b heap).2.2).1,
      ((o.write b heap).2.1.writeMany bs (o.write b heap).2.2).2)

/-- The stream is usable and bound to the `PipedInputStream` at address `p`. -/
def BoundTo (o : PipedOutputStream) (p : Nat) : Prop :=
  o.snk_ = some p ∧ o.closed_ = false ∧ o.connected_ = true

end PipedOutputStream

namespace PipedWriter

/-- The calls `write(w1)`, ..., `write(wN)` in order: the outcomes and the state after. -/
def writeMany (w : PipedWriter) :
    List CChar → List PipedReader → List (Except PipeError Unit) × PipedWriter × List PipedReader
  | [], heap => ([], w, heap)
  | c :: cs, heap =>
    ((w.write c heap).1 :: ((w.write c heap).2.1.writeMany cs (w.write c heap).2.2).1,
      ((w.write c heap).2.1.writeMany cs (w.write c heap).2.2).2)

end PipedWriter

/-- The `n` next calls `p->read()` on the `PipedReader` at address `p`: the outcomes in order
and the heap afterwards. -/
def readCharsAt (p : Nat) :
    Nat → List PipedReader → List (Except PipeError Int) × List PipedReader
  | 0, heap => ([], heap)
  | n + 1, heap =>
    ((callAt heap p PipedReader.read).1 ::
        (readCharsAt p n (callAt heap p PipedReader.read).2).1,
      (readCharsAt p n (callAt heap p PipedReader.read).2).2)

namespace PipedOutputStream

/-- What can happen between two calls on a `PipedOutputStream`: a member call on the stream
itself, or whatever other code does to the `PipedInputStream` objects (reads on the peer, its
`close()`, calls through other streams). -/
inductive Op where
  | flush
  | close
  | write (b : Byte)
  | writeFrom (buffer : List Byte) (offset len : Nat)
  | others (f : List PipedInputStream → List PipedInputStream)

/-- The stream and the heap after one operation, whatever its outcome. -/
def applyOp (o : PipedOutputStream) (heap : List PipedInputStream) :
    Op → PipedOutputStream × List PipedInputStream
  | .flush => (o.flush.2, heap)
  | .close => (o.close heap).2
  | .write b => (o.write b heap).2
  | .writeFrom buffer offset len => (o.writeFrom buffer offset len heap).2
  | .others f => (o, f heap)

/-- The stream and the heap after a sequence of operations. -/
def applyOps (o : PipedOutputStream) (heap : List PipedInputStream) :
    List Op → PipedOutputStream × List PipedInputStream
  | [] => (o, heap)
  | op :: ops => applyOps (o.applyOp heap op).1 (o.applyOp heap op).2 ops

end PipedOutputStream

namespace PipedWriter

/-- What can happen between two calls on a `PipedWriter`: a member call on the writer itself,
or whatever other code does to the `PipedReader` objects. -/
inductive Op where
  | flush
  | close
  | connect (snk : Option Nat)
  | write (c : CChar)
  | writeFrom (cBuf : List CChar) (off len : Nat)
  | others (f : List PipedReader → List PipedReader)

/-- The writer and the heap after one operation, whatever its outcome. -/
def applyOp (w : PipedWriter) (heap : List PipedReader) : Op → PipedWriter × List PipedReader
  | .flush => (w.flush.2, heap)
  | .close => (w.close heap).2
  | .connect snk => ((w.connect snk).2, heap)
  | .write c => (w.write c heap).2
  | .writeFrom cBuf off len => (w.writeFrom cBuf off len heap).2
  | .others f => (w, f heap)

/-- The writer and the heap after a sequence of operations. -/
def applyOps (w : PipedWriter) (heap : List PipedReader) :
    List Op → PipedWriter × List PipedReader
  | [] => (w, heap)
  | op :: ops => applyOps (w.applyOp heap op).1 (w.applyOp heap op).2 ops

end PipedWriter

/-! ## Members inherited by the pipes -/

namespace PipedInputStream

/-- The loop of `AbstractInputStream::skip(n)` on a `PipedInputStream`: `read()` is the
overriding `PipedInputStream::read()`, whose exception leaves the loop; the byte
`static_cast<std::byte>(-1)` is `0xFF`.  `remaining` is `n - i`. -/
def skipLoop : Nat → Nat → PipedInputStream → Except PipeError Nat × PipedInputStream
  | 0, skipped, s => (.ok skipped, s)
  | remaining + 1, skipped, s =>
    match s.read with
    | (.error e, s1) => (.error e, s1)
    | (.ok b, s1) =>
      if b = 255 then (.ok skipped, s1)
      else skipLoop remaining (wrapSize (skipped + 1)) s1

/-- The member `skip(n)`, inherited from `AbstractInputStream`. -/
def skip (s : PipedInputStream) (n : Nat) : Except PipeError Nat × PipedInputStream :=
  skipLoop n 0 s

end PipedInputStream

namespace PipedWriter

/-- The member `write(str, off, len)`, inherited from `AbstractWriter`: the characters
`str[off .. min(off + len, str.size()))` are copied to a vector, which goes to the overriding
`write(cBuf, off, len)`. -/
def writeString (w : PipedWriter) (str : List CChar) (off len : Nat) (heap : List PipedReader) :
    Except PipeError Unit × PipedWriter × List PipedReader :=
  if off < str.length then
    if (if wrapSize (off + len) < str.length then wrapSize (off + len) else str.length) < off then
      (.error .undefinedBehaviour, w, heap)
    else
      w.writeFrom
        ((str.drop off).take
          ((if wrapSize (off + len) < str.length then wrapSize (off + len) else str.length) - off))
        0
        ((str.drop off).take
          ((if wrapSize (off + len) < str.length then wrapSize (off + len) else str.length) -
            off)).length
        heap
  else (.ok (), w, heap)

/-- The member `append(csq, start, end)`, inherited from `AbstractWriter`:
`write(csq, start, end)`. -/
def appendRange (w : PipedWriter) (csq : List CChar) (start end_ : Nat)
    (heap : List PipedReader) : Except PipeError Unit × PipedWriter × List PipedReader :=
  w.writeString csq start end_ heap

end PipedWriter

/-! ## CharArrayReader and BufferedReader -/

/-- The data members of `CharArrayReader`. -/
structure CharArrayReader where
  buf_ : List CChar
  pos_ : Nat := 0
  markedPos_ : Nat := 0
  count_ : Nat
  deriving DecidableEq

namespace CharArrayReader

/-- The constructor `CharArrayReader(buffer)`. -/
def new (buffer : List CChar) : CharArrayReader :=
  { buf_ := buffer, count_ := buffer.length }

/-- The member `read()`. -/
def read (r : CharArrayReader) : Except PipeError Int × CharArrayReader :=
  if r.pos_ ≥ r.count_ then (.ok (-1), r)
  else
    match r.buf_[r.pos_]? with
    | none => (.error .undefinedBehaviour, r)
    | some c => (.ok c.toInt, { r with pos_ := wrapSize (r.pos_ + 1) })

/-- The member `read(b, off, len)`.  It returns a `size_t`: the `-1` of the first line is
`2 ^ 64 - 1`.  `copy_n` outside either vector is undefined behaviour. -/
def readInto (r : CharArrayReader) (b : List CChar) (off len : Nat) :
    Except PipeError Nat × List CChar × CharArrayReader :=
  if r.pos_ ≥ r.count_ then (.ok (2 ^ 64 - 1), b, r)
  else if off ≥ b.length || wrapSize (off + len) > b.length then (.error .outOfRange, b, r)
  else if r.pos_ + min len (r.count_ - r.pos_) ≤ r.buf_.length ∧
      off + min len (r.count_ - r.pos_) ≤ b.length then
    (.ok (min len (r.count_ - r.pos_)),
      b.take off ++ (r.buf_.drop r.pos_).take (min len (r.count_ - r.pos_)) ++
        b.drop (off + min len (r.count_ - r.pos_)),
      { r with pos_ := wrapSize (r.pos_ + min len (r.count_ - r.pos_)) })
  else (.error .undefinedBehaviour, b, r)

end CharArrayReader

/-- The data members of `BufferedReader`; `reader_` is the reader it owns, here a
`CharArrayReader`. -/
structure BufferedReader where
  buffer_ : List CChar
  reader_ : CharArrayReader
  bufferSize_ : Nat := 0
  pos_ : Nat := 0
  count_ : Nat := 0
  markLimit_ : Nat := 0
  deriving DecidableEq

namespace BufferedReader

/-- The constructor `BufferedReader(reader, size)`. -/
def new (reader : CharArrayReader) (size : Int) : Except PipeError BufferedReader :=
  if size ≤ 0 then .error .invalidArgument
  else .ok { buffer_ := List.replicate size.toNat 0, reader_ := reader,
             bufferSize_ := size.toNat }

/-- The member `fillBuffer()`: `pos_ = 0; count_ = reader_->read(buffer_, 0, bufferSize_);
return count_ > 0;`. -/
def fillBuffer (r : BufferedReader) : Except PipeError Bool × BufferedReader :=
  match r.reader_.readInto r.buffer_ 0 r.bufferSize_ with
  | (.error e, _, rd) => (.error e, { r with pos_ := 0, reader_ := rd })
  | (.ok n, b, rd) =>
    (.ok (decide (n > 0)), { r with pos_ := 0, buffer_ := b, reader_ := rd, count_ := n })

/-- The statement `return buffer_[pos_++];`. -/
def takeChar (r : BufferedReader) : Except PipeError Int × BufferedReader :=
  match r.buffer_[r.pos_]? with
  | none => (.error .undefinedBehaviour, r)
  | some c => (.ok c.toInt, { r with pos_ := wrapSize (r.pos_ + 1) })

/-- The member `read()`. -/
def read (r : BufferedReader) : Except PipeError Int × BufferedReader :=
  if r.pos_ ≥ r.count_ then
    match r.fillBuffer with
    | (.error e, r1) => (.error e, r1)
    | (.ok false, r1) => (.ok (-1), r1)
    | (.ok true, r1) => r1.takeChar
  else r.takeChar

/-- The `n` next calls `read()`: the outcomes in order and the reader afterwards. -/
def readMany : Nat → BufferedReader → List (Except PipeError Int) × BufferedReader
  | 0, r => ([], r)
  | n + 1, r => (r.read.1 :: (readMany n r.read.2).1, (readMany n r.read.2).2)

end BufferedReader

/-! ## PushbackReader and PushbackInputStream

The stream or reader underneath is any implementation of the abstract class: a state of some
type `ρ` and its `read()`.  The pointer to it is an `Option`, `none` being null. -/

/-- The conversion `static_cast<char>(c)` of an `int`. -/
def CChar.ofInt (c : Int) : CChar := Fin.ofNat (c % 256).toNat

/-- The data members of `PushbackReader`, `in` of `FilterReader` included. -/
structure PushbackReader (ρ : Type) where
  in_ : Option ρ
  buffer_ : List CChar
  bufferPos_ : Nat := 1024

namespace PushbackReader

/-- The constant `DEFAULT_BUFFER_SIZE`. -/
def DEFAULT_BUFFER_SIZE : Nat := 1024

/-- The constructor `PushbackReader(reader, size)`: `buffer_(size)`, and `bufferPos_` keeps
its default member initialiser `DEFAULT_BUFFER_SIZE`. -/
def new {ρ : Type} (reader : Option ρ) (size : Nat) : Except PipeError (PushbackReader ρ) :=
  if size = 0 then .error .invalidArgument
  else .ok { in_ := reader, buffer_ := List.replicate size 0, bufferPos_ := DEFAULT_BUFFER_SIZE }

/-- The member `read()`; `inRead` is `read()` of the reader underneath. -/
def read {ρ : Type} (inRead : ρ → Except PipeError Int × ρ) (r : PushbackReader ρ) :
    Except PipeError Int × PushbackReader ρ :=
  if r.bufferPos_ < r.buffer_.length then
    match r.buffer_[r.bufferPos_]? with
    | none => (.error .undefinedBehaviour, r)
    | some c => (.ok c.toInt, { r with bufferPos_ := wrapSize (r.bufferPos_ + 1) })
  else
    match r.in_ with
    | none => (.error .undefinedBehaviour, r)
    | some u => ((inRead u).1, { r with in_ := some (inRead u).2 })

/-- The member `unread(int c)`. -/
def unread {ρ : Type} (r : PushbackReader ρ) (c : Int) :
    Except PipeError Unit × PushbackReader ρ :=
  if r.bufferPos_ = 0 then (.error .overflowError, r)
  else if r.bufferPos_ - 1 < r.buffer_.length then
    (.ok (), { r with bufferPos_ := r.bufferPos_ - 1,
                      buffer_ := r.buffer_.set (r.bufferPos_ - 1) (CChar.ofInt c) })
  else (.error .undefinedBehaviour, r)

/-- The calls `unread(c1)`, ..., `unread(cN)` in order: the outcomes and the reader after. -/
def unreadMany {ρ : Type} :
    List Int → PushbackReader ρ → List (Except PipeError Unit) × PushbackReader ρ
  | [], r => ([], r)
  | c :: cs, r => ((r.unread c).1 :: (unreadMany cs (r.unread c).2).1,
      (unreadMany cs (r.unread c).2).2)

end PushbackReader

/-- The data members of `PushbackInputStream`, `inputStream_` of `FilterInputStream`
included. -/
structure PushbackInputStream (ρ : Type) where
  inputStream_ : Option ρ
  pushbackBuffer_ : List Byte
  bufferPos_ : Nat

namespace PushbackInputStream

/-- The constructor `PushbackInputStream(inputStream, bufferSize)`. -/
def new {ρ : Type} (inputStream : Option ρ) (bufferSize : Nat) : PushbackInputStream ρ :=
  { inputStream_ := inputStream, pushbackBuffer_ := List.replicate bufferSize 0,
    bufferPos_ := bufferSize }

/-- The member `read()`; `inRead` is `read()` of the stream underneath. -/
def read {ρ : Type} (inRead : ρ → Except PipeError Byte × ρ) (s : PushbackInputStream ρ) :
    Except PipeError Byte × PushbackInputStream ρ :=
  if s.bufferPos_ < s.pushbackBuffer_.length then
    match s.pushbackBuffer_[s.bufferPos_]? with
    | none => (.error .undefinedBehaviour, s)
    | some b => (.ok b, { s with bufferPos_ := wrapSize (s.bufferPos_ + 1) })
  else
    match s.inputStream_ with
    | none => (.error .undefinedBehaviour, s)
    | some u => ((inRead u).1, { s with inputStream_ := some (inRead u).2 })

/-- The loop of `unread(buffer, offset, len)`:
`pushbackBuffer_[--bufferPos_] = buffer[offset + len - i - 1]`; `remaining` is `len - i`. -/
def unreadLoop {ρ : Type} (buffer : List Byte) (offset len : Nat) :
    Nat → Nat → PushbackInputStream ρ → Except PipeError Unit × PushbackInputStream ρ
  | 0, _, s => (.ok (), s)
  | remaining + 1, i, s =>
    match buffer[wrapSize (offset + len + 2 ^ 64 - i - 1)]? with
    | none => (.error .undefinedBehaviour, s)
    | some b =>
      if wrapSize (s.bufferPos_ + 2 ^ 64 - 1) < s.pushbackBuffer_.length then
        unreadLoop buffer offset len remaining (wrapSize (i + 1))
          { s with bufferPos_ := wrapSize (s.bufferPos_ + 2 ^ 64 - 1),
                   pushbackBuffer_ :=
                     s.pushbackBuffer_.set (wrapSize (s.bufferPos_ + 2 ^ 64 - 1)) b }
      else (.error .undefinedBehaviour, s)

/-- The member `unread(buffer, offset, len)`. -/
def unreadFrom {ρ : Type} (s : PushbackInputStream ρ) (buffer : List Byte) (offset len : Nat) :
    Except PipeError Unit × PushbackInputStream ρ :=
  if len > s.bufferPos_ then (.error .overflowError, s)
  else unreadLoop buffer offset len len 0 s

/-- The member `unread(b)`. -/
def unread {ρ : Type} (s : PushbackInputStream ρ) (b : Byte) :
    Except PipeError Unit × PushbackInputStream ρ :=
  if s.bufferPos_ = 0 then (.error .overflowError, s)
  else if s.bufferPos_ - 1 < s.pushbackBuffer_.length then
    (.ok (), { s with bufferPos_ := s.bufferPos_ - 1,
                      pushbackBuffer_ := s.pushbackBuffer_.set (s.bufferPos_ - 1) b })
  else (.error .undefinedBehaviour, s)

/-- The `n` next calls `read()`: the outcomes in order and the stream afterwards. -/
def readMany {ρ : Type} (inRead : ρ → Except PipeError Byte × ρ) :
    Nat → PushbackInputStream ρ → List (Except PipeError Byte) × PushbackInputStream ρ
  | 0, s => ([], s)
  | n + 1, s => ((s.read inRead).1 :: (readMany inRead n (s.read inRead).2).1,
      (readMany inRead n (s.read inRead).2).2)

end PushbackInputStream

/-! ## BufferedOutputStream

The stream underneath is any implementation of `AbstractOutputStream`: a state of some type
`ρ` with its `write(buffer, offset, len)` and its `flush()`. -/

/-- The data members of `BufferedOutputStream`, `outputStream_` of `FilterOutputStream`
included. -/
structure BufferedOutputStream (ρ : Type) where
  outputStream_ : Option ρ
  bufferSize_ : Nat
  buffer_ : List Byte
  bufferPosition_ : Nat := 0

namespace BufferedOutputStream

/-- The constant `DEFAULT_BUFFER_SIZE`. -/
def DEFAULT_BUFFER_SIZE : Nat := 8192

/-- The constructor `BufferedOutputStream(out, size)`: `bufferSize_(size), buffer_(size),
bufferPosition_(0)`; the test `!&outputStream_` is never true, a zero `size` throws. -/
def new {ρ : Type} (out : Option ρ) (size : Nat) : Except PipeError (BufferedOutputStream ρ) :=
  if size = 0 then .error .invalidArgument
  else .ok { outputStream_ := out, bufferSize_ := size, buffer_ := List.replicate size 0,
             bufferPosition_ := 0 }

/-- The member `flushBuffer()`; `outWrite` is `write(buffer, offset, len)` of the stream
underneath. -/
def flushBuffer {ρ : Type} (outWrite : ρ → List Byte → Nat → Nat → Except PipeError Unit × ρ)
    (s : BufferedOutputStream ρ) : Except PipeError Unit × BufferedOutputStream ρ :=
  if s.bufferPosition_ > 0 then
    match s.outputStream_ with
    | none => (.error .undefinedBehaviour, s)
    | some u =>
      match outWrite u s.buffer_ 0 s.bufferPosition_ with
      | (.error e, u1) => (.error e, { s with outputStream_ := some u1 })
      | (.ok (), u1) => (.ok (), { s with outputStream_ := some u1, bufferPosition_ := 0 })
  else (.ok (), s)

/-- The member `write(b)`. -/
def write {ρ : Type} (outWrite : ρ → List Byte → Nat → Nat → Except PipeError Unit × ρ)
    (s : BufferedOutputStream ρ) (b : Byte) : Except PipeError Unit × BufferedOutputStream ρ :=
  match (if s.bufferPosition_ ≥ s.bufferSize_ then flushBuffer outWrite s else (.ok (), s)) with
  | (.error e, s1) => (.error e, s1)
  | (.ok (), s1) =>
    if s1.bufferPosition_ < s1.buffer_.length then
      (.ok (), { s1 with buffer_ := s1.buffer_.set s1.bufferPosition_ b,
                         bufferPosition_ := wrapSize (s1.bufferPosition_ + 1) })
    else (.error .undefinedBehaviour, s1)

/-- The loop of `write(data, offset, len)`.  `std::memcpy` of `bytesToCopy` bytes from
`&data[offset + bytesWritten]` to `&buffer_[bufferPosition_]` is undefined behaviour when
either range leaves its vector.  An iteration with `bytesToCopy == 0` changes nothing, so the
loop never ends; every other iteration raises `bytesWritten`, so `len - bytesWritten`
iterations suffice, and `fuel` is the number of iterations left. -/
def writeLoop {ρ : Type} (outWrite : ρ → List Byte → Nat → Nat → Except PipeError Unit × ρ)
    (data : List Byte) (offset len : Nat) :
    Nat → Nat → BufferedOutputStream ρ → Except PipeError Unit × BufferedOutputStream ρ
  | 0, bytesWritten, s =>
    if bytesWritten < len then (.error .doesNotReturn, s) else (.ok (), s)
  | fuel + 1, bytesWritten, s =>
    if bytesWritten < len then
      match (if s.bufferPosition_ = s.bufferSize_ then flushBuffer outWrite s
             else (.ok (), s)) with
      | (.error e, s1) => (.error e, s1)
      | (.ok (), s1) =>
        if min (len - bytesWritten) (wrapSize (s1.bufferSize_ + 2 ^ 64 - s1.bufferPosition_)) = 0
        then (.error .doesNotReturn, s1)
        else if s1.bufferPosition_ < s1.buffer_.length ∧
            wrapSize (offset + bytesWritten) < data.length ∧
            s1.bufferPosition_ +
              min (len - bytesWritten) (wrapSize (s1.bufferSize_ + 2 ^ 64 - s1.bufferPosition_))
              ≤ s1.buffer_.length ∧
            wrapSize (offset + bytesWritten) +
              min (len - bytesWritten) (wrapSize (s1.bufferSize_ + 2 ^ 64 - s1.bufferPosition_))
              ≤ data.length then
          writeLoop outWrite data offset len fuel
            (wrapSize (bytesWritten +
              min (len - bytesWritten) (wrapSize (s1.bufferSize_ + 2 ^ 64 - s1.bufferPosition_))))
            { s1 with
              buffer_ := s1.buffer_.take s1.bufferPosition_ ++
                (data.drop (wrapSize (offset + bytesWritten))).take
                  (min (len - bytesWritten)
                    (wrapSize (s1.bufferSize_ + 2 ^ 64 - s1.bufferPosition_))) ++
                s1.buffer_.drop (s1.bufferPosition_ +
                  min (len - bytesWritten)
                    (wrapSize (s1.bufferSize_ + 2 ^ 64 - s1.bufferPosition_))),
              bufferPosition_ := wrapSize (s1.bufferPosition_ +
                min (len - bytesWritten)
                  (wrapSize (s1.bufferSize_ + 2 ^ 64 - s1.bufferPosition_))) }
        else (.error .undefinedBehaviour, s1)
    else (.ok (), s)

/-- The member `write(data, offset, len)`. -/
def writeFrom {ρ : Type} (outWrite : ρ → List Byte → Nat → Nat → Except PipeError Unit × ρ)
    (s : BufferedOutputStream ρ) (data : List Byte) (offset len : Nat) :
    Except PipeError Unit × BufferedOutputStream ρ :=
  if wrapSize (offset + len) > data.length then (.error .outOfRange, s)
  else writeLoop outWrite data offset len len 0 s

/-- The member `flush()`: `flushBuffer(); outputStream_->flush();`; `outFlush` is `flush()` of
the stream underneath. -/
def flush {ρ : Type} (outWrite : ρ → List Byte → Nat → Nat → Except PipeError Unit × ρ)
    (outFlush : ρ → Except PipeError Unit × ρ) (s : BufferedOutputStream ρ) :
    Except PipeError Unit × BufferedOutputStream ρ :=
  match flushBuffer outWrite s with
  | (.error e, s1) => (.error e, s1)
  | (.ok (), s1) =>
    match s1.outputStream_ with
    | none => (.error .undefinedBehaviour, s1)
    | some u => ((outFlush u).1, { s1 with outputStream_ := some (outFlush u).2 })

/-- A call of one of the two `write` members. -/
inductive Op where
  | write (b : Byte)
  | writeFrom (data : List Byte) (offset len : Nat)

/-- The bytes a call is asked to write. -/
def Op.bytes : Op → List Byte
  | .write b => [b]
  | .writeFrom data offset len => (data.drop offset).take len

/-- The arguments of the call are in range: `offset + len <= data.size()`, and the size of a
vector is a `size_t`. -/
def Op.InRange : Op → Prop
  | .write _ => True
  | .writeFrom data offset len => offset + len ≤ data.length ∧ data.length < 2 ^ 64

/-- One call: its outcome and the stream after it. -/
def perform {ρ : Type} (outWrite : ρ → List Byte → Nat → Nat → Except PipeError Unit × ρ)
    (s : BufferedOutputStream ρ) : Op → Except PipeError Unit × BufferedOutputStream ρ
  | .write b => write outWrite s b
  | .writeFrom data offset len => writeFrom outWrite s data offset len

/-- A sequence of calls: the outcomes in order and the stream at the end. -/
def run {ρ : Type} (outWrite : ρ → List Byte → Nat → Nat → Except PipeError Unit × ρ) :
    List Op → BufferedOutputStream ρ →
      List (Except PipeError Unit) × BufferedOutputStream ρ
  | [], s => ([], s)
  | op :: ops, s =>
    ((perform outWrite s op).1 :: (run outWrite ops (perform outWrite s op).2).1,
      (run outWrite ops (perform outWrite s op).2).2)

/-- The bytes a sequence of calls is asked to write, in order. -/
def written : List Op → List Byte
  | [] => []
  | op :: ops => op.bytes ++ written ops

/-- The stream has buffer size `size`, its position is inside the buffer, and the bytes the
stream underneath has received followed by the buffered bytes are `bs`. -/
def Holds {ρ : Type} (received : ρ → List Byte) (size : Nat) (s : BufferedOutputStream ρ)
    (bs : List Byte) : Prop :=
  s.bufferSize_ = size ∧ s.buffer_.length = size ∧ s.bufferPosition_ ≤ size ∧
    ∃ u, s.outputStream_ = some u ∧ received u ++ s.buffer_.take s.bufferPosition_ = bs

end BufferedOutputStream

end common.io

/-!
# The worker pool of `common::thread`

`ThreadPool` is embedded as a step model.  The state holds the data members; the threads of
`workers_` are represented by where each of them stands in `Worker()`.  One step is one
critical section under `queueMutex_` (of `Submit`, `Shutdown`, `ShutdownNow` or `Worker`) or
the call of a task by the worker that took it.  `wait_for` returns when its predicate holds
or when the idle time has passed, so a waiting worker may enter its critical section at any
step; how long a step takes is not modelled, and neither are `join` and the futures.
A task is identified by a number, the identity of the `std::function` object in the queue.
-/

namespace common.thread

/-- The exception thrown by the pool: `std::runtime_error("Task queue is full")`. -/
inductive PoolError where
  | queueFull
  deriving DecidableEq

/-- The identity of a queued `std::function<void()>`. -/
abbrev TaskId := Nat

/-- Where a thread of `workers_` stands in `Worker()`: about to enter the critical section of
the loop, holding a task it has taken and will call, or returned. -/
inductive WorkerState where
  | waiting
  | running (task : TaskId)
  | terminated
  deriving DecidableEq

/-- The data members of `ThreadPool` (mutex and condition variable apart). -/
structure ThreadPool where
  workers_ : List WorkerState := []
  task_queue_ : List TaskId := []
  stop_ : Bool := false
  coreThreadCount_ : Nat
  activeThreadCount_ : Nat := 0
  maxThreadCount_ : Nat
  maxQueueSize_ : Nat
  threadIdleTime_ : Nat
  deriving DecidableEq

namespace ThreadPool

/-- The member `AddWorker()`. -/
def AddWorker (pool : ThreadPool) : Bool × ThreadPool :=
  if pool.activeThreadCount_ ≥ pool.maxThreadCount_ then (false, pool)
  else (true, { pool with activeThreadCount_ := pool.activeThreadCount_ + 1,
                          workers_ := pool.workers_ ++ [.waiting] })

/-- The loop of the constructor: `AddWorker()` once for each `i < coreThreadCount_`. -/
def constructLoop : Nat → ThreadPool → ThreadPool
  | 0, pool => pool
  | n + 1, pool => constructLoop n pool.AddWorker.2

/-- The constructor `ThreadPool(core_threads, max_threads, queue_size, idle_time)`;
`activeThreadCount_` is value-initialised to zero. -/
def new (core_threads max_threads queue_size idle_time : Nat) : Except PoolError ThreadPool :=
  .ok (constructLoop core_threads
    { coreThreadCount_ := core_threads, maxThreadCount_ := max_threads,
      maxQueueSize_ := queue_size, threadIdleTime_ := idle_time })

/-- The critical section of `Submit`: throws when the queue is full, otherwise appends the
task. -/
def Submit (pool : ThreadPool) (task : TaskId) : Except PoolError Unit × ThreadPool :=
  if pool.task_queue_.length ≥ pool.maxQueueSize_ then (.error .queueFull, pool)
  else (.ok (), { pool with task_queue_ := pool.task_queue_ ++ [task] })

/-- The critical section of `Shutdown`: `stop_ = true`. -/
def Shutdown (pool : ThreadPool) : ThreadPool :=
  { pool with stop_ := true }

/-- The loop `while (!task_queue_.empty()) task_queue_.pop();`. -/
def popAll : List TaskId → List TaskId
  | [] => []
  | _ :: rest => popAll rest

/-- The critical section of `ShutdownNow`: `stop_ = true` and the queue is emptied. -/
def ShutdownNow (pool : ThreadPool) : ThreadPool :=
  { pool with stop_ := true, task_queue_ := popAll pool.task_queue_ }

/-- The critical section of the loop of `Worker()`, entered after `wait_for` has returned:
where the worker stands afterwards, and the pool. -/
def Worker (pool : ThreadPool) : WorkerState × ThreadPool :=
  if pool.stop_ && pool.task_queue_.isEmpty then (.terminated, pool)
  else if pool.task_queue_.isEmpty && decide (pool.activeThreadCount_ > pool.coreThreadCount_) then
    (.terminated, { pool with activeThreadCount_ := pool.activeThreadCount_ - 1 })
  else
    match pool.task_queue_ with
    | [] => (.waiting, pool)
    | task :: rest => (.running task, { pool with task_queue_ := rest })

/-! ## The step model -/

/-- What a step does that can be observed. -/
inductive Event where
  | submitted (task : TaskId)
  | rejected (task : TaskId)
  | dequeued (worker : Nat) (task : TaskId)
  | invoked (worker : Nat) (task : TaskId)
  | exited (worker : Nat)
  deriving DecidableEq

/-- A step of the pool: a call of `Submit`, `Shutdown` or `ShutdownNow` by a client, or the
next move of the worker thread `workers_[i]`. -/
inductive Step where
  | submit (task : TaskId)
  | shutdown
  | shutdownNow
  | worker (i : Nat)
  deriving DecidableEq

/-- The next move of the worker thread `workers_[i]`: a waiting worker goes through the
critical section of its loop, a worker holding a task calls it and returns to the head of
the loop, a worker that has returned does nothing. -/
def workerStep (pool : ThreadPool) (i : Nat) : List Event × ThreadPool :=
  match pool.workers_[i]? with
  | none => ([], pool)
  | some .terminated => ([], pool)
  | some (.running task) =>
    ([.invoked i task], { pool with workers_ := pool.workers_.set i .waiting })
  | some .waiting =>
    (match pool.Worker.1 with
      | .waiting => []
      | .running task => [.dequeued i task]
      | .terminated => [.exited i],
     { pool.Worker.2 with workers_ := pool.Worker.2.workers_.set i pool.Worker.1 })

/-- One step: its events and the pool after it. -/
def step (pool : ThreadPool) : Step → List Event × ThreadPool
  | .submit task =>
    (match (pool.Submit task).1 with
      | .ok _ => [.submitted task]
      | .error _ => [.rejected task],
     (pool.Submit task).2)
  | .shutdown => ([], pool.Shutdown)
  | .shutdownNow => ([], pool.ShutdownNow)
  | .worker i => pool.workerStep i

/-- A sequence of steps: all events in order and the pool at the end. -/
def run (pool : ThreadPool) : List Step → List Event × ThreadPool
  | [] => ([], pool)
  | st :: rest => ((pool.step st).1 ++ ((pool.step st).2.run rest).1, ((pool.step st).2.run rest).2)

/-- The tasks of the successful `Submit` calls, in order. -/
def submittedOf : List Event → List TaskId
  | [] => []
  | .submitted task :: rest => task :: submittedOf rest
  | _ :: rest => submittedOf rest

/-- The tasks taken from the queue by workers, in order. -/
def dequeuedOf : List Event → List TaskId
  | [] => []
  | .dequeued _ task :: rest => task :: dequeuedOf rest
  | _ :: rest => dequeuedOf rest

/-- The tasks called by workers, in order. -/
def invokedOf : List Event → List TaskId
  | [] => []
  | .invoked _ task :: rest => task :: invokedOf rest
  | _ :: rest => invokedOf rest

/-- The tasks that workers have taken and not yet called. -/
def heldOf : List WorkerState → List TaskId
  | [] => []
  | .running task :: rest => task :: heldOf rest
  | _ :: rest => heldOf rest

/-- Every thread of `workers_` has returned from `Worker()`. -/
def AllTerminated (pool : ThreadPool) : Prop :=
  ∀ w ∈ pool.workers_, w = WorkerState.terminated

/-- Some thread of `workers_` has not returned from `Worker()`. -/
def HasLiveWorker (pool : ThreadPool) : Prop :=
  ∃ w ∈ pool.workers_, w ≠ WorkerState.terminated

/-- A worker is idle when it is at the head of its loop with no task (it waits on the
condition variable). -/
def NoIdleWorker (pool : ThreadPool) : Prop :=
  WorkerState.waiting ∉ pool.workers_

end ThreadPool

end common.thread

/-!
# `Integer` of `common::entity::base_type`

An `int` is a 32-bit two's-complement integer.  A result outside its range is undefined
behaviour in C++; the embedding lets it wrap modulo `2 ^ 32`, which is what the compiled
code computes.
-/

namespace common.entity.base_type

/-- Reduction of an integer to the range of `int`, modulo `2 ^ 32`. -/
def wrapInt (n : Int) : Int := (n + 2 ^ 31) % 2 ^ 32 - 2 ^ 31

/-- The data member of `Integer`. -/
structure Integer where
  value_ : Int := 0
  deriving DecidableEq

namespace Integer

/-- The constant `MIN_VALUE`. -/
def MIN_VALUE : Int := -2 ^ 31

/-- The constant `MAX_VALUE`. -/
def MAX_VALUE : Int := 2 ^ 31 - 1

/-- The constructor `Integer(int value)`. -/
def new (value : Int) : Integer := { value_ := value }

/-- The member `compareTo(other)`: `value_ - other.value_`. -/
def compareTo (self other : Integer) : Int :=
  wrapInt (self.value_ - other.value_)

end Integer

end common.entity.base_type

/-!
# `UuidGenerator` of `common::entity::util`

A `std::string` is the list of its characters.  The two `uint64_t` members are natural
numbers below `2 ^ 64`; a shift to the left drops the bits above bit 63.
-/

namespace common.entity.util

/-- Reduction of a natural number to the range of `uint64_t`. -/
def wrap64 (n : Nat) : Nat := n % 2 ^ 64

/-- The data members of `UuidGenerator`. -/
structure UuidGenerator where
  mostSignificantBits : Nat := 0
  leastSignificantBits : Nat := 0
  deriving DecidableEq

/-- The character that `std::hex` output prints for the digit `d`: `0`-`9`, `a`-`f`. -/
def hexDigit (d : Nat) : common.io.CChar :=
  if d < 10 then Fin.ofNat (48 + d) else Fin.ofNat (97 + (d - 10))

/-- The hexadecimal digits of `v`, most significant first and without leading zeros (one
digit for zero), in front of `acc`; `fuel` bounds the number of digits. -/
def hexDigitsAux : Nat → Nat → List common.io.CChar → List common.io.CChar
  | 0, _, acc => acc
  | fuel + 1, v, acc =>
    if v < 16 then hexDigit v :: acc
    else hexDigitsAux fuel (v / 16) (hexDigit (v % 16) :: acc)

/-- What `oss << std::hex << v` prints for an unsigned 64-bit `v`: at most 16 digits. -/
def hexDigits (v : Nat) : List common.io.CChar :=
  hexDigitsAux 16 v []

/-- What `oss << std::hex << std::setfill('0') << std::setw(w) << v` prints: the digits of
`v`, padded on the left with `'0'` to the width `w`. -/
def putHex (w v : Nat) : List common.io.CChar :=
  List.replicate (w - (hexDigits v).length) 48 ++ hexDigits v

namespace UuidGenerator

/-- The constructor `UuidGenerator(mostSigBits, leastSigBits)`. -/
def new (mostSigBits leastSigBits : Nat) : UuidGenerator :=
  { mostSignificantBits := mostSigBits, leastSignificantBits := leastSigBits }

/-- The member `toString()`; the character 45 is `'-'`. -/
def toString (u : UuidGenerator) : List common.io.CChar :=
  putHex 8 (u.mostSignificantBits >>> 32) ++ [(45 : common.io.CChar)] ++
    putHex 4 ((u.mostSignificantBits >>> 16) &&& 0xFFFF) ++ [(45 : common.io.CChar)] ++
    putHex 4 (u.mostSignificantBits &&& 0xFFFF) ++ [(45 : common.io.CChar)] ++
    putHex 4 (u.leastSignificantBits >>> 48) ++ [(45 : common.io.CChar)] ++
    putHex 12 (u.leastSignificantBits &&& 0xFFFFFFFFFFFF)

/-- The value `hexValue` of the loop of `fromString`:
`c >= '0' && c <= '9' ? c - '0' : c - 'a' + 10`, an `int` converted to `uint64_t`. -/
def hexValue (c : common.io.CChar) : Nat :=
  ((if 48 ≤ c.toInt ∧ c.toInt ≤ 57 then c.toInt - 48 else c.toInt - 97 + 10) % 2 ^ 64).toNat

/-- The body of the loop of `fromString` on the state `(msb, lsb, idx)`. -/
def fromStringStep (st : Nat × Nat × Nat) (c : common.io.CChar) : Nat × Nat × Nat :=
  if c = 45 then st
  else if st.2.2 < 16 then
    (wrap64 (st.1 <<< 4) ||| hexValue c, st.2.1, common.io.wrapSize (st.2.2 + 1))
  else
    (st.1, wrap64 (st.2.1 <<< 4) ||| hexValue c, common.io.wrapSize (st.2.2 + 1))

/-- The static member `fromString(name)`. -/
def fromString (name : List common.io.CChar) : UuidGenerator :=
  { mostSignificantBits := (name.foldl fromStringStep (0, 0, 0)).1,
    leastSignificantBits := (name.foldl fromStringStep (0, 0, 0)).2.1 }

end UuidGenerator

/-- A lower-case hexadecimal digit: `'0'`-`'9'` or `'a'`-`'f'`. -/
def IsLowerHex (c : common.io.CChar) : Prop :=
  (48 ≤ c.val ∧ c.val ≤ 57) ∨ (97 ≤ c.val ∧ c.val ≤ 102)

/-- The `w` lowest hexadecimal digits of `v`, most significant first. -/
def fixedHex : Nat → Nat → List common.io.CChar
  | 0, _ => []
  | w + 1, v => fixedHex w (v / 16) ++ [hexDigit (v % 16)]

end common.entity.util

namespace common.io

/-! ## Ring arithmetic -/

theorem succ_mod_of_lt {x c : Nat} (h : x < c) :
    (x + 1) % c = if x + 1 < c then x + 1 else 0 := by
  split_ifs with h1
  · exact Nat.mod_eq_of_lt h1
  · have hc : x + 1 = c := by omega
    rw [hc, Nat.mod_self]

theorem add_mod_of_lt {a i c : Nat} (ha : a < c) (hi : i < c) :
    (a + i) % c = if a + i < c then a + i else a + i - c := by
  split_ifs with h1
  · exact Nat.mod_eq_of_lt h1
  · rw [Nat.mod_eq_sub_mod (by omega)]
    exact Nat.mod_eq_of_lt (by omega)

theorem ring_count {i o c : Nat} (hi : i < c) (ho : o < c) :
    (i + c - o) % c = if o ≤ i then i - o else i + c - o := by
  split_ifs with h1
  · have e : i + c - o = (i - o) + c := by omega
    rw [e, Nat.add_mod_right]
    exact Nat.mod_eq_of_lt (by omega)
  · exact Nat.mod_eq_of_lt (by omega)

/-! ## The invariant of the byte pipe -/

namespace PipedInputStream

theorem WF.pos {c : Nat} {s : PipedInputStream} (h : WF c s) : 0 < c :=
  Nat.lt_of_le_of_lt (Nat.zero_le _) h.hin

theorem WF.count_eq {c : Nat} {s : PipedInputStream} (h : WF c s) :
    s.count = if s.out_ ≤ s.in_ then s.in_ - s.out_ else s.in_ + c - s.out_ := by
  unfold count
  rw [h.len]
  exact ring_count h.hin h.hout

theorem WF.count_lt {c : Nat} {s : PipedInputStream} (h : WF c s) : s.count < c := by
  unfold count
  rw [h.len]
  exact Nat.mod_lt _ h.pos

theorem WF.available_eq {c : Nat} {s : PipedInputStream} (h : WF c s) :
    s.available = (.ok s.count, s) := by
  have hp := h.pos
  have hl := h.len
  unfold available count
  rw [if_neg (by omega)]

theorem WF.count_zero_iff {c : Nat} {s : PipedInputStream} (h : WF c s) :
    s.count = 0 ↔ s.in_ = s.out_ := by
  have h1 := h.hin
  have h2 := h.hout
  rw [h.count_eq]
  split_ifs <;> omega

theorem WF.count_full_iff {c : Nat} {s : PipedInputStream} (h : WF c s) :
    s.count = c - 1 ↔ (s.in_ + 1) % s.buffer_.length = s.out_ := by
  have h1 := h.hin
  have h2 := h.hout
  rw [h.count_eq, h.len, succ_mod_of_lt h.hin]
  split_ifs <;> omega

theorem wf_newConnected (src : Option Nat) {c : Nat} (hc : 1 ≤ c) :
    WF c (newConnected src c) := by
  constructor
  · simp [newConnected, connect, new]
  · simpa [newConnected, connect, new] using hc
  · simpa [newConnected, connect, new] using hc

theorem WF.connect {c : Nat} {s : PipedInputStream} (h : WF c s) (src : Option Nat) :
    WF c (s.connect src).2 := by
  unfold PipedInputStream.connect
  split_ifs
  · exact h
  · exact ⟨h.len, h.hin, h.hout⟩

/-- What `receive` does on a well-formed state. -/
theorem WF.receive_spec {c : Nat} {s : PipedInputStream} (h : WF c s) (b : Byte) :
    (s.count = c - 1 ∧ s.receive b = (.error .overflow, s)) ∨
    (s.count < c - 1 ∧ (s.receive b).1 = .ok () ∧ WF c (s.receive b).2 ∧
      (s.receive b).2.count = s.count + 1 ∧ (s.receive b).2.queued = s.queued ++ [b] ∧
      (s.receive b).2.out_ = s.out_ ∧ (s.receive b).2.src_ = s.src_) := by
  have hp := h.pos
  have hl := h.len
  have h1 := h.hin
  have h2 := h.hout
  have hlt := h.count_lt
  have e2 := h.count_eq
  by_cases hfull : (s.in_ + 1) % s.buffer_.length = s.out_
  · left
    refine ⟨h.count_full_iff.2 hfull, ?_⟩
    unfold receive
    rw [if_neg (by omega), if_pos hfull]
  · right
    have hne : s.count ≠ c - 1 := fun e => hfull (h.count_full_iff.1 e)
    have hrec : s.receive b =
        (.ok (), ⟨s.buffer_.set s.in_ b, (s.in_ + 1) % s.buffer_.length, s.out_, s.src_⟩) := by
      unfold receive
      rw [if_neg (by omega), if_neg hfull, if_pos (by omega)]
    have hi1 : (s.in_ + 1) % c < c := Nat.mod_lt _ hp
    have hi2 := succ_mod_of_lt h1
    have hwf : WF c (s.receive b).2 := by
      rw [hrec]
      refine ⟨?_, ?_, h2⟩
      · simpa using hl
      · show (s.in_ + 1) % s.buffer_.length < c
        rw [hl]
        exact hi1
    have hcnt : (s.receive b).2.count = s.count + 1 := by
      rw [hrec]
      show ((s.in_ + 1) % s.buffer_.length + (s.buffer_.set s.in_ b).length - s.out_) %
        (s.buffer_.set s.in_ b).length = s.count + 1
      rw [List.length_set, hl, ring_count hi1 h2, e2]
      rw [hl] at hfull
      rw [e2] at hne
      split_ifs at hi2 hfull hne ⊢ <;> omega
    refine ⟨by omega, by rw [hrec], hwf, hcnt, ?_, by rw [hrec], by rw [hrec]⟩
    unfold queued
    rw [hcnt, List.range_succ, List.map_append]
    congr 1
    · apply List.map_congr_left
      intro i hi
      rw [List.mem_range] at hi
      rw [hrec]
      simp only [List.length_set, List.getD_eq_getElem?_getD, List.getElem?_set]
      have hidx : s.in_ ≠ (s.out_ + i) % s.buffer_.length := by
        rw [hl, add_mod_of_lt h2 (by omega)]
        split_ifs at e2 ⊢ <;> omega
      rw [if_neg hidx]
    · rw [hrec]
      simp only [List.length_set, List.getD_eq_getElem?_getD, List.getElem?_set, List.map_cons,
        List.map_nil]
      have hidx : s.in_ = (s.out_ + s.count) % s.buffer_.length := by
        rw [hl, add_mod_of_lt h2 hlt]
        split_ifs at e2 ⊢ <;> omega
      rw [if_pos hidx, if_pos (by omega)]
      rfl

/-- What `read()` does on a well-formed state. -/
theorem WF.read_spec {c : Nat} {s : PipedInputStream} (h : WF c s) :
    (s.count = 0 ∧ s.read = (.error .empty, s)) ∨
    (∃ b, s.read.1 = .ok b ∧ WF c s.read.2 ∧ s.read.2.count + 1 = s.count ∧
      s.queued = b :: s.read.2.queued ∧ s.read.2.in_ = s.in_ ∧ s.read.2.src_ = s.src_ ∧
      s.read.2.buffer_ = s.buffer_) := by
  have hp := h.pos
  have hl := h.len
  have h1 := h.hin
  have h2 := h.hout
  have hlt := h.count_lt
  have e2 := h.count_eq
  by_cases hempty : s.in_ = s.out_
  · left
    refine ⟨h.count_zero_iff.2 hempty, ?_⟩
    unfold read
    rw [if_pos hempty]
  · right
    have hb : s.out_ < s.buffer_.length := by omega
    have hget : s.buffer_[s.out_]? = some s.buffer_[s.out_] := List.getElem?_eq_getElem hb
    have hrd : s.read =
        (.ok s.buffer_[s.out_], ⟨s.buffer_, s.in_, (s.out_ + 1) % s.buffer_.length, s.src_⟩) := by
      unfold read
      rw [if_neg hempty, hget]
    have ho1 : (s.out_ + 1) % c < c := Nat.mod_lt _ hp
    have ho2 := succ_mod_of_lt h2
    have hwf : WF c s.read.2 := by
      rw [hrd]
      refine ⟨hl, h1, ?_⟩
      show (s.out_ + 1) % s.buffer_.length < c
      rw [hl]
      exact ho1
    have hcnt : s.read.2.count + 1 = s.count := by
      rw [hrd]
      show (s.in_ + s.buffer_.length - (s.out_ + 1) % s.buffer_.length) % s.buffer_.length + 1 =
        s.count
      rw [hl, ring_count h1 ho1, e2]
      split_ifs at ho2 ⊢ <;> omega
    refine ⟨_, by rw [hrd], hwf, hcnt, ?_, by rw [hrd], by rw [hrd], by rw [hrd]⟩
    unfold queued
    rw [← hcnt, List.range_succ_eq_map, List.map_cons, List.map_map]
    congr 1
    · simp only [Nat.add_zero, List.getD_eq_getElem?_getD]
      rw [Nat.mod_eq_of_lt hb, hget]
      rfl
    · apply List.map_congr_left
      intro i _
      rw [hrd]
      simp only [Function.comp, Nat.succ_eq_add_one]
      rw [Nat.mod_add_mod, Nat.add_assoc, Nat.add_comm 1 i]

theorem WF.receive_wf {c : Nat} {s : PipedInputStream} (h : WF c s) (b : Byte) :
    WF c (s.receive b).2 := by
  rcases h.receive_spec b with ⟨_, e⟩ | ⟨_, _, hwf, _⟩
  · rw [e]; exact h
  · exact hwf

theorem WF.read_wf {c : Nat} {s : PipedInputStream} (h : WF c s) : WF c s.read.2 := by
  rcases h.read_spec with ⟨_, e⟩ | ⟨_, _, hwf, _⟩
  · rw [e]; exact h
  · exact hwf

theorem WF.perform_wf {c : Nat} {s : PipedInputStream} (h : WF c s) (call : Call) :
    WF c (s.perform call).2 := by
  cases call with
  | receive b => exact h.receive_wf b
  | read => exact h.read_wf
  | connect src => exact h.connect src

theorem WF.run_wf {c : Nat} (calls : List Call) :
    ∀ {s : PipedInputStream}, WF c s → WF c (s.run calls).2 := by
  induction calls with
  | nil => intro s h; exact h
  | cons call cs ih => intro s h; exact ih (h.perform_wf call)

theorem Reachable.wf {c : Nat} {s : PipedInputStream} (hc : 1 ≤ c) (h : Reachable c s) :
    WF c s := by
  obtain ⟨src, calls, rfl⟩ := h
  exact WF.run_wf calls (wf_newConnected src hc)

theorem queued_length (s : PipedInputStream) : s.queued.length = s.count := by
  simp [queued]

theorem count_newConnected (src : Option Nat) (c : Nat) : (newConnected src c).count = 0 := by
  simp [newConnected, connect, new, count]

/-- The balance of a call sequence: what is queued at the end is what was queued at the start
plus the successful `receive` calls minus the successful `read()` calls. -/
theorem WF.run_balance {c : Nat} (calls : List Call) :
    ∀ {s : PipedInputStream}, WF c s →
      (s.run calls).2.count + s.okReads calls = s.count + s.okReceives calls := by
  induction calls with
  | nil => intro s _; rfl
  | cons call cs ih =>
    intro s h
    cases call with
    | receive b =>
      have key := ih (h.receive_wf b)
      show ((s.receive b).2.run cs).2.count + (s.receive b).2.okReads cs =
        s.count + ((if (s.receive b).1.toBool then 1 else 0) + (s.receive b).2.okReceives cs)
      rcases h.receive_spec b with ⟨_, e⟩ | ⟨_, e, _, hcnt, _⟩
      · rw [e] at key ⊢
        simp only [Except.toBool, Bool.false_eq_true, if_false] at key ⊢
        omega
      · rw [e]
        simp only [Except.toBool, if_true]
        omega
    | read =>
      have key := ih h.read_wf
      show (s.read.2.run cs).2.count + ((if s.read.1.toBool then 1 else 0) + s.read.2.okReads cs) =
        s.count + s.read.2.okReceives cs
      rcases h.read_spec with ⟨_, e⟩ | ⟨b, e, _, hcnt, _⟩
      · rw [e] at key ⊢
        simp only [Except.toBool, Bool.false_eq_true, if_false] at key ⊢
        omega
      · rw [e]
        simp only [Except.toBool, if_true]
        omega
    | connect src =>
      have key := ih (h.connect src)
      have hc : (s.connect src).2.count = s.count := by
        unfold PipedInputStream.connect
        split_ifs <;> rfl
      show ((s.connect src).2.run cs).2.count + (s.connect src).2.okReads cs =
        s.count + (s.connect src).2.okReceives cs
      omega

/-- Consecutive `receive` calls: the first `c - 1 - count` succeed, all later ones overflow. -/
theorem WF.run_receives {c : Nat} (bs : List Byte) :
    ∀ {s : PipedInputStream}, WF c s →
      (s.run (bs.map Call.receive)).1 =
        List.replicate (min bs.length (c - 1 - s.count)) (.ok none) ++
          List.replicate (bs.length - (c - 1 - s.count)) (.error .overflow) := by
  induction bs with
  | nil => intro s _; simp [run]
  | cons b bs ih =>
    intro s h
    have key := ih (h.receive_wf b)
    show ((s.receive b).1.map (fun _ => none)) :: ((s.receive b).2.run (bs.map Call.receive)).1 = _
    rw [key]
    rcases h.receive_spec b with ⟨hfull, e⟩ | ⟨hlt, e, _, hcnt, _⟩
    · rw [e, hfull]
      simp only [Nat.sub_self, Nat.min_zero, Nat.zero_min, List.replicate_zero, List.nil_append,
        Nat.sub_zero, List.length_cons, List.replicate_succ]
      rfl
    · rw [e, hcnt]
      have e1 : min (bs.length + 1) (c - 1 - s.count) =
          min bs.length (c - 1 - (s.count + 1)) + 1 := by omega
      have e2 : bs.length + 1 - (c - 1 - s.count) = bs.length - (c - 1 - (s.count + 1)) := by
        omega
      rw [List.length_cons, e1, e2, List.replicate_succ]
      rfl

end PipedInputStream

/-! ## Calls through the pointer of the write endpoint -/

theorem callAt_eq {σ α : Type} {heap : List σ} {p : Nat} {obj : σ} (h : heap[p]? = some obj)
    (m : σ → Except PipeError α × σ) : callAt heap p m = ((m obj).1, heap.set p (m obj).2) := by
  unfold callAt
  rw [h]

theorem getElem?_set_of_getElem? {σ : Type} {heap : List σ} {p : Nat} {obj : σ}
    (h : heap[p]? = some obj) (x : σ) : (heap.set p x)[p]? = some x := by
  have hp : p < heap.length := by
    by_contra hn
    rw [List.getElem?_eq_none (by omega)] at h
    exact Option.noConfusion h
  rw [List.getElem?_set, if_pos rfl, if_pos hp]

namespace PipedOutputStream

theorem BoundTo.write_eq {o : PipedOutputStream} {p : Nat} (ho : o.BoundTo p)
    {heap : List PipedInputStream} {s : PipedInputStream} (h : heap[p]? = some s) (b : Byte) :
    o.write b heap = ((s.receive b).1, o, heap.set p (s.receive b).2) := by
  obtain ⟨h1, h2, h3⟩ := ho
  unfold write
  simp only [h1, h2, h3, callAt_eq h]
  rfl

/-- Single-byte writes that all return normally append the bytes to the queue. -/
theorem BoundTo.writeMany_spec {o : PipedOutputStream} {p c : Nat} (ho : o.BoundTo p)
    (ws : List Byte) :
    ∀ {heap : List PipedInputStream} {s : PipedInputStream}, heap[p]? = some s →
      PipedInputStream.WF c s →
      (o.writeMany ws heap).1 = ws.map (fun _ => .ok ()) →
      (o.writeMany ws heap).2.1 = o ∧
      ∃ s1, (o.writeMany ws heap).2.2[p]? = some s1 ∧ PipedInputStream.WF c s1 ∧
        s1.queued = s.queued ++ ws ∧ s1.count = s.count + ws.length := by
  induction ws with
  | nil =>
    intro heap s h hwf _
    exact ⟨rfl, s, h, hwf, by simp, by simp⟩
  | cons b bs ih =>
    intro heap s h hwf hok
    have hw := ho.write_eq h b
    have hstep : o.writeMany (b :: bs) heap =
        ((o.write b heap).1 :: ((o.write b heap).2.1.writeMany bs (o.write b heap).2.2).1,
          ((o.write b heap).2.1.writeMany bs (o.write b heap).2.2).2) := rfl
    rw [hstep, hw] at hok ⊢
    simp only [List.map_cons, List.cons.injEq] at hok
    obtain ⟨hb, hrest⟩ := hok
    rcases hwf.receive_spec b with ⟨_, e⟩ | ⟨_, _, hwf1, hcnt, hq, _⟩
    · rw [e] at hb
      exact Except.noConfusion hb
    · obtain ⟨e1, s1, e2, hwf2, hq2, hc2⟩ :=
        ih (getElem?_set_of_getElem? h (s.receive b).2) hwf1 hrest
      refine ⟨e1, s1, e2, hwf2, ?_, ?_⟩
      · rw [hq2, hq, List.append_assoc]
        rfl
      · rw [hc2, hcnt, List.length_cons]
        omega

end PipedOutputStream

/-- Consecutive `read()` calls through a pointer deliver the queued bytes, oldest first, and
then fail on the empty pipe. -/
theorem readManyAt_spec {p c : Nat} (n : Nat) :
    ∀ {heap : List PipedInputStream} {s : PipedInputStream}, heap[p]? = some s →
      PipedInputStream.WF c s →
      (readManyAt p n heap).1 =
        (s.queued.take n).map .ok ++ List.replicate (n - s.count) (.error .empty) := by
  induction n with
  | zero => intro heap s _ _; simp [readManyAt]
  | succ n ih =>
    intro heap s h hwf
    have hstep : (readManyAt p (n + 1) heap).1 =
        (callAt heap p PipedInputStream.read).1 ::
          (readManyAt p n (callAt heap p PipedInputStream.read).2).1 := rfl
    rw [hstep, callAt_eq h]
    have hnext := getElem?_set_of_getElem? h s.read.2
    rcases hwf.read_spec with ⟨h0, e⟩ | ⟨b, e, hwf1, hcnt, hq, _⟩
    · have hq0 : s.queued = [] := List.eq_nil_of_length_eq_zero (by rw [s.queued_length, h0])
      rw [e] at hnext ⊢
      rw [ih hnext hwf, hq0, h0]
      simp [List.replicate_succ]
    · rw [ih hnext hwf1, hq, e]
      have e1 : n + 1 - s.count = n - s.read.2.count := by omega
      rw [e1]
      simp

namespace PipedOutputStream

/-- Single-byte writes leave the stream bound and the sink in place, whatever they return. -/
theorem BoundTo.writeMany_bound {o : PipedOutputStream} {p : Nat} (ho : o.BoundTo p)
    (ws : List Byte) :
    ∀ {heap : List PipedInputStream} {s : PipedInputStream}, heap[p]? = some s →
      (o.writeMany ws heap).2.1 = o ∧ ∃ s1, (o.writeMany ws heap).2.2[p]? = some s1 := by
  induction ws with
  | nil => intro heap s h; exact ⟨rfl, s, h⟩
  | cons b bs ih =>
    intro heap s h
    have hstep : o.writeMany (b :: bs) heap =
        ((o.write b heap).1 :: ((o.write b heap).2.1.writeMany bs (o.write b heap).2.2).1,
          ((o.write b heap).2.1.writeMany bs (o.write b heap).2.2).2) := rfl
    rw [hstep, ho.write_eq h b]
    exact ih (getElem?_set_of_getElem? h (s.receive b).2)

/-- What `close()` does on a usable stream: it returns normally, marks the stream closed and
closes the sink. -/
theorem BoundTo.close_eq {o : PipedOutputStream} {p : Nat} (ho : o.BoundTo p)
    {heap : List PipedInputStream} {s : PipedInputStream} (h : heap[p]? = some s) :
    o.close heap = (.ok (), ⟨some p, true, false⟩, heap.set p ⟨[], 0, 0, s.src_⟩) := by
  obtain ⟨h1, h2, h3⟩ := ho
  cases o
  simp only at h1 h2 h3
  subst h1 h2 h3
  simp [close, flush, callAt_eq h, PipedInputStream.close]

end PipedOutputStream

/-- On an empty pipe every `read()` through a pointer fails. -/
theorem readManyAt_of_empty {p : Nat} (n : Nat) :
    ∀ {heap : List PipedInputStream} {s : PipedInputStream}, heap[p]? = some s →
      s.in_ = s.out_ → (readManyAt p n heap).1 = List.replicate n (.error .empty) := by
  induction n with
  | zero => intro heap s _ _; rfl
  | succ n ih =>
    intro heap s h he
    have hstep : (readManyAt p (n + 1) heap).1 =
        (callAt heap p PipedInputStream.read).1 ::
          (readManyAt p n (callAt heap p PipedInputStream.read).2).1 := rfl
    have hr : s.read = (.error .empty, s) := by
      unfold PipedInputStream.read
      rw [if_pos he]
    rw [hstep, callAt_eq h, hr, ih (getElem?_set_of_getElem? h s) he, List.replicate_succ]

namespace PipedOutputStream

theorem BoundTo.writeFrom_eq {o : PipedOutputStream} {p : Nat} (ho : o.BoundTo p)
    (buffer : List Byte) (offset len : Nat) (heap : List PipedInputStream)
    (hr : wrapSize (offset + len) ≤ buffer.length) :
    o.writeFrom buffer offset len heap =
      ((writeLoop buffer offset p len 0 heap).1, o, (writeLoop buffer offset p len 0 heap).2) := by
  obtain ⟨h1, h2, h3⟩ := ho
  unfold writeFrom
  simp only [h1, h2, h3]
  rw [if_neg (by simp), if_neg (by omega)]

end PipedOutputStream

/-! ## Properties of the pipes -/


/-- C1. FIFO on the byte pipe: in a pipe of capacity `c ≥ 2` whose state is reachable and
empty (`in_ == out_`), when the writes of `w1..wN` through the bound `PipedOutputStream` all
return normally, the next `N` calls of `read()` return `w1..wN` in that order. -/
theorem C1_byte_pipe_fifo (c : Nat) (hc : 2 ≤ c) (s : PipedInputStream)
    (hs : s.Reachable c) (hempty : s.in_ = s.out_) (o : PipedOutputStream) (p : Nat)
    (heap : List PipedInputStream) (ho : o.BoundTo p) (hp : heap[p]? = some s)
    (ws : List Byte) (hw : (o.writeMany ws heap).1 = ws.map (fun _ => .ok ())) :
    (readManyAt p ws.length (o.writeMany ws heap).2.2).1 = ws.map .ok := by
  have hwf := hs.wf (by omega)
  have h0 : s.count = 0 := hwf.count_zero_iff.2 hempty
  have hq0 : s.queued = [] := List.eq_nil_of_length_eq_zero (by rw [s.queued_length, h0])
  obtain ⟨_, s1, h1, hwf1, hq1, hc1⟩ := ho.writeMany_spec ws hp hwf hw
  rw [readManyAt_spec ws.length h1 hwf1, hq1, hq0, hc1, h0]
  simp

/-- C1 on a fresh pipe of capacity 4 and the bytes `1, 2, 3`. -/
theorem C1_byte_pipe_fifo_witness :
    (readManyAt 0 3 ((PipedOutputStream.mk (some 0) false true).writeMany [1, 2, 3]
      [PipedInputStream.new 4]).2.2).1 = [.ok 1, .ok 2, .ok 3] :=
  C1_byte_pipe_fifo 4 (by decide) (PipedInputStream.new 4) ⟨none, [], rfl⟩ rfl
    (PipedOutputStream.mk (some 0) false true) 0 [PipedInputStream.new 4] ⟨rfl, rfl, rfl⟩ rfl
    [1, 2, 3] rfl

/-- C2 at a failing input: a character pipe of capacity 2, after `write`, `read`, `write`,
`read` (every written character read), accepts three more writes `1, 2, 3` although it has
room for one, and the next three reads return `3, 2, 3`. -/
theorem C2_char_pipe_overrun :
    PipedReader.new 2 = .ok (PipedReader.mk none [0, 0] 2 0 0) ∧
    (PipedWriter.new (some 0)).writeMany [97] [PipedReader.mk none [0, 0] 2 0 0] =
      ([.ok ()], PipedWriter.new (some 0), [PipedReader.mk none [97, 0] 2 0 1]) ∧
    readCharsAt 0 1 [PipedReader.mk none [97, 0] 2 0 1] =
      ([.ok 97], [PipedReader.mk none [97, 0] 2 1 1]) ∧
    (PipedWriter.new (some 0)).writeMany [98] [PipedReader.mk none [97, 0] 2 1 1] =
      ([.ok ()], PipedWriter.new (some 0), [PipedReader.mk none [97, 98] 2 1 0]) ∧
    readCharsAt 0 1 [PipedReader.mk none [97, 98] 2 1 0] =
      ([.ok 98], [PipedReader.mk none [97, 98] 2 2 0]) ∧
    (PipedWriter.new (some 0)).writeMany [1, 2, 3] [PipedReader.mk none [97, 98] 2 2 0] =
      ([.ok (), .ok (), .ok ()], PipedWriter.new (some 0), [PipedReader.mk none [3, 2] 2 2 1]) ∧
    (readCharsAt 0 3 [PipedReader.mk none [3, 2] 2 2 1]).1 = [.ok 3, .ok 2, .ok 3] := by
  refine ⟨rfl, rfl, rfl, rfl, rfl, rfl, rfl⟩

/-- C3. Capacity invariant of the byte pipe: for a pipe of capacity `c ≥ 1`, after every
sequence of `receive`, `read()` and `connect` calls, whatever their outcomes, `available()`
returns a value between `0` and `c - 1`. -/
theorem C3_capacity_invariant (c : Nat) (hc : 1 ≤ c) (src : Option Nat)
    (calls : List PipedInputStream.Call) :
    ∃ a, ((PipedInputStream.newConnected src c).run calls).2.available.1 = .ok a ∧
      0 ≤ a ∧ a ≤ c - 1 := by
  have hwf := PipedInputStream.WF.run_wf calls (PipedInputStream.wf_newConnected src hc)
  refine ⟨_, by rw [hwf.available_eq], Nat.zero_le _, ?_⟩
  have := hwf.count_lt
  omega

/-- C3 on a pipe of capacity 3 that is filled, drained and written again. -/
theorem C3_capacity_invariant_witness :
    ∃ a, ((PipedInputStream.newConnected none 3).run
        [.receive 5, .receive 6, .receive 7, .read, .read, .read, .receive 8]).2.available.1 =
          .ok a ∧ 0 ≤ a ∧ a ≤ 3 - 1 :=
  C3_capacity_invariant 3 (by decide) none
    [.receive 5, .receive 6, .receive 7, .read, .read, .read, .receive 8]

/-- C4. `available()` counts the queued elements: in every state reached from a fresh pipe of
capacity `c ≥ 1` by `receive`, `read()` and `connect` calls, `available()` returns
`(in_ - out_ + c) mod c`, and that is the number of `receive` calls that returned normally
minus the number of `read()` calls that returned normally. -/
theorem C4_available_counts (c : Nat) (hc : 1 ≤ c) (src : Option Nat)
    (calls : List PipedInputStream.Call) :
    ∃ a, ((PipedInputStream.newConnected src c).run calls).2.available.1 = .ok a ∧
      (a : Int) = (((PipedInputStream.newConnected src c).run calls).2.in_ -
        ((PipedInputStream.newConnected src c).run calls).2.out_ + (c : Int)) % (c : Int) ∧
      (a : Int) = ((PipedInputStream.newConnected src c).okReceives calls : Int) -
        ((PipedInputStream.newConnected src c).okReads calls : Int) := by
  have hwf0 := PipedInputStream.wf_newConnected src hc
  have hwf := PipedInputStream.WF.run_wf calls hwf0
  have hbal := PipedInputStream.WF.run_balance calls hwf0
  rw [PipedInputStream.count_newConnected] at hbal
  have h1 := hwf.hin
  have h2 := hwf.hout
  have e := hwf.count_eq
  refine ⟨_, by rw [hwf.available_eq], ?_, by omega⟩
  rw [e]
  split_ifs with hle
  · rw [Int.add_emod_self, Int.emod_eq_of_lt (by omega) (by omega)]
    omega
  · rw [Int.emod_eq_of_lt (by omega) (by omega)]
    omega

/-- C4 on a pipe of capacity 3 that is filled, drained and written again. -/
theorem C4_available_counts_witness :
    ∃ a, ((PipedInputStream.newConnected none 3).run
        [.receive 5, .receive 6, .receive 7, .read, .read, .read, .receive 8]).2.available.1 =
          .ok a ∧
      (a : Int) = (((PipedInputStream.newConnected none 3).run
          [.receive 5, .receive 6, .receive 7, .read, .read, .read, .receive 8]).2.in_ -
        ((PipedInputStream.newConnected none 3).run
          [.receive 5, .receive 6, .receive 7, .read, .read, .read, .receive 8]).2.out_ +
            ((3 : Nat) : Int)) % ((3 : Nat) : Int) ∧
      (a : Int) = ((PipedInputStream.newConnected none 3).okReceives
          [.receive 5, .receive 6, .receive 7, .read, .read, .read, .receive 8] : Int) -
        ((PipedInputStream.newConnected none 3).okReads
          [.receive 5, .receive 6, .receive 7, .read, .read, .read, .receive 8] : Int) :=
  C4_available_counts 3 (by decide) none
    [.receive 5, .receive 6, .receive 7, .read, .read, .read, .receive 8]

/-- C5. Write-on-full fails and is atomic: in a reachable state of a pipe of capacity
`c ≥ 1`, `receive(b)` throws the overflow error exactly when `available() = c - 1` and returns
normally otherwise; a call that does not return normally leaves the object as it was; a call
that returns normally raises `available()` by one; `PipedOutputStream::write(b)` on a bound
stream has the outcome of `receive(b)`; and of any further consecutive `receive` calls exactly
the first `c - 1 - available()` return normally (`c - 1` on a fresh pipe). -/
theorem C5_write_on_full (c : Nat) (hc : 1 ≤ c) (s : PipedInputStream)
    (hs : s.Reachable c) (b : Byte) :
    ((s.receive b).1 = .error .overflow ↔ s.available.1 = .ok (c - 1)) ∧
    ((s.receive b).1 = .ok () ↔ s.available.1 ≠ .ok (c - 1)) ∧
    ((s.receive b).1 ≠ .ok () → (s.receive b).2 = s) ∧
    ((s.receive b).1 = .ok () →
      ∃ a, s.available.1 = .ok a ∧ (s.receive b).2.available.1 = .ok (a + 1)) ∧
    (∀ (o : PipedOutputStream) (p : Nat) (heap : List PipedInputStream),
      o.BoundTo p → heap[p]? = some s →
        (o.write b heap).1 = (s.receive b).1 ∧
          (o.write b heap).2.2[p]? = some (s.receive b).2) ∧
    (∀ bs : List Byte, ∃ a, s.available.1 = .ok a ∧
      (s.run (bs.map PipedInputStream.Call.receive)).1 =
        List.replicate (min bs.length (c - 1 - a)) (.ok none) ++
          List.replicate (bs.length - (c - 1 - a)) (.error .overflow)) ∧
    (∀ (src : Option Nat) (bs : List Byte),
      ((PipedInputStream.newConnected src c).run (bs.map PipedInputStream.Call.receive)).1 =
        List.replicate (min bs.length (c - 1)) (.ok none) ++
          List.replicate (bs.length - (c - 1)) (.error .overflow)) := by
  have hwf := hs.wf hc
  have hav := hwf.available_eq
  have hlt := hwf.count_lt
  refine ⟨?_, ?_, ?_, ?_, ?_, ?_, ?_⟩
  · rw [hav]
    rcases hwf.receive_spec b with ⟨hfull, e⟩ | ⟨hl, e, _⟩
    · rw [e, hfull]
      simp
    · rw [e]
      constructor
      · intro h; exact Except.noConfusion h
      · intro h
        have : s.count = c - 1 := by injection h
        omega
  · rw [hav]
    rcases hwf.receive_spec b with ⟨hfull, e⟩ | ⟨hl, e, _⟩
    · rw [e, hfull]
      simp
    · rw [e]
      constructor
      · intro _ h
        have : s.count = c - 1 := by injection h
        omega
      · intro _; rfl
  · intro hne
    rcases hwf.receive_spec b with ⟨_, e⟩ | ⟨_, e, _⟩
    · rw [e]
    · exact absurd e hne
  · intro hok
    rcases hwf.receive_spec b with ⟨_, e⟩ | ⟨_, _, hwf1, hcnt, _⟩
    · rw [e] at hok
      exact Except.noConfusion hok
    · exact ⟨s.count, by rw [hav], by rw [hwf1.available_eq, hcnt]⟩
  · intro o p heap ho hp
    rw [ho.write_eq hp b]
    exact ⟨rfl, getElem?_set_of_getElem? hp _⟩
  · intro bs
    exact ⟨s.count, by rw [hav], hwf.run_receives bs⟩
  · intro src bs
    have h := (PipedInputStream.wf_newConnected src hc).run_receives bs
    rw [PipedInputStream.count_newConnected] at h
    exact h

/-- C5 on a pipe of capacity 2 that holds one byte, which is full. -/
theorem C5_write_on_full_witness :
    (((PipedInputStream.newConnected none 2).receive 1).2.receive 9).1 = .error .overflow ↔
      ((PipedInputStream.newConnected none 2).receive 1).2.available.1 = .ok (2 - 1) :=
  (C5_write_on_full 2 (by decide) ((PipedInputStream.newConnected none 2).receive 1).2
    ⟨none, [.receive 1], rfl⟩ 9).1

/-- C6, as stated, fails: two bytes are written into a fresh pipe of capacity 4 and the
`PipedOutputStream` is closed; the next two calls of `read()` throw instead of returning the
two bytes. -/
theorem C6_eof_after_drain_counterexample :
    ((PipedOutputStream.mk (some 0) false true).writeMany [7, 8] [PipedInputStream.new 4]).1 =
      [.ok (), .ok ()] ∧
    (readManyAt 0 2 ((PipedOutputStream.mk (some 0) false true).close
      ((PipedOutputStream.mk (some 0) false true).writeMany [7, 8]
        [PipedInputStream.new 4]).2.2).2.2).1 = [.error .empty, .error .empty] ∧
    (readManyAt 0 2 ((PipedOutputStream.mk (some 0) false true).close
      ((PipedOutputStream.mk (some 0) false true).writeMany [7, 8]
        [PipedInputStream.new 4]).2.2).2.2).1 ≠ [.ok 7, .ok 8] := by
  refine ⟨rfl, rfl, ?_⟩
  intro h
  have h1 := (List.cons.inj h).1
  exact Except.noConfusion h1

/-- C6, amended. Closing the write side discards what is buffered: after any bytes were
written through a bound `PipedOutputStream`, `close()` on it returns normally and closes the
`PipedInputStream` as well (storage cleared, `in_ = out_ = 0`), and every following call of
`read()` throws the empty-pipe error. -/
theorem C6_close_discards_buffered (o : PipedOutputStream) (p : Nat)
    (heap : List PipedInputStream) (s : PipedInputStream) (ho : o.BoundTo p)
    (hp : heap[p]? = some s) (ws : List Byte) (n : Nat) :
    ((o.writeMany ws heap).2.1.close (o.writeMany ws heap).2.2).1 = .ok () ∧
    (∃ s1, ((o.writeMany ws heap).2.1.close (o.writeMany ws heap).2.2).2.2[p]? = some s1 ∧
      s1.buffer_ = [] ∧ s1.in_ = 0 ∧ s1.out_ = 0) ∧
    (readManyAt p n ((o.writeMany ws heap).2.1.close (o.writeMany ws heap).2.2).2.2).1 =
      List.replicate n (.error .empty) := by
  obtain ⟨e, s1, h1⟩ := ho.writeMany_bound ws hp
  rw [e, ho.close_eq h1]
  have h2 := getElem?_set_of_getElem? h1 (PipedInputStream.mk [] 0 0 s1.src_)
  exact ⟨rfl, ⟨_, h2, rfl, rfl, rfl⟩, readManyAt_of_empty n h2 rfl⟩

/-- C6, amended, on a fresh pipe of capacity 4 and the bytes `7, 8`. -/
theorem C6_close_discards_buffered_witness :
    (readManyAt 0 2 ((PipedOutputStream.mk (some 0) false true).close
      ((PipedOutputStream.mk (some 0) false true).writeMany [7, 8]
        [PipedInputStream.new 4]).2.2).2.2).1 = List.replicate 2 (.error .empty) :=
  (C6_close_discards_buffered (PipedOutputStream.mk (some 0) false true) 0
    [PipedInputStream.new 4] (PipedInputStream.new 4) ⟨rfl, rfl, rfl⟩ rfl [7, 8] 2).2.2

/-- C7, as stated, fails: on a pipe that is empty and whose `PipedOutputStream` has been
closed, `read()` throws the empty-pipe error; it returns no value at all. -/
theorem C7_read_at_end_counterexample :
    (callAt ((PipedOutputStream.mk (some 0) false true).close [PipedInputStream.new 4]).2.2 0
      PipedInputStream.read).1 = .error .empty ∧
    ¬ ∃ v, (callAt ((PipedOutputStream.mk (some 0) false true).close
      [PipedInputStream.new 4]).2.2 0 PipedInputStream.read).1 = .ok v := by
  refine ⟨rfl, ?_⟩
  rintro ⟨v, hv⟩
  exact Except.noConfusion hv

/-- C7, amended. `read()` on an empty pipe (`in_ == out_`) throws the empty-pipe error and
leaves the stream as it was, whether or not the write endpoint has been closed; in particular
the `read()` that follows `close()` of the bound `PipedOutputStream` throws it. -/
theorem C7_read_on_empty_throws (s : PipedInputStream) (h : s.in_ = s.out_)
    (o : PipedOutputStream) (p : Nat) (heap : List PipedInputStream) (s0 : PipedInputStream)
    (ho : o.BoundTo p) (hp : heap[p]? = some s0) :
    s.read = (.error .empty, s) ∧
    (callAt (o.close heap).2.2 p PipedInputStream.read).1 = .error .empty := by
  constructor
  · unfold PipedInputStream.read
    rw [if_pos h]
  · rw [ho.close_eq hp,
      callAt_eq (getElem?_set_of_getElem? hp (PipedInputStream.mk [] 0 0 s0.src_))]
    rfl

/-- C7, amended, on a pipe of capacity 4: drained after one byte, and closed by its writer. -/
theorem C7_read_on_empty_throws_witness :
    (PipedInputStream.mk [5, 0, 0, 0] 1 1 none).read =
      (.error .empty, PipedInputStream.mk [5, 0, 0, 0] 1 1 none) ∧
    (callAt ((PipedOutputStream.mk (some 0) false true).close
      [PipedInputStream.mk [5, 0, 0, 0] 1 1 none]).2.2 0 PipedInputStream.read).1 =
        .error .empty :=
  C7_read_on_empty_throws (PipedInputStream.mk [5, 0, 0, 0] 1 1 none) rfl
    (PipedOutputStream.mk (some 0) false true) 0 [PipedInputStream.mk [5, 0, 0, 0] 1 1 none]
    (PipedInputStream.mk [5, 0, 0, 0] 1 1 none) ⟨rfl, rfl, rfl⟩ rfl

/-- C8 at a failing input: the pipe of capacity 4 holds `7, 8`; `read(buffer, 1, 1)` on the
caller's buffer `0, 0, 0` returns `1` and leaves the caller's buffer as it was, having stored
the byte `7` into slot 1 of the pipe's own storage, over the queued `8`: what remains queued
is `7`. -/
theorem C8_bulk_read_stores_into_pipe :
    (((PipedInputStream.new 4).run [.receive 7, .receive 8]).2 =
      PipedInputStream.mk [7, 8, 0, 0] 2 0 none) ∧
    (PipedInputStream.mk [7, 8, 0, 0] 2 0 none).queued = [7, 8] ∧
    (PipedInputStream.mk [7, 8, 0, 0] 2 0 none).readInto [0, 0, 0] 1 1 =
      (.ok 1, [0, 0, 0], PipedInputStream.mk [7, 7, 0, 0] 2 1 none) ∧
    (PipedInputStream.mk [7, 7, 0, 0] 2 1 none).queued = [7] := by
  refine ⟨rfl, rfl, rfl, rfl⟩

namespace PipedOutputStream

/-- The stream refuses to write: the test at the head of `flush` and of both `write`s. -/
theorem write_of_guard {o : PipedOutputStream}
    (hg : (o.closed_ || !o.connected_ || o.snk_.isNone) = true) (heap : List PipedInputStream) :
    (∀ b, o.write b heap = (.error .notConnected, o, heap)) ∧
    (∀ buffer offset len, o.writeFrom buffer offset len heap = (.error .notConnected, o, heap)) ∧
    o.flush = (.error .notConnected, o) := by
  refine ⟨fun b => ?_, fun buffer offset len => ?_, ?_⟩
  · unfold write; rw [if_pos hg]
  · unfold writeFrom; rw [if_pos hg]
  · unfold flush; rw [if_pos hg]

theorem guard_close (o : PipedOutputStream) (heap : List PipedInputStream) :
    ((o.close heap).2.1.closed_ || !(o.close heap).2.1.connected_ ||
      (o.close heap).2.1.snk_.isNone) = true := by
  by_cases hg : (o.closed_ || !o.connected_ || o.snk_.isNone) = true
  · cases hc : o.closed_
    · have e : o.close heap = (.error .notConnected, o, heap) := by
        unfold close flush
        rw [if_pos hg]
        simp [hc]
      rw [e]; exact hg
    · have e : o.close heap = (.ok (), o, heap) := by
        unfold close
        simp [hc]
      rw [e]; exact hg
  · have hc : o.closed_ = false := by
      cases h : o.closed_
      · rfl
      · exact absurd (by simp [h]) hg
    unfold close flush
    rw [if_neg hg]
    simp only [hc]
    cases o.snk_ <;> simp

theorem guard_applyOp {o : PipedOutputStream}
    (hg : (o.closed_ || !o.connected_ || o.snk_.isNone) = true) (heap : List PipedInputStream)
    (op : Op) :
    ((o.applyOp heap op).1.closed_ || !(o.applyOp heap op).1.connected_ ||
      (o.applyOp heap op).1.snk_.isNone) = true := by
  obtain ⟨hw, hwf, hf⟩ := write_of_guard hg heap
  cases op with
  | flush =>
    have e : o.applyOp heap .flush = (o, heap) := by
      show (o.flush.2, heap) = _
      rw [hf]
    rw [e]; exact hg
  | close => exact guard_close o heap
  | write b =>
    have e : o.applyOp heap (.write b) = (o, heap) := by
      show (o.write b heap).2 = _
      rw [hw]
    rw [e]; exact hg
  | writeFrom buffer offset len =>
    have e : o.applyOp heap (.writeFrom buffer offset len) = (o, heap) := by
      show (o.writeFrom buffer offset len heap).2 = _
      rw [hwf]
    rw [e]; exact hg
  | others f => exact hg

theorem guard_applyOps (ops : List Op) :
    ∀ {o : PipedOutputStream} (heap : List PipedInputStream),
      (o.closed_ || !o.connected_ || o.snk_.isNone) = true →
      ((o.applyOps heap ops).1.closed_ || !(o.applyOps heap ops).1.connected_ ||
        (o.applyOps heap ops).1.snk_.isNone) = true := by
  induction ops with
  | nil => intro o heap hg; exact hg
  | cons op ops ih => intro o heap hg; exact ih _ (guard_applyOp hg heap op)

end PipedOutputStream

namespace PipedWriter

theorem writer_closed_close (w : PipedWriter) (heap : List PipedReader) :
    (w.close heap).2.1.closed_ = true := by
  unfold close
  cases hc : w.closed_
  · cases hr : w.reader_ <;> simp [flush, hr]
  · simp [hc]

theorem write_of_closed {w : PipedWriter} (hc : w.closed_ = true) (heap : List PipedReader) :
    (∀ c, w.write c heap = (.error .closedPipe, w, heap)) ∧
    (∀ cBuf off len, (w.writeFrom cBuf off len heap = (.error .outOfRange, w, heap) ∨
      w.writeFrom cBuf off len heap = (.error .closedPipe, w, heap))) ∧
    (∀ snk, w.connect snk = (.error .alreadyConnected, w)) ∧
    w.close heap = (.ok (), w, heap) := by
  refine ⟨fun c => ?_, fun cBuf off len => ?_, fun snk => ?_, ?_⟩
  · unfold write; rw [if_pos hc]
  · unfold writeFrom
    by_cases hr : wrapSize (off + len) > cBuf.length
    · left; rw [if_pos hr]
    · right; rw [if_neg hr, if_pos hc]
  · unfold connect; rw [if_pos (by simp [hc])]
  · unfold close; rw [if_pos hc]

theorem closed_applyOp {w : PipedWriter} (hc : w.closed_ = true) (heap : List PipedReader)
    (op : Op) : (w.applyOp heap op).1.closed_ = true := by
  obtain ⟨hw, hwf, hcon, hcl⟩ := write_of_closed hc heap
  cases op with
  | flush => exact hc
  | close => exact writer_closed_close w heap
  | connect snk => show (w.connect snk).2.closed_ = true; rw [hcon]; exact hc
  | write c => show (w.write c heap).2.1.closed_ = true; rw [hw]; exact hc
  | writeFrom cBuf off len =>
    show (w.writeFrom cBuf off len heap).2.1.closed_ = true
    rcases hwf cBuf off len with e | e <;> rw [e] <;> exact hc
  | others f => exact hc

theorem closed_applyOps (ops : List Op) :
    ∀ {w : PipedWriter} (heap : List PipedReader), w.closed_ = true →
      (w.applyOps heap ops).1.closed_ = true := by
  induction ops with
  | nil => intro w heap hc; exact hc
  | cons op ops ih => intro w heap hc; exact ih _ (closed_applyOp hc heap op)

end PipedWriter

namespace PipedOutputStream

theorem flush_snd (o : PipedOutputStream) : o.flush.2 = o := by
  unfold flush
  split_ifs <;> rfl

theorem write_stream (o : PipedOutputStream) (b : Byte) (heap : List PipedInputStream) :
    (o.write b heap).2.1 = o := by
  unfold write
  split_ifs
  · rfl
  · cases o.snk_ <;> rfl

theorem writeFrom_stream (o : PipedOutputStream) (buffer : List Byte) (offset len : Nat)
    (heap : List PipedInputStream) : (o.writeFrom buffer offset len heap).2.1 = o := by
  unfold writeFrom
  split_ifs
  · rfl
  · rfl
  · cases o.snk_ <;> rfl

/-- After `close()` on a stream that is closed or usable, the stream is closed. -/
theorem closed_close {o : PipedOutputStream}
    (hv : o.closed_ = true ∨ (o.connected_ = true ∧ o.snk_.isSome = true))
    (heap : List PipedInputStream) : (o.close heap).2.1.closed_ = true := by
  cases hc : o.closed_
  · rcases hv with h | ⟨h1, h2⟩
    · rw [hc] at h; exact Bool.noConfusion h
    · obtain ⟨p, hp⟩ := Option.isSome_iff_exists.1 h2
      unfold close flush
      simp [hc, h1, hp]
  · unfold close
    rw [if_pos hc]
    exact hc

theorem close_of_closed {o : PipedOutputStream} (hc : o.closed_ = true)
    (heap : List PipedInputStream) : o.close heap = (.ok (), o, heap) := by
  unfold close
  rw [if_pos hc]

theorem valid_applyOp {o : PipedOutputStream}
    (hv : o.closed_ = true ∨ (o.connected_ = true ∧ o.snk_.isSome = true))
    (heap : List PipedInputStream) (op : Op) :
    (o.applyOp heap op).1.closed_ = true ∨
      ((o.applyOp heap op).1.connected_ = true ∧ (o.applyOp heap op).1.snk_.isSome = true) := by
  cases op with
  | flush =>
    have e : (o.applyOp heap .flush).1 = o := flush_snd o
    rw [e]; exact hv
  | close => exact Or.inl (closed_close hv heap)
  | write b =>
    have e : (o.applyOp heap (.write b)).1 = o := write_stream o b heap
    rw [e]; exact hv
  | writeFrom buffer offset len =>
    have e : (o.applyOp heap (.writeFrom buffer offset len)).1 = o :=
      writeFrom_stream o buffer offset len heap
    rw [e]; exact hv
  | others f => exact hv

theorem valid_applyOps (ops : List Op) :
    ∀ {o : PipedOutputStream} (heap : List PipedInputStream),
      (o.closed_ = true ∨ (o.connected_ = true ∧ o.snk_.isSome = true)) →
      ((o.applyOps heap ops).1.closed_ = true ∨
        ((o.applyOps heap ops).1.connected_ = true ∧
          (o.applyOps heap ops).1.snk_.isSome = true)) := by
  induction ops with
  | nil => intro o heap hv; exact hv
  | cons op ops ih => intro o heap hv; exact ih _ (valid_applyOp hv heap op)

theorem valid_new {snk : Option Nat} {o : PipedOutputStream} (h : new snk = .ok o) :
    o.closed_ = true ∨ (o.connected_ = true ∧ o.snk_.isSome = true) := by
  cases snk with
  | none => exact Except.noConfusion h
  | some p =>
    have e : o = ⟨some p, false, true⟩ := by
      unfold new at h
      injection h with h
      exact h.symm
    rw [e]
    exact Or.inr ⟨rfl, rfl⟩

end PipedOutputStream

/-! ## Properties of connection, closing and construction -/

/-- C11, as stated, fails: a `PipedOutputStream` is constructed on the `PipedInputStream` at
address 0, a write through it reaches that stream, and `connect` with another
`PipedOutputStream` (address 9) on the `PipedInputStream` still returns normally and binds
it. -/
theorem C11_connected_once_counterexample :
    PipedOutputStream.new (some 0) = .ok (PipedOutputStream.mk (some 0) false true) ∧
    ((PipedOutputStream.mk (some 0) false true).write 5 [PipedInputStream.new 4]).2.2 =
      [PipedInputStream.mk [5, 0, 0, 0] 1 0 none] ∧
    callAt [PipedInputStream.mk [5, 0, 0, 0] 1 0 none] 0 (fun s => s.connect (some 9)) =
      (.ok (), [PipedInputStream.mk [5, 0, 0, 0] 1 0 (some 9)]) := by
  refine ⟨rfl, rfl, rfl⟩

/-- C11, amended. Constructing a `PipedOutputStream` on a `PipedInputStream` binds the write
side only: the stream is usable and its writes reach the `PipedInputStream`, whose `src_` is
what it was.  Afterwards `connect(other)` on the `PipedInputStream` throws the
already-connected error exactly when its own `src_` is non-null, and binds `other` when it is
null. -/
theorem C11_connect_tests_own_peer (heap : List PipedInputStream) (p : Nat)
    (s : PipedInputStream) (o : PipedOutputStream) (hp : heap[p]? = some s)
    (hnew : PipedOutputStream.new (some p) = .ok o) (b : Byte) (other : Option Nat) :
    o.BoundTo p ∧
    (o.write b heap).2.2[p]? = some (s.receive b).2 ∧
    ((callAt heap p (fun x => x.connect other)).1 = .error .alreadyConnected ↔
      s.src_.isSome = true) ∧
    (s.src_ = none →
      callAt heap p (fun x => x.connect other) =
        (.ok (), heap.set p ⟨s.buffer_, s.in_, s.out_, other⟩)) := by
  have e : o = ⟨some p, false, true⟩ := by
    unfold PipedOutputStream.new at hnew
    injection hnew with h
    exact h.symm
  have ho : o.BoundTo p := by rw [e]; exact ⟨rfl, rfl, rfl⟩
  refine ⟨ho, ?_, ?_, ?_⟩
  · rw [ho.write_eq hp b]
    exact getElem?_set_of_getElem? hp _
  · rw [callAt_eq hp]
    unfold PipedInputStream.connect
    cases hs : s.src_ <;> simp
  · intro hs
    rw [callAt_eq hp]
    unfold PipedInputStream.connect
    simp [hs]

/-- C11, amended, on a fresh `PipedInputStream` of capacity 4 at address 0. -/
theorem C11_connect_tests_own_peer_witness :
    callAt [PipedInputStream.new 4] 0 (fun x => x.connect (some 9)) =
      (.ok (), [PipedInputStream.new 4].set 0 ⟨(PipedInputStream.new 4).buffer_,
        (PipedInputStream.new 4).in_, (PipedInputStream.new 4).out_, some 9⟩) :=
  (C11_connect_tests_own_peer [PipedInputStream.new 4] 0 (PipedInputStream.new 4)
    (PipedOutputStream.mk (some 0) false true) rfl rfl 5 (some 9)).2.2.2 rfl

/-- C12. Closed is permanent on the write side: after `close()` on a `PipedOutputStream` or
on a `PipedWriter`, and after any sequence of further operations (member calls on the
endpoint, and anything other code does to the peer objects), `write(element)` and
`write(buffer, offset, len)` throw and leave the endpoint and every peer object as they
were. -/
theorem C12_closed_is_permanent (o : PipedOutputStream) (heap : List PipedInputStream)
    (ops : List PipedOutputStream.Op) (w : PipedWriter) (cheap : List PipedReader)
    (cops : List PipedWriter.Op) :
    (∀ b, (((o.close heap).2.1.applyOps (o.close heap).2.2 ops).1.write b
        ((o.close heap).2.1.applyOps (o.close heap).2.2 ops).2) =
      (.error .notConnected, (o.close heap).2.1.applyOps (o.close heap).2.2 ops)) ∧
    (∀ buffer offset len,
      (((o.close heap).2.1.applyOps (o.close heap).2.2 ops).1.writeFrom buffer offset len
        ((o.close heap).2.1.applyOps (o.close heap).2.2 ops).2) =
      (.error .notConnected, (o.close heap).2.1.applyOps (o.close heap).2.2 ops)) ∧
    (∀ c, (((w.close cheap).2.1.applyOps (w.close cheap).2.2 cops).1.write c
        ((w.close cheap).2.1.applyOps (w.close cheap).2.2 cops).2) =
      (.error .closedPipe, (w.close cheap).2.1.applyOps (w.close cheap).2.2 cops)) ∧
    (∀ cBuf off len, ∃ e,
      (((w.close cheap).2.1.applyOps (w.close cheap).2.2 cops).1.writeFrom cBuf off len
        ((w.close cheap).2.1.applyOps (w.close cheap).2.2 cops).2) =
      (.error e, (w.close cheap).2.1.applyOps (w.close cheap).2.2 cops)) := by
  have hg := PipedOutputStream.guard_applyOps ops (o.close heap).2.2
    (PipedOutputStream.guard_close o heap)
  have hc := PipedWriter.closed_applyOps cops (w.close cheap).2.2
    (PipedWriter.writer_closed_close w cheap)
  obtain ⟨h1, h2, _⟩ := PipedOutputStream.write_of_guard hg
    ((o.close heap).2.1.applyOps (o.close heap).2.2 ops).2
  obtain ⟨h3, h4, _⟩ := PipedWriter.write_of_closed hc
    ((w.close cheap).2.1.applyOps (w.close cheap).2.2 cops).2
  refine ⟨h1, h2, h3, fun cBuf off len => ?_⟩
  rcases h4 cBuf off len with e | e
  · exact ⟨_, e⟩
  · exact ⟨_, e⟩

/-- C13. `close()` is idempotent: on each of `PipedInputStream`, `PipedReader`, `PipedWriter`,
and on a `PipedOutputStream` in any state that its constructor and member calls lead to, a
second `close()` right after the first returns normally and leaves the endpoint and the peer
objects as the first call left them. -/
theorem C13_close_idempotent (s : PipedInputStream) (r : PipedReader) (w : PipedWriter)
    (cheap : List PipedReader) (snk : Option Nat) (o0 : PipedOutputStream)
    (hnew : PipedOutputStream.new snk = .ok o0) (heap0 : List PipedInputStream)
    (ops : List PipedOutputStream.Op) (heap : List PipedInputStream) :
    s.close.2.close = (.ok (), s.close.2) ∧
    r.close.2.close = (.ok (), r.close.2) ∧
    (w.close cheap).2.1.close (w.close cheap).2.2 = (.ok (), (w.close cheap).2) ∧
    (((o0.applyOps heap0 ops).1.close heap).2.1.close
        ((o0.applyOps heap0 ops).1.close heap).2.2 =
      (.ok (), ((o0.applyOps heap0 ops).1.close heap).2)) := by
  refine ⟨rfl, rfl, ?_, ?_⟩
  · exact (PipedWriter.write_of_closed (PipedWriter.writer_closed_close w cheap) _).2.2.2
  · have hv := PipedOutputStream.valid_applyOps ops heap0 (PipedOutputStream.valid_new hnew)
    exact PipedOutputStream.close_of_closed (PipedOutputStream.closed_close hv heap) _

/-- C13 on a pipe holding one byte, closed through its `PipedOutputStream`. -/
theorem C13_close_idempotent_witness :
    (((PipedOutputStream.mk (some 0) false true).applyOps [PipedInputStream.new 4]
        [.write 5]).1.close [PipedInputStream.mk [5, 0, 0, 0] 1 0 none]).2.1.close
      (((PipedOutputStream.mk (some 0) false true).applyOps [PipedInputStream.new 4]
        [.write 5]).1.close [PipedInputStream.mk [5, 0, 0, 0] 1 0 none]).2.2 =
    (.ok (), (((PipedOutputStream.mk (some 0) false true).applyOps [PipedInputStream.new 4]
        [.write 5]).1.close [PipedInputStream.mk [5, 0, 0, 0] 1 0 none]).2) :=
  (C13_close_idempotent (PipedInputStream.new 4) (PipedReader.mk none [0, 0] 2 0 0)
    (PipedWriter.new (some 0)) [PipedReader.mk none [0, 0] 2 0 0] (some 0)
    (PipedOutputStream.mk (some 0) false true) rfl [PipedInputStream.new 4] [.write 5]
    [PipedInputStream.mk [5, 0, 0, 0] 1 0 none]).2.2.2

/-- C21, as stated, fails: on an empty, open byte pipe of capacity 4 `read()` returns at
once, with the empty-pipe error; on a full byte pipe of capacity 2 `receive` returns at once,
with the overflow error.  No write, read or close happens in between. -/
theorem C21_blocking_counterexample :
    (PipedInputStream.new 4).read = (.error .empty, PipedInputStream.new 4) ∧
    ((PipedInputStream.new 2).run [.receive 1]).2 = PipedInputStream.mk [1, 0] 1 0 none ∧
    (PipedInputStream.mk [1, 0] 1 0 none).receive 2 =
      (.error .overflow, PipedInputStream.mk [1, 0] 1 0 none) := by
  refine ⟨rfl, rfl, rfl⟩

/-- C21, amended. No call on the byte pipe waits.  In every reachable state of a byte pipe of
capacity `c`, `read()` on the empty pipe throws the empty-pipe error at once and `receive` on
the full pipe throws the overflow error at once, both leaving the pipe as it was. -/
theorem C21_calls_return_at_once (c : Nat) (hc : 1 ≤ c) (s : PipedInputStream)
    (hs : s.Reachable c) (b : Byte) :
    (s.available.1 = .ok 0 → s.read = (.error .empty, s)) ∧
    (s.available.1 = .ok (c - 1) → s.receive b = (.error .overflow, s)) := by
  have hwf := hs.wf hc
  have hav := hwf.available_eq
  have hlt := hwf.count_lt
  refine ⟨fun h => ?_, fun h => ?_⟩
  · rw [hav] at h
    have h0 : s.count = 0 := by injection h
    rcases hwf.read_spec with ⟨_, e⟩ | ⟨_, _, _, hcnt, _⟩
    · exact e
    · omega
  · rw [hav] at h
    have h0 : s.count = c - 1 := by injection h
    rcases hwf.receive_spec b with ⟨_, e⟩ | ⟨hl, _⟩
    · exact e
    · omega

/-- C21, amended, on a full pipe of capacity 2. -/
theorem C21_calls_return_at_once_witness :
    (PipedInputStream.mk [1, 0] 1 0 none).receive 2 =
      (.error .overflow, PipedInputStream.mk [1, 0] 1 0 none) :=
  (C21_calls_return_at_once 2 (by decide) (PipedInputStream.mk [1, 0] 1 0 none)
    ⟨none, [.receive 1], rfl⟩ 2).2 rfl

/-- C23 at a failing input: a character pipe of capacity 2, after `write`, `read`, `write`,
`read`, has no written character left unread, yet `ready()` is true and `read()` returns the
character `97` that was read before, not `-1`. -/
theorem C23_ready_after_wrap :
    ((PipedWriter.new (some 0)).writeMany [97] [PipedReader.mk none [0, 0] 2 0 0]).2.2 =
      [PipedReader.mk none [97, 0] 2 0 1] ∧
    readCharsAt 0 1 [PipedReader.mk none [97, 0] 2 0 1] =
      ([.ok 97], [PipedReader.mk none [97, 0] 2 1 1]) ∧
    ((PipedWriter.new (some 0)).writeMany [98] [PipedReader.mk none [97, 0] 2 1 1]).2.2 =
      [PipedReader.mk none [97, 98] 2 1 0] ∧
    readCharsAt 0 1 [PipedReader.mk none [97, 98] 2 1 0] =
      ([.ok 98], [PipedReader.mk none [97, 98] 2 2 0]) ∧
    (PipedReader.mk none [97, 98] 2 2 0).ready = true ∧
    (PipedReader.mk none [97, 98] 2 2 0).read = (.ok 97, PipedReader.mk none [97, 98] 2 3 0) := by
  refine ⟨rfl, rfl, rfl, rfl, rfl, rfl⟩

/-- C24 at a failing input: on a fresh `PipedInputStream` of capacity 4, whose `src_` is null,
`receive(5)` returns normally and stores the byte. -/
theorem C24_receive_unconnected :
    (PipedInputStream.new 4).src_ = none ∧
    (PipedInputStream.new 4).receive 5 = (.ok (), PipedInputStream.mk [5, 0, 0, 0] 1 0 none) := by
  refine ⟨rfl, rfl⟩

/-- C25 at a failing input: the buffer has 2 elements, `offset = 1` and `len = 2 ^ 64 - 1`, so
`offset + len` exceeds the buffer size but wraps to 0 in `size_t`.  Both `write`s pass their
range test, store `buffer[1]` in the pipe, and then index the buffer at 2, outside it. -/
theorem C25_offset_length_wraps :
    wrapSize (1 + (2 ^ 64 - 1)) = 0 ∧
    (PipedOutputStream.mk (some 0) false true).writeFrom [7, 8] 1 (2 ^ 64 - 1)
        [PipedInputStream.new 4] =
      (.error .undefinedBehaviour, PipedOutputStream.mk (some 0) false true,
        [PipedInputStream.mk [8, 0, 0, 0] 1 0 none]) ∧
    (PipedWriter.new (some 0)).writeFrom [7, 8] 1 (2 ^ 64 - 1)
        [PipedReader.mk none [0, 0, 0, 0] 4 0 0] =
      (.error .undefinedBehaviour, PipedWriter.new (some 0),
        [PipedReader.mk none [8, 0, 0, 0] 4 0 1]) := by
  refine ⟨by decide, rfl, rfl⟩

/-- C27 at a failing input: `append("abcdef", 2, 4)` on a `PipedWriter` bound to an empty
`PipedReader` of capacity 8 stores `cdef`, the four characters from index 2, not `cd`. -/
theorem C27_append_takes_end_as_length :
    (PipedWriter.new (some 0)).appendRange [97, 98, 99, 100, 101, 102] 2 4
        [PipedReader.mk none [0, 0, 0, 0, 0, 0, 0, 0] 8 0 0] =
      (.ok (), PipedWriter.new (some 0),
        [PipedReader.mk none [99, 100, 101, 102, 0, 0, 0, 0] 8 0 4]) ∧
    (readCharsAt 0 5 [PipedReader.mk none [99, 100, 101, 102, 0, 0, 0, 0] 8 0 4]).1 =
      [.ok 99, .ok 100, .ok 101, .ok 102, .ok (-1)] := by
  refine ⟨rfl, rfl⟩

/-- C28 at a failing input: on `BufferedReader(CharArrayReader("ab"), 2)` the first two calls
of `read()` return `a` and `b`, and the third returns `a` again, not `-1`: the `-1` of
`CharArrayReader::read` becomes the count `2 ^ 64 - 1`.  On an empty content and size 1 the
first `read()` returns the character 0. -/
theorem C28_buffered_reader_no_eof :
    BufferedReader.new (CharArrayReader.new [97, 98]) 2 =
      .ok (BufferedReader.mk [0, 0] (CharArrayReader.mk [97, 98] 0 0 2) 2 0 0 0) ∧
    (BufferedReader.readMany 3
      (BufferedReader.mk [0, 0] (CharArrayReader.mk [97, 98] 0 0 2) 2 0 0 0)).1 =
      [.ok 97, .ok 98, .ok 97] ∧
    ((BufferedReader.readMany 3
      (BufferedReader.mk [0, 0] (CharArrayReader.mk [97, 98] 0 0 2) 2 0 0 0)).2).count_ =
      2 ^ 64 - 1 ∧
    BufferedReader.new (CharArrayReader.new []) 1 =
      .ok (BufferedReader.mk [0] (CharArrayReader.mk [] 0 0 0) 1 0 0 0) ∧
    (BufferedReader.mk [0] (CharArrayReader.mk [] 0 0 0) 1 0 0 0).read.1 = .ok 0 := by
  refine ⟨rfl, rfl, by decide, rfl, rfl⟩

/-- C29 at a failing input: `PushbackReader(reader, 4)` has a pushback buffer of 4 elements
and `bufferPos_ = 1024`; the first `unread` stores at index 1023, outside the buffer. -/
theorem C29_pushback_reader_position :
    (PushbackReader.new (some (CharArrayReader.new [97])) 4).map
        (fun r => (r.buffer_, r.bufferPos_)) = .ok ([0, 0, 0, 0], 1024) ∧
    ((PushbackReader.mk (some (CharArrayReader.new [97])) [0, 0, 0, 0] 1024).unread 120).1 =
      .error .undefinedBehaviour ∧
    1024 - 1 ≥ ([0, 0, 0, 0] : List CChar).length := by
  refine ⟨rfl, rfl, by decide⟩

/-! ## Properties of the inherited `skip` -/

namespace PipedInputStream

/-- What the loop of `skip` does when none of the bytes it meets is `0xFF`: it removes
`remaining` bytes and counts them if that many are queued, and otherwise empties the pipe and
ends with the exception of `read()`. -/
theorem skipLoop_spec {c : Nat} (remaining : Nat) :
    ∀ (skipped : Nat) (s : PipedInputStream), WF c s →
      (∀ b ∈ s.queued.take remaining, b ≠ 255) →
      (remaining ≤ s.count → skipped + remaining < 2 ^ 64 →
        (skipLoop remaining skipped s).1 = .ok (skipped + remaining) ∧
        (skipLoop remaining skipped s).2.queued = s.queued.drop remaining ∧
        (skipLoop remaining skipped s).2.count = s.count - remaining) ∧
      (s.count < remaining →
        (skipLoop remaining skipped s).1 = .error .empty ∧
        (skipLoop remaining skipped s).2.count = 0) := by
  induction remaining with
  | zero =>
    intro skipped s _ _
    refine ⟨fun _ _ => ⟨rfl, rfl, rfl⟩, fun h => absurd h (Nat.not_lt_zero _)⟩
  | succ n ih =>
    intro skipped s hwf hno
    rcases hwf.read_spec with ⟨h0, e⟩ | ⟨b, e, hwf1, hcnt, hq, _⟩
    · have hstep : skipLoop (n + 1) skipped s = (.error .empty, s) := by
        simp only [skipLoop, e]
      rw [hstep]
      exact ⟨fun h _ => by omega, fun _ => ⟨rfl, h0⟩⟩
    · have hpair : s.read = (.ok b, s.read.2) := Prod.ext e rfl
      have hb : b ≠ 255 := hno b (by rw [hq]; simp)
      have hno1 : ∀ x ∈ s.read.2.queued.take n, x ≠ 255 := by
        intro x hx
        apply hno x
        rw [hq, List.take_succ_cons]
        exact List.mem_cons_of_mem _ hx
      have hstep : skipLoop (n + 1) skipped s = skipLoop n (wrapSize (skipped + 1)) s.read.2 := by
        rw [skipLoop, hpair]
        simp only [if_neg hb]
      rw [hstep]
      obtain ⟨h1, h2⟩ := ih (wrapSize (skipped + 1)) s.read.2 hwf1 hno1
      constructor
      · intro hle hlt
        have hw : wrapSize (skipped + 1) = skipped + 1 := Nat.mod_eq_of_lt (by omega)
        obtain ⟨r1, r2, r3⟩ := h1 (by omega) (by rw [hw]; omega)
        refine ⟨by rw [r1, hw]; congr 1; omega, ?_, by rw [r3]; omega⟩
        rw [r2, hq, List.drop_succ_cons]
      · intro hlt
        exact h2 (by omega)

end PipedInputStream

/-- C26 at a failing input: a pipe of capacity 4 holds the bytes `7, 255, 9`, so
`available()` is 3.  `skip(3)` returns 1 without an exception and has removed two bytes, `7`
and `255`, leaving `9` queued: the byte `0xFF` is taken for an end mark, consumed and not
counted.  The claim has `skip(3)` return 3 with all three bytes removed. -/
theorem C26_skip_sentinel_byte :
    ((PipedInputStream.new 4).run [.receive 7, .receive 255, .receive 9]).2 =
      PipedInputStream.mk [7, 255, 9, 0] 3 0 none ∧
    (PipedInputStream.mk [7, 255, 9, 0] 3 0 none).available.1 = .ok 3 ∧
    (PipedInputStream.mk [7, 255, 9, 0] 3 0 none).queued = [7, 255, 9] ∧
    (PipedInputStream.mk [7, 255, 9, 0] 3 0 none).skip 3 =
      (.ok 1, PipedInputStream.mk [7, 255, 9, 0] 3 2 none) ∧
    (PipedInputStream.mk [7, 255, 9, 0] 3 2 none).queued = [9] ∧
    (PipedInputStream.mk [7, 255, 9, 0] 3 2 none).available.1 = .ok 1 := by
  refine ⟨rfl, rfl, rfl, rfl, rfl, rfl⟩

/-- The inherited `skip` past the queued bytes: one byte is queued in a pipe of capacity 4 and
`skip(2)` removes it and ends with the empty-pipe exception of `read()`. -/
theorem skip_past_available :
    ((PipedInputStream.new 4).run [.receive 7]).2 = PipedInputStream.mk [7, 0, 0, 0] 1 0 none ∧
    (PipedInputStream.mk [7, 0, 0, 0] 1 0 none).available.1 = .ok 1 ∧
    (PipedInputStream.mk [7, 0, 0, 0] 1 0 none).skip 2 =
      (.error .empty, PipedInputStream.mk [7, 0, 0, 0] 1 1 none) := by
  refine ⟨rfl, rfl, rfl⟩

/-- The inherited `skip` where no queued byte is `0xFF`.  In every reachable state of a byte
pipe, for every `n` such that none of the first `n` queued bytes is `0xFF`: when
`n <= available()`, `skip(n)` returns `n` without an error and removes exactly the first `n`
queued bytes; when `n > available()`, `skip(n)` removes all queued bytes and ends with the
empty-pipe error of `read()`. -/
theorem skip_without_sentinel (c : Nat) (hc : 1 ≤ c) (s : PipedInputStream)
    (hs : s.Reachable c) (n : Nat) (hn : n < 2 ^ 64)
    (hno : ∀ b ∈ s.queued.take n, b ≠ 255) :
    (n ≤ s.count →
      (s.skip n).1 = .ok n ∧ (s.skip n).2.queued = s.queued.drop n ∧
      (s.skip n).2.count = s.count - n) ∧
    (s.count < n → (s.skip n).1 = .error .empty ∧ (s.skip n).2.count = 0) ∧
    s.available.1 = .ok s.count := by
  have hwf := hs.wf hc
  obtain ⟨h1, h2⟩ := PipedInputStream.skipLoop_spec n 0 s hwf hno
  refine ⟨fun hle => ?_, h2, by rw [hwf.available_eq]⟩
  obtain ⟨r1, r2, r3⟩ := h1 hle (by omega)
  exact ⟨by rw [PipedInputStream.skip, r1, Nat.zero_add], r2, r3⟩

/-! ## Properties of the pushback stream -/

theorem wrapSize_add_pow {x : Nat} (h : x < 2 ^ 64) : wrapSize (x + 2 ^ 64) = x := by
  unfold wrapSize
  rw [Nat.add_mod_right]
  exact Nat.mod_eq_of_lt h

namespace PushbackInputStream

/-- What the loop of `unread(buffer, offset, len)` does: it moves `bufferPos_` down by
`remaining` and stores `buffer[offset .. offset + remaining)` from there, in order. -/
theorem unreadLoop_spec {ρ : Type} {buffer : List Byte} {offset len : Nat}
    (hb : buffer.length < 2 ^ 64) (hrange : offset + len ≤ buffer.length) (remaining : Nat) :
    ∀ (i : Nat) (s : PushbackInputStream ρ), i + remaining = len →
      remaining ≤ s.bufferPos_ → s.bufferPos_ ≤ s.pushbackBuffer_.length →
      s.pushbackBuffer_.length < 2 ^ 64 →
      (unreadLoop buffer offset len remaining i s).1 = .ok () ∧
      (unreadLoop buffer offset len remaining i s).2.bufferPos_ = s.bufferPos_ - remaining ∧
      (unreadLoop buffer offset len remaining i s).2.inputStream_ = s.inputStream_ ∧
      (unreadLoop buffer offset len remaining i s).2.pushbackBuffer_.length =
        s.pushbackBuffer_.length ∧
      ∀ j, (unreadLoop buffer offset len remaining i s).2.pushbackBuffer_[j]? =
        if s.bufferPos_ - remaining ≤ j ∧ j < s.bufferPos_ then
          buffer[offset + (j - (s.bufferPos_ - remaining))]?
        else s.pushbackBuffer_[j]? := by
  induction remaining with
  | zero =>
    intro i s _ _ _ _
    refine ⟨rfl, rfl, rfl, rfl, fun j => ?_⟩
    have hnot : ¬ (s.bufferPos_ - 0 ≤ j ∧ j < s.bufferPos_) := by omega
    rw [if_neg hnot]
    rfl
  | succ n ih =>
    intro i s hi hle hpos hsize
    have e1 : offset + len + 2 ^ 64 - i - 1 = (offset + n) + 2 ^ 64 := by omega
    have hidx : wrapSize (offset + len + 2 ^ 64 - i - 1) = offset + n := by
      rw [e1]
      exact wrapSize_add_pow (by omega)
    have hlt : offset + n < buffer.length := by omega
    have hget : buffer[offset + n]? = some buffer[offset + n] := List.getElem?_eq_getElem hlt
    have e2 : s.bufferPos_ + 2 ^ 64 - 1 = (s.bufferPos_ - 1) + 2 ^ 64 := by omega
    have hp : wrapSize (s.bufferPos_ + 2 ^ 64 - 1) = s.bufferPos_ - 1 := by
      rw [e2]
      exact wrapSize_add_pow (by omega)
    have hw : wrapSize (i + 1) = i + 1 := Nat.mod_eq_of_lt (by omega)
    have hin : s.bufferPos_ - 1 < s.pushbackBuffer_.length := by omega
    have hstep : unreadLoop buffer offset len (n + 1) i s =
        unreadLoop buffer offset len n (i + 1)
          ⟨s.inputStream_, s.pushbackBuffer_.set (s.bufferPos_ - 1) buffer[offset + n],
            s.bufferPos_ - 1⟩ := by
      rw [unreadLoop]
      simp only [hidx, hget, hp, hw, if_pos hin]
    rw [hstep]
    obtain ⟨r1, r2, r3, r4, r5⟩ := ih (i + 1)
      ⟨s.inputStream_, s.pushbackBuffer_.set (s.bufferPos_ - 1) buffer[offset + n],
        s.bufferPos_ - 1⟩ (by omega) (by show n ≤ s.bufferPos_ - 1; omega)
      (by show s.bufferPos_ - 1 ≤ (s.pushbackBuffer_.set _ _).length
          rw [List.length_set]; omega)
      (by show (s.pushbackBuffer_.set _ _).length < 2 ^ 64
          rw [List.length_set]; exact hsize)
    refine ⟨r1, by rw [r2]; show s.bufferPos_ - 1 - n = _; omega, r3,
      by rw [r4]; exact List.length_set _ _ _, fun j => ?_⟩
    rw [r5 j]
    show (if s.bufferPos_ - 1 - n ≤ j ∧ j < s.bufferPos_ - 1 then
        buffer[offset + (j - (s.bufferPos_ - 1 - n))]?
      else (s.pushbackBuffer_.set (s.bufferPos_ - 1) buffer[offset + n])[j]?) = _
    rw [List.getElem?_set]
    by_cases h1 : s.bufferPos_ - 1 - n ≤ j ∧ j < s.bufferPos_ - 1
    · have h2 : s.bufferPos_ - (n + 1) ≤ j ∧ j < s.bufferPos_ := by omega
      have h3 : s.bufferPos_ - 1 - n = s.bufferPos_ - (n + 1) := by omega
      rw [if_pos h1, if_pos h2, h3]
    · rw [if_neg h1]
      by_cases h4 : s.bufferPos_ - 1 = j
      · have h2 : s.bufferPos_ - (n + 1) ≤ j ∧ j < s.bufferPos_ := by omega
        have h3 : offset + (j - (s.bufferPos_ - (n + 1))) = offset + n := by omega
        rw [if_pos h4, if_pos hin, if_pos h2, h3, hget]
      · have h2 : ¬ (s.bufferPos_ - (n + 1) ≤ j ∧ j < s.bufferPos_) := by omega
        rw [if_neg h4, if_neg h2]

/-- Consecutive reads inside the pushback buffer deliver its bytes from `bufferPos_` on and
move `bufferPos_` up. -/
theorem readMany_pushback {ρ : Type} (inRead : ρ → Except PipeError Byte × ρ) (m : Nat) :
    ∀ (s : PushbackInputStream ρ), s.bufferPos_ + m ≤ s.pushbackBuffer_.length →
      s.pushbackBuffer_.length < 2 ^ 64 →
      (readMany inRead m s).1 = ((s.pushbackBuffer_.drop s.bufferPos_).take m).map .ok ∧
      (readMany inRead m s).2 = ⟨s.inputStream_, s.pushbackBuffer_, s.bufferPos_ + m⟩ := by
  induction m with
  | zero => intro s _ _; exact ⟨rfl, rfl⟩
  | succ m ih =>
    intro s hle hsize
    have hlt : s.bufferPos_ < s.pushbackBuffer_.length := by omega
    have hget : s.pushbackBuffer_[s.bufferPos_]? = some s.pushbackBuffer_[s.bufferPos_] :=
      List.getElem?_eq_getElem hlt
    have hw : wrapSize (s.bufferPos_ + 1) = s.bufferPos_ + 1 := Nat.mod_eq_of_lt (by omega)
    have hr : s.read inRead = (.ok s.pushbackBuffer_[s.bufferPos_],
        ⟨s.inputStream_, s.pushbackBuffer_, s.bufferPos_ + 1⟩) := by
      unfold read
      rw [if_pos hlt, hget, hw]
    have hstep : readMany inRead (m + 1) s =
        ((s.read inRead).1 :: (readMany inRead m (s.read inRead).2).1,
          (readMany inRead m (s.read inRead).2).2) := rfl
    obtain ⟨r1, r2⟩ := ih ⟨s.inputStream_, s.pushbackBuffer_, s.bufferPos_ + 1⟩
      (by show s.bufferPos_ + 1 + m ≤ s.pushbackBuffer_.length; omega) hsize
    rw [hstep, hr]
    refine ⟨?_, ?_⟩
    · show _ :: (readMany inRead m _).1 = _
      rw [r1, List.drop_eq_getElem_cons hlt, List.take_succ_cons, List.map_cons]
    · show (readMany inRead m _).2 = _
      rw [r2, Nat.add_assoc, Nat.add_comm 1 m]

/-- A `read()` looks at the pushback buffer from `bufferPos_` on only. -/
theorem read_congr {ρ : Type} (inRead : ρ → Except PipeError Byte × ρ)
    {s1 s2 : PushbackInputStream ρ} (h1 : s1.inputStream_ = s2.inputStream_)
    (h2 : s1.bufferPos_ = s2.bufferPos_)
    (h3 : s1.pushbackBuffer_.length = s2.pushbackBuffer_.length)
    (h4 : ∀ j, s1.bufferPos_ ≤ j → s1.pushbackBuffer_[j]? = s2.pushbackBuffer_[j]?)
    (hsize : s1.pushbackBuffer_.length < 2 ^ 64) :
    (s1.read inRead).1 = (s2.read inRead).1 ∧
    (s1.read inRead).2.inputStream_ = (s2.read inRead).2.inputStream_ ∧
    (s1.read inRead).2.bufferPos_ = (s2.read inRead).2.bufferPos_ ∧
    (s1.read inRead).2.pushbackBuffer_.length = (s2.read inRead).2.pushbackBuffer_.length ∧
    (∀ j, (s1.read inRead).2.bufferPos_ ≤ j →
      (s1.read inRead).2.pushbackBuffer_[j]? = (s2.read inRead).2.pushbackBuffer_[j]?) := by
  obtain ⟨in1, buf1, p1⟩ := s1
  obtain ⟨in2, buf2, p2⟩ := s2
  dsimp only at h1 h2 h3 h4 hsize
  subst h1
  subst h2
  have h5 := h4 p1 (Nat.le_refl _)
  by_cases hlt : p1 < buf1.length
  · have hw : wrapSize (p1 + 1) = p1 + 1 := Nat.mod_eq_of_lt (by omega)
    have hg : buf1[p1]? = some buf1[p1] := List.getElem?_eq_getElem hlt
    have e1 : read inRead ⟨in1, buf1, p1⟩ = (.ok buf1[p1], ⟨in1, buf1, p1 + 1⟩) := by
      unfold read
      dsimp only
      rw [if_pos hlt, hg, hw]
    have e2 : read inRead ⟨in1, buf2, p1⟩ = (.ok buf1[p1], ⟨in1, buf2, p1 + 1⟩) := by
      unfold read
      dsimp only
      rw [if_pos (h3 ▸ hlt), ← h5, hg, hw]
    rw [e1, e2]
    exact ⟨rfl, rfl, rfl, h3, fun j hj => h4 j (Nat.le_of_succ_le hj)⟩
  · have hlt2 : ¬ p1 < buf2.length := h3 ▸ hlt
    cases in1 with
    | none =>
      have e1 : read inRead ⟨none, buf1, p1⟩ =
          (.error .undefinedBehaviour, ⟨none, buf1, p1⟩) := by
        unfold read
        dsimp only
        rw [if_neg hlt]
      have e2 : read inRead ⟨none, buf2, p1⟩ =
          (.error .undefinedBehaviour, ⟨none, buf2, p1⟩) := by
        unfold read
        dsimp only
        rw [if_neg hlt2]
      rw [e1, e2]
      exact ⟨rfl, rfl, rfl, h3, h4⟩
    | some u =>
      have e1 : read inRead ⟨some u, buf1, p1⟩ =
          ((inRead u).1, ⟨some (inRead u).2, buf1, p1⟩) := by
        unfold read
        dsimp only
        rw [if_neg hlt]
      have e2 : read inRead ⟨some u, buf2, p1⟩ =
          ((inRead u).1, ⟨some (inRead u).2, buf2, p1⟩) := by
        unfold read
        dsimp only
        rw [if_neg hlt2]
      rw [e1, e2]
      exact ⟨rfl, rfl, rfl, h3, h4⟩

/-- Reads from two streams that agree from `bufferPos_` on have the same outcomes. -/
theorem readMany_congr {ρ : Type} (inRead : ρ → Except PipeError Byte × ρ) (k : Nat) :
    ∀ (s1 s2 : PushbackInputStream ρ), s1.inputStream_ = s2.inputStream_ →
      s1.bufferPos_ = s2.bufferPos_ →
      s1.pushbackBuffer_.length = s2.pushbackBuffer_.length →
      (∀ j, s1.bufferPos_ ≤ j → s1.pushbackBuffer_[j]? = s2.pushbackBuffer_[j]?) →
      s1.pushbackBuffer_.length < 2 ^ 64 →
      (readMany inRead k s1).1 = (readMany inRead k s2).1 := by
  induction k with
  | zero => intro _ _ _ _ _ _ _; rfl
  | succ k ih =>
    intro s1 s2 h1 h2 h3 h4 hsize
    obtain ⟨r1, r2, r3, r4, r5⟩ := read_congr inRead h1 h2 h3 h4 hsize
    have hlen : (s1.read inRead).2.pushbackBuffer_.length = s1.pushbackBuffer_.length := by
      unfold read
      split
      · split <;> rfl
      · split <;> rfl
    show (s1.read inRead).1 :: (readMany inRead k (s1.read inRead).2).1 =
      (s2.read inRead).1 :: (readMany inRead k (s2.read inRead).2).1
    rw [r1, ih _ _ r2 r3 r4 r5 (by rw [hlen]; exact hsize)]

/-- The constructor leaves `bufferPos_` at the end of the pushback buffer. -/
theorem inv_new {ρ : Type} (u : Option ρ) (size : Nat) :
    (new u size).bufferPos_ ≤ (new u size).pushbackBuffer_.length := by
  show size ≤ (List.replicate size (0 : Byte)).length
  rw [List.length_replicate]

/-- The member `read()` keeps `bufferPos_` inside the pushback buffer. -/
theorem inv_read {ρ : Type} (inRead : ρ → Except PipeError Byte × ρ)
    (s : PushbackInputStream ρ) (h : s.bufferPos_ ≤ s.pushbackBuffer_.length) :
    (s.read inRead).2.bufferPos_ ≤ (s.read inRead).2.pushbackBuffer_.length := by
  unfold read
  split
  · split
    · exact h
    · show wrapSize (s.bufferPos_ + 1) ≤ s.pushbackBuffer_.length
      exact Nat.le_trans (Nat.mod_le _ _) (by omega)
  · split <;> exact h

/-- The member `unread(b)` keeps `bufferPos_` inside the pushback buffer. -/
theorem inv_unread {ρ : Type} (s : PushbackInputStream ρ) (b : Byte)
    (h : s.bufferPos_ ≤ s.pushbackBuffer_.length) :
    (s.unread b).2.bufferPos_ ≤ (s.unread b).2.pushbackBuffer_.length := by
  unfold unread
  split
  · exact h
  · split
    · show s.bufferPos_ - 1 ≤ (s.pushbackBuffer_.set _ _).length
      rw [List.length_set]
      omega
    · exact h

/-- The loop of `unread(buffer, offset, len)` keeps `bufferPos_` inside the pushback buffer. -/
theorem inv_unreadLoop {ρ : Type} (buffer : List Byte) (offset len remaining : Nat) :
    ∀ (i : Nat) (s : PushbackInputStream ρ), s.bufferPos_ ≤ s.pushbackBuffer_.length →
      (unreadLoop buffer offset len remaining i s).2.bufferPos_ ≤
        (unreadLoop buffer offset len remaining i s).2.pushbackBuffer_.length := by
  induction remaining with
  | zero => intro i s h; exact h
  | succ n ih =>
    intro i s h
    rw [unreadLoop]
    split
    · exact h
    · split
      · rename_i hlt
        apply ih
        show wrapSize (s.bufferPos_ + 2 ^ 64 - 1) ≤ (s.pushbackBuffer_.set _ _).length
        rw [List.length_set]
        exact Nat.le_of_lt hlt
      · exact h

/-- The member `unread(buffer, offset, len)` keeps `bufferPos_` inside the pushback buffer. -/
theorem inv_unreadFrom {ρ : Type} (s : PushbackInputStream ρ) (buffer : List Byte)
    (offset len : Nat) (h : s.bufferPos_ ≤ s.pushbackBuffer_.length) :
    (s.unreadFrom buffer offset len).2.bufferPos_ ≤
      (s.unreadFrom buffer offset len).2.pushbackBuffer_.length := by
  unfold unreadFrom
  split
  · exact h
  · exact inv_unreadLoop buffer offset len len 0 s h

end PushbackInputStream

/-- C30: on a `PushbackInputStream` whose `bufferPos_` lies inside `pushbackBuffer_` (the
constructor establishes this and `read`, `unread` keep it, see `inv_new` to `inv_unreadFrom`),
for every `buffer`, `offset` and `len` with `offset + len ≤ buffer.size()` and `len` not larger
than the free pushback space `bufferPos_`, the call `unread(buffer, offset, len)` returns
normally, the next `len` calls of `read()` return `buffer[offset]`, …, `buffer[offset+len-1]`
in that order, and any number `k` of further calls of `read()` have the outcomes that `k`
calls of `read()` have on the stream as it was before the `unread`.  The sizes of the two
vectors are below `2^64`, as the sizes of all vectors are. -/
theorem C30_unread_read_round_trip {ρ : Type} (inRead : ρ → Except PipeError Byte × ρ)
    (s : PushbackInputStream ρ) (hinv : s.bufferPos_ ≤ s.pushbackBuffer_.length)
    (hsize : s.pushbackBuffer_.length < 2 ^ 64) (buffer : List Byte) (offset len : Nat)
    (hb : buffer.length < 2 ^ 64) (hrange : offset + len ≤ buffer.length)
    (hfree : len ≤ s.bufferPos_) :
    (s.unreadFrom buffer offset len).1 = .ok () ∧
    (PushbackInputStream.readMany inRead len (s.unreadFrom buffer offset len).2).1 =
      ((buffer.drop offset).take len).map .ok ∧
    ∀ k, (PushbackInputStream.readMany inRead k
        (PushbackInputStream.readMany inRead len (s.unreadFrom buffer offset len).2).2).1 =
      (PushbackInputStream.readMany inRead k s).1 := by
  have hun : s.unreadFrom buffer offset len =
      PushbackInputStream.unreadLoop buffer offset len len 0 s := by
    unfold PushbackInputStream.unreadFrom
    rw [if_neg (by omega)]
  obtain ⟨r1, r2, r3, r4, r5⟩ := PushbackInputStream.unreadLoop_spec hb hrange len 0 s
    (by omega) hfree hinv hsize
  rw [hun]
  generalize PushbackInputStream.unreadLoop buffer offset len len 0 s = res at r1 r2 r3 r4 r5
  obtain ⟨q1, q2⟩ := PushbackInputStream.readMany_pushback inRead len res.2
    (by rw [r2, r4]; omega) (by rw [r4]; exact hsize)
  refine ⟨r1, ?_, fun k => ?_⟩
  · rw [q1]
    congr 1
    apply List.ext_getElem?
    intro j
    rw [List.getElem?_take, List.getElem?_take, List.getElem?_drop, List.getElem?_drop, r2, r5]
    by_cases hj : j < len
    · have hc : s.bufferPos_ - len ≤ s.bufferPos_ - len + j ∧
          s.bufferPos_ - len + j < s.bufferPos_ := by omega
      have he : s.bufferPos_ - len + j - (s.bufferPos_ - len) = j := by omega
      rw [if_pos hj, if_pos hc, he, if_pos hj]
    · rw [if_neg hj, if_neg hj]
  · rw [q2]
    apply PushbackInputStream.readMany_congr inRead k
    · exact r3
    · show res.2.bufferPos_ + len = s.bufferPos_
      rw [r2]
      omega
    · exact r4
    · intro j hj
      have hj : res.2.bufferPos_ + len ≤ j := hj
      show res.2.pushbackBuffer_[j]? = s.pushbackBuffer_[j]?
      rw [r5 j, if_neg (by rw [r2] at hj; omega)]
    · show res.2.pushbackBuffer_.length < 2 ^ 64
      rw [r4]
      exact hsize

/-- Witness for C30: a stream with four bytes of pushback space over an underlying stream
that delivers 9 each time; `unread({1, 2, 3}, 1, 2)` is followed by the reads 2, 3 and then
by what the stream delivered before. -/
theorem C30_unread_read_round_trip_witness :
    (PushbackInputStream.new (some 0) 4 : PushbackInputStream Nat).bufferPos_ ≤
      (PushbackInputStream.new (some 0) 4 : PushbackInputStream Nat).pushbackBuffer_.length ∧
    1 + 2 ≤ ([1, 2, 3] : List Byte).length ∧
    2 ≤ (PushbackInputStream.new (some 0) 4 : PushbackInputStream Nat).bufferPos_ ∧
    ((PushbackInputStream.new (some 0) 4 : PushbackInputStream Nat).unreadFrom
      [1, 2, 3] 1 2).1 = .ok () ∧
    (PushbackInputStream.readMany (fun u : Nat => (.ok 9, u + 1)) 2
      ((PushbackInputStream.new (some 0) 4 : PushbackInputStream Nat).unreadFrom
        [1, 2, 3] 1 2).2).1 = [.ok 2, .ok 3] ∧
    (PushbackInputStream.readMany (fun u : Nat => (.ok 9, u + 1)) 3
      (PushbackInputStream.readMany (fun u : Nat => (.ok 9, u + 1)) 2
        ((PushbackInputStream.new (some 0) 4 : PushbackInputStream Nat).unreadFrom
          [1, 2, 3] 1 2).2).2).1 =
      (PushbackInputStream.readMany (fun u : Nat => (.ok 9, u + 1)) 3
        (PushbackInputStream.new (some 0) 4 : PushbackInputStream Nat)).1 :=
  have h := C30_unread_read_round_trip (fun u : Nat => (.ok 9, u + 1))
    (PushbackInputStream.new (some 0) 4) (by decide) (by decide) [1, 2, 3] 1 2
    (by decide) (by decide) (by decide)
  ⟨by decide, by decide, by decide, h.1, h.2.1, h.2.2 3⟩

/-! ## Properties of the buffered output stream -/

namespace BufferedOutputStream

theorem buffered_flushBuffer_spec {ρ : Type}
    {outWrite : ρ → List Byte → Nat → Nat → Except PipeError Unit × ρ}
    {received : ρ → List Byte}
    (hW : ∀ u buffer len, len ≤ buffer.length → (outWrite u buffer 0 len).1 = .ok () ∧
      received (outWrite u buffer 0 len).2 = received u ++ buffer.take len)
    {size : Nat} {s : BufferedOutputStream ρ} {bs : List Byte} (h : Holds received size s bs) :
    (flushBuffer outWrite s).1 = .ok () ∧ Holds received size (flushBuffer outWrite s).2 bs ∧
    (flushBuffer outWrite s).2.bufferPosition_ = 0 ∧
    ∃ u1, (flushBuffer outWrite s).2.outputStream_ = some u1 ∧ received u1 = bs := by
  obtain ⟨h1, h2, h3, u, h4, h5⟩ := h
  by_cases hp : s.bufferPosition_ > 0
  · obtain ⟨w1, w2⟩ := hW u s.buffer_ s.bufferPosition_ (by omega)
    have hres : outWrite u s.buffer_ 0 s.bufferPosition_ =
        (.ok (), (outWrite u s.buffer_ 0 s.bufferPosition_).2) := Prod.ext w1 rfl
    have e : flushBuffer outWrite s = (.ok (),
        ⟨some (outWrite u s.buffer_ 0 s.bufferPosition_).2, s.bufferSize_, s.buffer_, 0⟩) := by
      unfold flushBuffer
      rw [if_pos hp, h4]
      dsimp only
      rw [hres]
    rw [e]
    refine ⟨rfl, ⟨h1, h2, Nat.zero_le _, _, rfl, ?_⟩, rfl, _, rfl, ?_⟩
    · show received _ ++ s.buffer_.take 0 = bs
      rw [w2, List.take_zero, List.append_nil, h5]
    · rw [w2, h5]
  · have e : flushBuffer outWrite s = (.ok (), s) := by
      unfold flushBuffer
      rw [if_neg hp]
    have h0 : s.bufferPosition_ = 0 := by omega
    rw [e]
    refine ⟨rfl, ⟨h1, h2, h3, u, h4, h5⟩, h0, u, h4, ?_⟩
    rw [← h5, h0, List.take_zero, List.append_nil]

theorem set_take_succ {α : Type} (l : List α) (n : Nat) (a : α) (h : n < l.length) :
    (l.set n a).take (n + 1) = l.take n ++ [a] := by
  rw [List.take_succ, List.getElem?_set, if_pos rfl, if_pos h]
  congr 1
  apply List.ext_getElem?
  intro j
  rw [List.getElem?_take, List.getElem?_take]
  by_cases hj : j < n
  · rw [if_pos hj, if_pos hj, List.getElem?_set_ne (by omega)]
  · rw [if_neg hj, if_neg hj]

theorem buffered_write_spec {ρ : Type}
    {outWrite : ρ → List Byte → Nat → Nat → Except PipeError Unit × ρ}
    {received : ρ → List Byte}
    (hW : ∀ u buffer len, len ≤ buffer.length → (outWrite u buffer 0 len).1 = .ok () ∧
      received (outWrite u buffer 0 len).2 = received u ++ buffer.take len)
    {size : Nat} (hsize : 1 ≤ size) (hmax : size < 2 ^ 64)
    {s : BufferedOutputStream ρ} {bs : List Byte} (h : Holds received size s bs) (b : Byte) :
    (write outWrite s b).1 = .ok () ∧ Holds received size (write outWrite s b).2 (bs ++ [b]) := by
  have haux : ∃ s1, (if s.bufferPosition_ ≥ s.bufferSize_ then flushBuffer outWrite s
      else (.ok (), s)) = (.ok (), s1) ∧ Holds received size s1 bs ∧
      s1.bufferPosition_ < size := by
    by_cases hfull : s.bufferPosition_ ≥ s.bufferSize_
    · obtain ⟨f1, f2, f3, _⟩ := buffered_flushBuffer_spec hW h
      exact ⟨(flushBuffer outWrite s).2, by rw [if_pos hfull]; exact Prod.ext f1 rfl, f2,
        by rw [f3]; omega⟩
    · exact ⟨s, by rw [if_neg hfull], h, by rw [h.1] at hfull; omega⟩
  obtain ⟨s1, e1, ⟨g1, g2, g3, u, g4, g5⟩, hlt⟩ := haux
  have hw : wrapSize (s1.bufferPosition_ + 1) = s1.bufferPosition_ + 1 :=
    Nat.mod_eq_of_lt (by omega)
  have e : write outWrite s b = (.ok (),
      ⟨s1.outputStream_, s1.bufferSize_, s1.buffer_.set s1.bufferPosition_ b,
        s1.bufferPosition_ + 1⟩) := by
    unfold write
    rw [e1]
    dsimp only
    rw [if_pos (by omega), hw]
  rw [e]
  refine ⟨rfl, g1, ?_, ?_, u, g4, ?_⟩
  · show (s1.buffer_.set _ _).length = size
    rw [List.length_set]
    exact g2
  · show s1.bufferPosition_ + 1 ≤ size
    omega
  · show received u ++ (s1.buffer_.set s1.bufferPosition_ b).take (s1.bufferPosition_ + 1) = _
    rw [set_take_succ _ _ _ (by omega), ← List.append_assoc, g5]

theorem buffered_writeLoop_spec {ρ : Type}
    {outWrite : ρ → List Byte → Nat → Nat → Except PipeError Unit × ρ}
    {received : ρ → List Byte}
    (hW : ∀ u buffer len, len ≤ buffer.length → (outWrite u buffer 0 len).1 = .ok () ∧
      received (outWrite u buffer 0 len).2 = received u ++ buffer.take len)
    {size : Nat} (hsize : 1 ≤ size) (hmax : size < 2 ^ 64)
    {data : List Byte} {offset len : Nat} (hrange : offset + len ≤ data.length)
    (hdata : data.length < 2 ^ 64) (fuel : Nat) :
    ∀ (bytesWritten : Nat) (s : BufferedOutputStream ρ) (bs : List Byte),
      Holds received size s bs → bytesWritten ≤ len → len - bytesWritten ≤ fuel →
      (writeLoop outWrite data offset len fuel bytesWritten s).1 = .ok () ∧
      Holds received size (writeLoop outWrite data offset len fuel bytesWritten s).2
        (bs ++ (data.drop (offset + bytesWritten)).take (len - bytesWritten)) := by
  induction fuel with
  | zero =>
    intro bw s bs h hle hfuel
    have e : writeLoop outWrite data offset len 0 bw s = (.ok (), s) := by
      rw [writeLoop, if_neg (by omega)]
    have e0 : len - bw = 0 := by omega
    rw [e, e0, List.take_zero, List.append_nil]
    exact ⟨rfl, h⟩
  | succ fuel ih =>
    intro bw s bs h hle hfuel
    by_cases hlt : bw < len
    · have haux : ∃ s1, (if s.bufferPosition_ = s.bufferSize_ then flushBuffer outWrite s
          else (.ok (), s)) = (.ok (), s1) ∧ Holds received size s1 bs ∧
          s1.bufferPosition_ < size := by
        by_cases hfull : s.bufferPosition_ = s.bufferSize_
        · obtain ⟨f1, f2, f3, _⟩ := buffered_flushBuffer_spec hW h
          exact ⟨(flushBuffer outWrite s).2, by rw [if_pos hfull]; exact Prod.ext f1 rfl, f2,
            by rw [f3]; omega⟩
        · have h3 := h.2.2.1
          exact ⟨s, by rw [if_neg hfull], h, by rw [h.1] at hfull; omega⟩
      obtain ⟨s1, e1, ⟨g1, g2, g3, u, g4, g5⟩, hpos⟩ := haux
      have hws : wrapSize (s1.bufferSize_ + 2 ^ 64 - s1.bufferPosition_) =
          size - s1.bufferPosition_ := by
        have e2 : s1.bufferSize_ + 2 ^ 64 - s1.bufferPosition_ =
            (size - s1.bufferPosition_) + 2 ^ 64 := by omega
        rw [e2]
        unfold wrapSize
        rw [Nat.add_mod_right]
        exact Nat.mod_eq_of_lt (by omega)
      have hwo : wrapSize (offset + bw) = offset + bw := Nat.mod_eq_of_lt (by omega)
      have hn0 : ¬ min (len - bw) (size - s1.bufferPosition_) = 0 := by omega
      have hnle : min (len - bw) (size - s1.bufferPosition_) ≤ len - bw := Nat.min_le_left _ _
      have hnle2 : min (len - bw) (size - s1.bufferPosition_) ≤ size - s1.bufferPosition_ :=
        Nat.min_le_right _ _
      generalize hn : min (len - bw) (size - s1.bufferPosition_) = n at hn0 hnle hnle2
      have hwb : wrapSize (bw + n) = bw + n := Nat.mod_eq_of_lt (by omega)
      have hwp : wrapSize (s1.bufferPosition_ + n) = s1.bufferPosition_ + n :=
        Nat.mod_eq_of_lt (by omega)
      have hguard : s1.bufferPosition_ < s1.buffer_.length ∧ offset + bw < data.length ∧
          s1.bufferPosition_ + n ≤ s1.buffer_.length ∧ offset + bw + n ≤ data.length := by
        omega
      have e : writeLoop outWrite data offset len (fuel + 1) bw s =
          writeLoop outWrite data offset len fuel (bw + n)
            ⟨s1.outputStream_, s1.bufferSize_,
              s1.buffer_.take s1.bufferPosition_ ++ (data.drop (offset + bw)).take n ++
                s1.buffer_.drop (s1.bufferPosition_ + n),
              s1.bufferPosition_ + n⟩ := by
        rw [writeLoop, if_pos hlt, e1]
        dsimp only
        rw [hws, hwo, hn, if_neg hn0, if_pos hguard, hwb, hwp]
      have hchunk : ((data.drop (offset + bw)).take n).length = n := by
        rw [List.length_take, List.length_drop]
        omega
      have hpre : (s1.buffer_.take s1.bufferPosition_ ++
          (data.drop (offset + bw)).take n).length = s1.bufferPosition_ + n := by
        rw [List.length_append, List.length_take, hchunk]
        omega
      have h2 : Holds received size
          (⟨s1.outputStream_, s1.bufferSize_,
              s1.buffer_.take s1.bufferPosition_ ++ (data.drop (offset + bw)).take n ++
                s1.buffer_.drop (s1.bufferPosition_ + n),
              s1.bufferPosition_ + n⟩ : BufferedOutputStream ρ)
          (bs ++ (data.drop (offset + bw)).take n) := by
        refine ⟨g1, ?_, ?_, u, g4, ?_⟩
        · show List.length (_ ++ _ ++ _ : List Byte) = size
          rw [List.length_append, hpre, List.length_drop]
          omega
        · show s1.bufferPosition_ + n ≤ size
          omega
        · show received u ++ List.take (s1.bufferPosition_ + n) (_ ++ _ ++ _) = _
          rw [List.take_left' hpre, ← List.append_assoc, g5]
      obtain ⟨r1, r2⟩ := ih (bw + n) _ _ h2 (by omega) (by omega)
      rw [e]
      refine ⟨r1, ?_⟩
      have hsplit : (data.drop (offset + bw)).take (len - bw) =
          (data.drop (offset + bw)).take n ++
            (data.drop (offset + (bw + n))).take (len - (bw + n)) := by
        have e3 : len - bw = n + (len - (bw + n)) := by omega
        rw [e3, List.take_add, List.drop_drop]
        congr 2
        congr 1
        omega
      rw [hsplit, ← List.append_assoc]
      exact r2
    · have e : writeLoop outWrite data offset len (fuel + 1) bw s = (.ok (), s) := by
        rw [writeLoop, if_neg hlt]
      have e0 : len - bw = 0 := by omega
      rw [e, e0, List.take_zero, List.append_nil]
      exact ⟨rfl, h⟩

theorem buffered_run_spec {ρ : Type}
    {outWrite : ρ → List Byte → Nat → Nat → Except PipeError Unit × ρ}
    {received : ρ → List Byte}
    (hW : ∀ u buffer len, len ≤ buffer.length → (outWrite u buffer 0 len).1 = .ok () ∧
      received (outWrite u buffer 0 len).2 = received u ++ buffer.take len)
    {size : Nat} (hsize : 1 ≤ size) (hmax : size < 2 ^ 64) (ops : List Op) :
    ∀ (s : BufferedOutputStream ρ) (bs : List Byte), Holds received size s bs →
      (∀ op ∈ ops, op.InRange) →
      (∀ r ∈ (run outWrite ops s).1, r = .ok ()) ∧
      Holds received size (run outWrite ops s).2 (bs ++ written ops) := by
  induction ops with
  | nil =>
    intro s bs h _
    refine ⟨fun r hr => absurd hr (List.not_mem_nil r), ?_⟩
    show Holds received size s (bs ++ [])
    rw [List.append_nil]
    exact h
  | cons op ops ih =>
    intro s bs h hops
    have hp : (perform outWrite s op).1 = .ok () ∧
        Holds received size (perform outWrite s op).2 (bs ++ op.bytes) := by
      cases op with
      | write b => exact buffered_write_spec hW hsize hmax h b
      | writeFrom data offset len =>
        obtain ⟨hr, hd⟩ : offset + len ≤ data.length ∧ data.length < 2 ^ 64 :=
          hops _ (List.mem_cons_self _ _)
        have e : perform outWrite s (.writeFrom data offset len) =
            writeLoop outWrite data offset len len 0 s := by
          show writeFrom outWrite s data offset len = _
          unfold writeFrom
          rw [if_neg]
          have := Nat.mod_le (offset + len) (2 ^ 64)
          unfold wrapSize
          omega
        rw [e]
        have := buffered_writeLoop_spec hW hsize hmax hr hd len 0 s bs h (Nat.zero_le _) (by omega)
        simpa using this
    obtain ⟨p1, p2⟩ := hp
    obtain ⟨r1, r2⟩ := ih _ _ p2 (fun o ho => hops o (List.mem_cons_of_mem _ ho))
    refine ⟨?_, ?_⟩
    · intro r hr
      have hr : r ∈ (perform outWrite s op).1 :: (run outWrite ops (perform outWrite s op).2).1 :=
        hr
      rcases List.mem_cons.1 hr with h1 | h1
      · rw [h1, p1]
      · exact r1 r h1
    · show Holds received size (run outWrite ops (perform outWrite s op).2).2
        (bs ++ (op.bytes ++ written ops))
      rw [← List.append_assoc]
      exact r2

end BufferedOutputStream

/-- C31. `BufferedOutputStream` is transparent.  The stream underneath is any output stream
whose `write(buffer, 0, len)` with `len <= buffer.size()` returns normally and receives
`buffer[0..len)` after what it had received, and whose `flush()` returns normally and
changes nothing of what it has received.  For every buffer size `size >= 1` (a `size_t`) and
every sequence of calls `write(b)` and `write(data, offset, len)` with
`offset + len <= data.size()`: the constructor returns a stream, every call returns
normally, the `flush()` after them returns normally, and the stream underneath has then
received, after what it had before, exactly the written bytes in order. -/
theorem C31_buffered_output_transparent {ρ : Type}
    (outWrite : ρ → List Byte → Nat → Nat → Except PipeError Unit × ρ)
    (outFlush : ρ → Except PipeError Unit × ρ) (received : ρ → List Byte)
    (hW : ∀ u buffer len, len ≤ buffer.length → (outWrite u buffer 0 len).1 = .ok () ∧
      received (outWrite u buffer 0 len).2 = received u ++ buffer.take len)
    (hF : ∀ u, (outFlush u).1 = .ok () ∧ received (outFlush u).2 = received u)
    (u : ρ) (size : Nat) (hsize : 1 ≤ size) (hmax : size < 2 ^ 64)
    (ops : List BufferedOutputStream.Op) (hops : ∀ op ∈ ops, op.InRange) :
    ∃ s0, BufferedOutputStream.new (some u) size = .ok s0 ∧
      (∀ r ∈ (BufferedOutputStream.run outWrite ops s0).1, r = .ok ()) ∧
      (BufferedOutputStream.flush outWrite outFlush
        (BufferedOutputStream.run outWrite ops s0).2).1 = .ok () ∧
      ∃ u1, (BufferedOutputStream.flush outWrite outFlush
          (BufferedOutputStream.run outWrite ops s0).2).2.outputStream_ = some u1 ∧
        received u1 = received u ++ BufferedOutputStream.written ops := by
  refine ⟨⟨some u, size, List.replicate size 0, 0⟩, ?_, ?_⟩
  · unfold BufferedOutputStream.new
    rw [if_neg (by omega)]
  · have h0 : BufferedOutputStream.Holds received size
        (⟨some u, size, List.replicate size 0, 0⟩ : BufferedOutputStream ρ) (received u) :=
      ⟨rfl, List.length_replicate _ _, Nat.zero_le _, u, rfl, by simp⟩
    obtain ⟨r1, r2⟩ := BufferedOutputStream.buffered_run_spec hW hsize hmax ops _ _ h0 hops
    obtain ⟨f1, f2, f3, u1, f4, f5⟩ := BufferedOutputStream.buffered_flushBuffer_spec hW r2
    refine ⟨r1, ?_⟩
    generalize BufferedOutputStream.run outWrite ops _ = res at r2 f1 f2 f3 f4 f5
    have hres : BufferedOutputStream.flushBuffer outWrite res.2 =
        (.ok (), (BufferedOutputStream.flushBuffer outWrite res.2).2) := Prod.ext f1 rfl
    have e : BufferedOutputStream.flush outWrite outFlush res.2 =
        ((outFlush u1).1, ⟨some (outFlush u1).2,
          (BufferedOutputStream.flushBuffer outWrite res.2).2.bufferSize_,
          (BufferedOutputStream.flushBuffer outWrite res.2).2.buffer_,
          (BufferedOutputStream.flushBuffer outWrite res.2).2.bufferPosition_⟩) := by
      unfold BufferedOutputStream.flush
      rw [hres]
      dsimp only
      rw [f4]
    rw [e]
    exact ⟨(hF u1).1, _, rfl, by rw [(hF u1).2, f5]⟩

/-- Witness for C31: the stream underneath keeps the bytes it is handed in a list; buffer
size 2 and the calls `write(1)`, `write(data, 1, 3)` with `data` holding 2, 3, 4, 5, and
`write(6)`. -/
theorem C31_buffered_output_transparent_witness :
    ∃ s0, BufferedOutputStream.new (some ([] : List Byte)) 2 = .ok s0 ∧
      (∀ r ∈ (BufferedOutputStream.run
          (fun (u buffer : List Byte) (offset len : Nat) =>
            ((.ok () : Except PipeError Unit), u ++ (buffer.drop offset).take len))
          [.write 1, .writeFrom [2, 3, 4, 5] 1 3, .write 6] s0).1, r = .ok ()) ∧
      (BufferedOutputStream.flush
        (fun (u buffer : List Byte) (offset len : Nat) =>
          ((.ok () : Except PipeError Unit), u ++ (buffer.drop offset).take len))
        (fun (u : List Byte) => ((.ok () : Except PipeError Unit), u))
        (BufferedOutputStream.run
          (fun (u buffer : List Byte) (offset len : Nat) =>
            ((.ok () : Except PipeError Unit), u ++ (buffer.drop offset).take len))
          [.write 1, .writeFrom [2, 3, 4, 5] 1 3, .write 6] s0).2).1 = .ok () ∧
      ∃ u1, (BufferedOutputStream.flush
          (fun (u buffer : List Byte) (offset len : Nat) =>
            ((.ok () : Except PipeError Unit), u ++ (buffer.drop offset).take len))
          (fun (u : List Byte) => ((.ok () : Except PipeError Unit), u))
          (BufferedOutputStream.run
            (fun (u buffer : List Byte) (offset len : Nat) =>
              ((.ok () : Except PipeError Unit), u ++ (buffer.drop offset).take len))
            [.write 1, .writeFrom [2, 3, 4, 5] 1 3, .write 6] s0).2).2.outputStream_ = some u1 ∧
        (fun (u : List Byte) => u) u1 = (fun (u : List Byte) => u) [] ++
          BufferedOutputStream.written [.write 1, .writeFrom [2, 3, 4, 5] 1 3, .write 6] :=
  C31_buffered_output_transparent
    (fun (u buffer : List Byte) (offset len : Nat) =>
      ((.ok () : Except PipeError Unit), u ++ (buffer.drop offset).take len))
    (fun (u : List Byte) => ((.ok () : Except PipeError Unit), u))
    (fun (u : List Byte) => u)
    (fun _ _ _ _ => ⟨rfl, rfl⟩) (fun _ => ⟨rfl, rfl⟩) [] 2 (by decide) (by decide)
    [.write 1, .writeFrom [2, 3, 4, 5] 1 3, .write 6]
    (by
      intro op hop
      rcases List.mem_cons.1 hop with h | hop
      · rw [h]; exact trivial
      · rcases List.mem_cons.1 hop with h | hop
        · rw [h]; exact ⟨by decide, by decide⟩
        · rcases List.mem_cons.1 hop with h | hop
          · rw [h]; exact trivial
          · exact absurd hop (List.not_mem_nil _))

/-! ## Properties of the pipes after `close()` and after a failed bulk write -/

/-- C34 at a failing input: `PipedReader(4)` and `close()` on it leave `buffer_` empty and
`bufferSize_` at 4, so `writeToBuffer('x')` passes the test `bufferSize_ == 0` and the
overflow test and then stores at index 0 of the empty vector; a `write('x')` through a
`PipedWriter` bound to that reader does the same.  Neither throws the
"Buffer not initialized or closed." error. -/
theorem C34_write_after_reader_close :
    PipedReader.new 4 = .ok (PipedReader.mk none [0, 0, 0, 0] 4 0 0) ∧
    (PipedReader.mk none [0, 0, 0, 0] 4 0 0).close = (.ok (), PipedReader.mk none [] 4 0 0) ∧
    (PipedReader.mk none [] 4 0 0).writeToBuffer 120 =
      (.error .undefinedBehaviour, PipedReader.mk none [] 4 0 0) ∧
    (PipedWriter.new (some 0)).write 120 [PipedReader.mk none [] 4 0 0] =
      (.error .undefinedBehaviour, PipedWriter.new (some 0), [PipedReader.mk none [] 4 0 0]) := by
  refine ⟨rfl, rfl, rfl, rfl⟩

/-- C35 at a failing input: after `close()` on `PipedInputStream(4)` the vector `buffer_` is
empty, and both `available()` and `receive(5)` evaluate `% buffer_.size()` with size zero,
which is undefined behaviour: `available()` does not return 0 and `receive` throws no
exception. -/
theorem C35_available_after_close :
    (PipedInputStream.new 4).close = (.ok (), PipedInputStream.mk [] 0 0 none) ∧
    (PipedInputStream.mk [] 0 0 none).buffer_.length = 0 ∧
    (PipedInputStream.mk [] 0 0 none).available =
      (.error .undefinedBehaviour, PipedInputStream.mk [] 0 0 none) ∧
    (PipedInputStream.mk [] 0 0 none).receive 5 =
      (.error .undefinedBehaviour, PipedInputStream.mk [] 0 0 none) := by
  refine ⟨rfl, rfl, rfl, rfl⟩

namespace PipedOutputStream

/-- A bulk write of more bytes than the pipe has room for stores as many as fit and ends
with the overflow exception of `receive`. -/
theorem writeLoop_overflow {buffer : List Byte} {offset p c : Nat}
    (hb : buffer.length < 2 ^ 64) (remaining : Nat) :
    ∀ {i : Nat} {heap : List PipedInputStream} {s : PipedInputStream}, heap[p]? = some s →
      PipedInputStream.WF c s → offset + i + remaining ≤ buffer.length →
      c - 1 - s.count < remaining →
      (writeLoop buffer offset p remaining i heap).1 = .error .overflow ∧
      ∃ s1, (writeLoop buffer offset p remaining i heap).2[p]? = some s1 ∧
        PipedInputStream.WF c s1 ∧
        s1.queued = s.queued ++ (buffer.drop (offset + i)).take (c - 1 - s.count) ∧
        s1.count = c - 1 := by
  induction remaining with
  | zero =>
    intro i heap s _ _ _ hlt
    exact absurd hlt (Nat.not_lt_zero _)
  | succ n ih =>
    intro i heap s h hwf hle hlt
    have hidx : offset + i < buffer.length := by omega
    have hw1 : wrapSize (offset + i) = offset + i := Nat.mod_eq_of_lt (by omega)
    have hw2 : wrapSize (i + 1) = i + 1 := Nat.mod_eq_of_lt (by omega)
    have hget : buffer[offset + i]? = some buffer[offset + i] := List.getElem?_eq_getElem hidx
    rcases hwf.receive_spec buffer[offset + i] with ⟨hfull, e⟩ | ⟨hroom, e, hwf1, hcnt, hq, _⟩
    · have hstep : writeLoop buffer offset p (n + 1) i heap =
          (.error .overflow, heap.set p s) := by
        simp only [writeLoop, hw1, hget, callAt_eq h, e]
      rw [hstep]
      have e0 : c - 1 - s.count = 0 := by omega
      refine ⟨rfl, s, getElem?_set_of_getElem? h s, hwf, ?_, hfull⟩
      rw [e0, List.take_zero, List.append_nil]
    · have hnext := getElem?_set_of_getElem? h (s.receive buffer[offset + i]).2
      have hstep : writeLoop buffer offset p (n + 1) i heap =
          writeLoop buffer offset p n (i + 1) (heap.set p (s.receive buffer[offset + i]).2) := by
        simp only [writeLoop, hw1, hw2, hget, callAt_eq h, e]
      rw [hstep]
      obtain ⟨r1, s1, e1, hwf2, hq2, hc2⟩ := ih hnext hwf1
        (show offset + (i + 1) + n ≤ buffer.length by omega) (by omega)
      refine ⟨r1, s1, e1, hwf2, ?_, hc2⟩
      have e3 : c - 1 - s.count = (c - 1 - (s.receive buffer[offset + i]).2.count) + 1 := by
        omega
      rw [hq2, hq, e3, List.drop_eq_getElem_cons hidx, List.take_succ_cons, List.append_assoc,
        Nat.add_assoc]
      rfl

end PipedOutputStream

/-- C36. A failed bulk write is not rolled back: on a bound `PipedOutputStream` whose pipe
of capacity `c` is in a reachable state with `available() = a`, a call
`write(buffer, offset, len)` with `offset + len <= buffer.size()` and `len > f`, where
`f = c - 1 - a`, throws the overflow error, and the pipe afterwards holds the bytes queued
before followed by exactly `buffer[offset]`, ..., `buffer[offset + f - 1]`, with
`available() = c - 1`. -/
theorem C36_failed_bulk_write_keeps_prefix (c : Nat) (hc : 1 ≤ c) (s : PipedInputStream)
    (hs : s.Reachable c) (o : PipedOutputStream) (p : Nat) (heap : List PipedInputStream)
    (ho : o.BoundTo p) (hp : heap[p]? = some s) (buffer : List Byte) (offset len : Nat)
    (hsize : buffer.length < 2 ^ 64) (hrange : offset + len ≤ buffer.length)
    (hlen : c - 1 - s.count < len) :
    s.available.1 = .ok s.count ∧
    (o.writeFrom buffer offset len heap).1 = .error .overflow ∧
    ∃ s1, (o.writeFrom buffer offset len heap).2.2[p]? = some s1 ∧
      s1.queued = s.queued ++ (buffer.drop offset).take (c - 1 - s.count) ∧
      s1.available.1 = .ok (c - 1) := by
  have hwf := hs.wf hc
  have hr : wrapSize (offset + len) ≤ buffer.length :=
    Nat.le_trans (Nat.mod_le _ _) hrange
  rw [ho.writeFrom_eq buffer offset len heap hr]
  obtain ⟨r1, s1, e1, hwf1, hq, hcnt⟩ :=
    PipedOutputStream.writeLoop_overflow hsize len hp hwf
      (show offset + 0 + len ≤ buffer.length by omega) hlen
  exact ⟨by rw [hwf.available_eq], r1, s1, e1, by simpa using hq,
    by rw [hwf1.available_eq, hcnt]⟩

/-- C36 on a fresh pipe of capacity 4 (room for 3 bytes), the buffer `1, 2, 3, 4, 5`,
offset 1 and length 4. -/
theorem C36_failed_bulk_write_keeps_prefix_witness :
    (PipedInputStream.new 4).available.1 = .ok (PipedInputStream.new 4).count ∧
    ((PipedOutputStream.mk (some 0) false true).writeFrom [1, 2, 3, 4, 5] 1 4
      [PipedInputStream.new 4]).1 = .error .overflow ∧
    ∃ s1, ((PipedOutputStream.mk (some 0) false true).writeFrom [1, 2, 3, 4, 5] 1 4
        [PipedInputStream.new 4]).2.2[0]? = some s1 ∧
      s1.queued = (PipedInputStream.new 4).queued ++
        (([1, 2, 3, 4, 5] : List Byte).drop 1).take (4 - 1 - (PipedInputStream.new 4).count) ∧
      s1.available.1 = .ok (4 - 1) :=
  C36_failed_bulk_write_keeps_prefix 4 (by decide) (PipedInputStream.new 4) ⟨none, [], rfl⟩
    (PipedOutputStream.mk (some 0) false true) 0 [PipedInputStream.new 4] ⟨rfl, rfl, rfl⟩ rfl
    [1, 2, 3, 4, 5] 1 4 (by decide) (by decide) (by decide)

end common.io

/-! # Properties of the worker pool -/

namespace common.thread

namespace ThreadPool

theorem submittedOf_append (a b : List Event) :
    submittedOf (a ++ b) = submittedOf a ++ submittedOf b := by
  induction a with
  | nil => rfl
  | cons e a ih => cases e <;> simp [submittedOf, ih]

theorem dequeuedOf_append (a b : List Event) :
    dequeuedOf (a ++ b) = dequeuedOf a ++ dequeuedOf b := by
  induction a with
  | nil => rfl
  | cons e a ih => cases e <;> simp [dequeuedOf, ih]

theorem invokedOf_append (a b : List Event) :
    invokedOf (a ++ b) = invokedOf a ++ invokedOf b := by
  induction a with
  | nil => rfl
  | cons e a ih => cases e <;> simp [invokedOf, ih]

theorem popAll_eq_nil (q : List TaskId) : popAll q = [] := by
  induction q with
  | nil => rfl
  | cons t q ih => exact ih

/-- The four ways through the critical section of `Worker()`. -/
theorem Worker_cases (pool : ThreadPool) :
    (pool.task_queue_ = [] ∧ pool.stop_ = true ∧ pool.Worker = (.terminated, pool)) ∨
    (pool.task_queue_ = [] ∧ pool.stop_ = false ∧
      pool.activeThreadCount_ > pool.coreThreadCount_ ∧
      pool.Worker = (.terminated,
        { pool with activeThreadCount_ := pool.activeThreadCount_ - 1 })) ∨
    (pool.task_queue_ = [] ∧ pool.stop_ = false ∧
      pool.activeThreadCount_ ≤ pool.coreThreadCount_ ∧ pool.Worker = (.waiting, pool)) ∨
    (∃ task rest, pool.task_queue_ = task :: rest ∧
      pool.Worker = (.running task, { pool with task_queue_ := rest })) := by
  unfold Worker
  cases hq : pool.task_queue_ with
  | nil =>
    cases hs : pool.stop_
    · by_cases ha : pool.activeThreadCount_ > pool.coreThreadCount_
      · right; left
        simp [ha]
      · right; right; left
        simp [ha]
        omega
    · left
      simp
  | cons task rest =>
    right; right; right
    exact ⟨task, rest, rfl, by simp⟩

theorem mem_set_or_eq {α : Type} {l : List α} {i : Nat} {old x : α} (h : l[i]? = some old)
    (b : α) (hx : x ∈ l) : x ∈ l.set i b ∨ x = old := by
  obtain ⟨j, hj⟩ := List.mem_iff_getElem?.1 hx
  by_cases hij : i = j
  · right
    subst hij
    rw [h] at hj
    injection hj with hj
    exact hj.symm
  · left
    apply List.mem_iff_getElem?.2
    exact ⟨j, by rw [List.getElem?_set_ne hij]; exact hj⟩

theorem mem_set_self {α : Type} {l : List α} {i : Nat} {old : α} (h : l[i]? = some old)
    (b : α) : b ∈ l.set i b :=
  List.getElem?_mem (common.io.getElem?_set_of_getElem? h b)

/-- The moves of a worker thread. -/
theorem workerStep_cases (pool : ThreadPool) (i : Nat) :
    (pool.workerStep i = ([], pool) ∧
      (pool.workers_[i]? = none ∨ pool.workers_[i]? = some .terminated)) ∨
    (∃ task, pool.workers_[i]? = some (.running task) ∧
      pool.workerStep i =
        ([.invoked i task], { pool with workers_ := pool.workers_.set i .waiting })) ∨
    (pool.workers_[i]? = some .waiting ∧ pool.task_queue_ = [] ∧
      (pool.workerStep i).1 = [.exited i] ∧
      (pool.workerStep i).2.workers_ = pool.workers_.set i .terminated ∧
      (pool.workerStep i).2.task_queue_ = []) ∨
    (pool.workers_[i]? = some .waiting ∧ pool.task_queue_ = [] ∧
      pool.workerStep i = ([], { pool with workers_ := pool.workers_.set i .waiting })) ∨
    (∃ task rest, pool.workers_[i]? = some .waiting ∧ pool.task_queue_ = task :: rest ∧
      pool.workerStep i = ([.dequeued i task],
        { pool with task_queue_ := rest, workers_ := pool.workers_.set i (.running task) })) := by
  unfold workerStep
  cases hw : pool.workers_[i]? with
  | none => left; exact ⟨rfl, Or.inl rfl⟩
  | some w =>
    cases w with
    | terminated => left; exact ⟨rfl, Or.inr rfl⟩
    | running task => right; left; exact ⟨task, rfl, rfl⟩
    | waiting =>
      right; right
      rcases pool.Worker_cases with ⟨hq, _, e⟩ | ⟨hq, _, _, e⟩ | ⟨hq, _, _, e⟩ |
        ⟨task, rest, hq, e⟩
      · left
        rw [e]
        exact ⟨rfl, hq, rfl, rfl, hq⟩
      · left
        rw [e]
        exact ⟨rfl, hq, rfl, rfl, hq⟩
      · right; left
        rw [e]
        exact ⟨rfl, hq, rfl⟩
      · right; right
        rw [e]
        exact ⟨task, rest, rfl, hq, rfl⟩

/-- A step other than `ShutdownNow` keeps the balance of the queue: what was queued plus
what the step submitted is what the step took plus what is queued after it. -/
theorem step_queue_balance (pool : ThreadPool) (st : Step) (hst : st ≠ .shutdownNow) :
    pool.task_queue_ ++ submittedOf (pool.step st).1 =
      dequeuedOf (pool.step st).1 ++ (pool.step st).2.task_queue_ := by
  cases st with
  | submit task =>
    show pool.task_queue_ ++ submittedOf (match (pool.Submit task).1 with
      | .ok _ => [.submitted task]
      | .error _ => [.rejected task]) =
      dequeuedOf (match (pool.Submit task).1 with
      | .ok _ => [.submitted task]
      | .error _ => [.rejected task]) ++ (pool.Submit task).2.task_queue_
    unfold Submit
    split_ifs <;> simp [submittedOf, dequeuedOf]
  | shutdown => simp [step, Shutdown, submittedOf, dequeuedOf]
  | shutdownNow => exact absurd rfl hst
  | worker i =>
    show pool.task_queue_ ++ submittedOf (pool.workerStep i).1 =
      dequeuedOf (pool.workerStep i).1 ++ (pool.workerStep i).2.task_queue_
    rcases pool.workerStep_cases i with ⟨e, _⟩ | ⟨task, _, e⟩ | ⟨_, hq, e1, _, e3⟩ | ⟨_, _, e⟩ |
      ⟨task, rest, _, hq, e⟩
    · rw [e]; simp [submittedOf, dequeuedOf]
    · rw [e]; simp [submittedOf, dequeuedOf]
    · rw [e1, e3, hq]; simp [submittedOf, dequeuedOf]
    · rw [e]; simp [submittedOf, dequeuedOf]
    · rw [e, hq]; simp [submittedOf, dequeuedOf]

/-- The balance of the queue over a run without `ShutdownNow`. -/
theorem run_queue_balance (steps : List Step) :
    ∀ (pool : ThreadPool), Step.shutdownNow ∉ steps →
      pool.task_queue_ ++ submittedOf (pool.run steps).1 =
        dequeuedOf (pool.run steps).1 ++ (pool.run steps).2.task_queue_ := by
  induction steps with
  | nil => intro pool _; simp [run, submittedOf, dequeuedOf]
  | cons st rest ih =>
    intro pool hno
    have h1 := step_queue_balance pool st
      (fun e => hno (by rw [e]; exact List.mem_cons_self _ _))
    have h2 := ih (pool.step st).2 (fun h => hno (List.mem_cons_of_mem _ h))
    show pool.task_queue_ ++ submittedOf ((pool.step st).1 ++ ((pool.step st).2.run rest).1) =
      dequeuedOf ((pool.step st).1 ++ ((pool.step st).2.run rest).1) ++
        ((pool.step st).2.run rest).2.task_queue_
    rw [submittedOf_append, dequeuedOf_append, ← List.append_assoc, h1, List.append_assoc, h2,
      List.append_assoc]

/-- What a step of a client does: the worker threads stay where they are, nothing is taken
from the queue and nothing is called. -/
theorem clientStep_facts (pool : ThreadPool) (st : Step) (hst : ∀ i, st ≠ .worker i) :
    (pool.step st).2.workers_ = pool.workers_ ∧ invokedOf (pool.step st).1 = [] ∧
    dequeuedOf (pool.step st).1 = [] ∧
    (∀ t, t ∈ (pool.step st).2.task_queue_ →
      t ∈ pool.task_queue_ ∨ t ∈ submittedOf (pool.step st).1) := by
  cases st with
  | submit task =>
    show (pool.Submit task).2.workers_ = pool.workers_ ∧
      invokedOf (match (pool.Submit task).1 with
        | .ok _ => [.submitted task]
        | .error _ => [.rejected task]) = [] ∧
      dequeuedOf (match (pool.Submit task).1 with
        | .ok _ => [.submitted task]
        | .error _ => [.rejected task]) = [] ∧
      ∀ t, t ∈ (pool.Submit task).2.task_queue_ →
        t ∈ pool.task_queue_ ∨ t ∈ submittedOf (match (pool.Submit task).1 with
        | .ok _ => [.submitted task]
        | .error _ => [.rejected task])
    unfold Submit
    split_ifs <;> simp [submittedOf, dequeuedOf, invokedOf]
  | shutdown => simp [step, Shutdown, submittedOf, dequeuedOf, invokedOf]
  | shutdownNow => simp [step, ShutdownNow, popAll_eq_nil, submittedOf, dequeuedOf, invokedOf]
  | worker i => exact absurd rfl (hst i)

/-- A task that a step calls was held by a worker before the step. -/
theorem step_invoked (pool : ThreadPool) (st : Step) (t : TaskId)
    (h : t ∈ invokedOf (pool.step st).1) : WorkerState.running t ∈ pool.workers_ := by
  cases st with
  | worker i =>
    have h : t ∈ invokedOf (pool.workerStep i).1 := h
    rcases pool.workerStep_cases i with ⟨e, _⟩ | ⟨task, hw, e⟩ | ⟨_, _, e1, _, _⟩ | ⟨_, _, e⟩ |
      ⟨task, rest, _, _, e⟩
    · rw [e] at h; simp [invokedOf] at h
    · rw [e] at h
      simp only [invokedOf, List.mem_singleton] at h
      rw [h]
      exact List.getElem?_mem hw
    · rw [e1] at h; simp [invokedOf] at h
    · rw [e] at h; simp [invokedOf] at h
    · rw [e] at h; simp [invokedOf] at h
  | submit task =>
    rw [(clientStep_facts pool (.submit task) (fun i => Step.noConfusion)).2.1] at h
    exact absurd h (List.not_mem_nil _)
  | shutdown =>
    rw [(clientStep_facts pool (.shutdown) (fun i => Step.noConfusion)).2.1] at h
    exact absurd h (List.not_mem_nil _)
  | shutdownNow =>
    rw [(clientStep_facts pool (.shutdownNow) (fun i => Step.noConfusion)).2.1] at h
    exact absurd h (List.not_mem_nil _)

/-- A task held by a worker after a step was held before it or was in the queue. -/
theorem step_held_after (pool : ThreadPool) (st : Step) (t : TaskId)
    (h : WorkerState.running t ∈ (pool.step st).2.workers_) :
    WorkerState.running t ∈ pool.workers_ ∨ t ∈ pool.task_queue_ := by
  cases st with
  | worker i =>
    have h : WorkerState.running t ∈ (pool.workerStep i).2.workers_ := h
    rcases pool.workerStep_cases i with ⟨e, _⟩ | ⟨task, hw, e⟩ | ⟨_, _, _, e2, _⟩ | ⟨_, _, e⟩ |
      ⟨task, rest, _, hq, e⟩
    · rw [e] at h; exact Or.inl h
    · rw [e] at h
      rcases List.mem_or_eq_of_mem_set h with h | h
      · exact Or.inl h
      · exact WorkerState.noConfusion h
    · rw [e2] at h
      rcases List.mem_or_eq_of_mem_set h with h | h
      · exact Or.inl h
      · exact WorkerState.noConfusion h
    · rw [e] at h
      rcases List.mem_or_eq_of_mem_set h with h | h
      · exact Or.inl h
      · exact WorkerState.noConfusion h
    · rw [e] at h
      rcases List.mem_or_eq_of_mem_set h with h | h
      · exact Or.inl h
      · injection h with h
        right
        rw [hq, h]
        exact List.mem_cons_self _ _
  | submit task =>
    rw [(clientStep_facts pool (.submit task) (fun i => Step.noConfusion)).1] at h
    exact Or.inl h
  | shutdown =>
    rw [(clientStep_facts pool (.shutdown) (fun i => Step.noConfusion)).1] at h
    exact Or.inl h
  | shutdownNow =>
    rw [(clientStep_facts pool (.shutdownNow) (fun i => Step.noConfusion)).1] at h
    exact Or.inl h

/-- A task in the queue after a step was in the queue before it or was submitted by it. -/
theorem step_queued_after (pool : ThreadPool) (st : Step) (t : TaskId)
    (h : t ∈ (pool.step st).2.task_queue_) :
    t ∈ pool.task_queue_ ∨ t ∈ submittedOf (pool.step st).1 := by
  cases st with
  | worker i =>
    have h : t ∈ (pool.workerStep i).2.task_queue_ := h
    left
    rcases pool.workerStep_cases i with ⟨e, _⟩ | ⟨task, hw, e⟩ | ⟨_, _, _, _, e3⟩ | ⟨_, _, e⟩ |
      ⟨task, rest, _, hq, e⟩
    · rw [e] at h; exact h
    · rw [e] at h; exact h
    · rw [e3] at h; exact absurd h (List.not_mem_nil _)
    · rw [e] at h; exact h
    · rw [e] at h
      rw [hq]
      exact List.mem_cons_of_mem _ h
  | submit task =>
    exact (clientStep_facts pool (.submit task) (fun i => Step.noConfusion)).2.2.2 t h
  | shutdown =>
    exact (clientStep_facts pool (.shutdown) (fun i => Step.noConfusion)).2.2.2 t h
  | shutdownNow =>
    exact (clientStep_facts pool (.shutdownNow) (fun i => Step.noConfusion)).2.2.2 t h

/-- Whatever is called during a run was held by a worker at its start, or in the queue at its
start, or submitted during the run. -/
theorem run_invoked_origin (steps : List Step) :
    ∀ (pool : ThreadPool) (t : TaskId), t ∈ invokedOf (pool.run steps).1 →
      WorkerState.running t ∈ pool.workers_ ∨ t ∈ pool.task_queue_ ∨
        t ∈ submittedOf (pool.run steps).1 := by
  induction steps with
  | nil => intro pool t h; exact absurd h (List.not_mem_nil _)
  | cons st rest ih =>
    intro pool t h
    have h : t ∈ invokedOf ((pool.step st).1 ++ ((pool.step st).2.run rest).1) := h
    show _ ∨ _ ∨ t ∈ submittedOf ((pool.step st).1 ++ ((pool.step st).2.run rest).1)
    rw [invokedOf_append, List.mem_append] at h
    rw [submittedOf_append, List.mem_append]
    rcases h with h | h
    · exact Or.inl (step_invoked pool st t h)
    · rcases ih (pool.step st).2 t h with h | h | h
      · rcases step_held_after pool st t h with h | h
        · exact Or.inl h
        · exact Or.inr (Or.inl h)
      · rcases step_queued_after pool st t h with h | h
        · exact Or.inr (Or.inl h)
        · exact Or.inr (Or.inr (Or.inl h))
      · exact Or.inr (Or.inr (Or.inr h))

/-- A worker returns from `Worker()` only when the queue is empty. -/
theorem step_exited (pool : ThreadPool) (st : Step) (i : Nat)
    (h : Event.exited i ∈ (pool.step st).1) : pool.task_queue_ = [] := by
  cases st with
  | worker j =>
    have h : Event.exited i ∈ (pool.workerStep j).1 := h
    rcases pool.workerStep_cases j with ⟨e, _⟩ | ⟨task, hw, e⟩ | ⟨_, hq, _⟩ | ⟨_, hq, _⟩ |
      ⟨task, rest, _, _, e⟩
    · rw [e] at h; simp at h
    · rw [e] at h; simp at h
    · exact hq
    · exact hq
    · rw [e] at h; simp at h
  | submit task =>
    have h : Event.exited i ∈ (match (pool.Submit task).1 with
      | .ok _ => [Event.submitted task]
      | .error _ => [Event.rejected task]) := h
    cases hs : (pool.Submit task).1 <;> rw [hs] at h <;> simp at h
  | shutdown => simp [step] at h
  | shutdownNow => simp [step] at h

/-- A step after which every worker has returned, taken while some worker had not, found the
queue empty. -/
theorem step_last_exit (pool : ThreadPool) (st : Step) (hlive : pool.HasLiveWorker)
    (hall : (pool.step st).2.AllTerminated) : pool.task_queue_ = [] := by
  obtain ⟨w, hw, hne⟩ := hlive
  cases st with
  | worker i =>
    have hall : ∀ x ∈ (pool.workerStep i).2.workers_, x = WorkerState.terminated := hall
    rcases pool.workerStep_cases i with ⟨e, _⟩ | ⟨task, hwi, e⟩ | ⟨_, hq, _⟩ | ⟨hwi, _, e⟩ |
      ⟨task, rest, hwi, _, e⟩
    · rw [e] at hall
      exact absurd (hall w hw) hne
    · rw [e] at hall
      exact WorkerState.noConfusion (hall _ (mem_set_self hwi .waiting))
    · exact hq
    · rw [e] at hall
      exact WorkerState.noConfusion (hall _ (mem_set_self hwi .waiting))
    · rw [e] at hall
      exact WorkerState.noConfusion (hall _ (mem_set_self hwi (.running task)))
  | submit task =>
    have e := (clientStep_facts pool (.submit task) (fun i => Step.noConfusion)).1
    exact absurd (hall w (by rw [e]; exact hw)) hne
  | shutdown =>
    have e := (clientStep_facts pool (.shutdown) (fun i => Step.noConfusion)).1
    exact absurd (hall w (by rw [e]; exact hw)) hne
  | shutdownNow =>
    have e := (clientStep_facts pool (.shutdownNow) (fun i => Step.noConfusion)).1
    exact absurd (hall w (by rw [e]; exact hw)) hne

/-- A task in the queue before a step other than `ShutdownNow` is still in the queue after it
or was taken by the step. -/
theorem step_queued_before (pool : ThreadPool) {st : Step} (hst : st ≠ .shutdownNow)
    (t : TaskId) (h : t ∈ pool.task_queue_) :
    t ∈ (pool.step st).2.task_queue_ ∨ t ∈ dequeuedOf (pool.step st).1 := by
  have hb := step_queue_balance pool _ hst
  have hm : t ∈ pool.task_queue_ ++ submittedOf (pool.step st).1 :=
    List.mem_append.2 (Or.inl h)
  rw [hb] at hm
  rcases List.mem_append.1 hm with h | h
  · exact Or.inr h
  · exact Or.inl h

/-- A task held by a worker before a step is still held after it or was called by it. -/
theorem step_held_before (pool : ThreadPool) (st : Step) (t : TaskId)
    (h : WorkerState.running t ∈ pool.workers_) :
    WorkerState.running t ∈ (pool.step st).2.workers_ ∨ t ∈ invokedOf (pool.step st).1 := by
  cases st with
  | worker i =>
    show WorkerState.running t ∈ (pool.workerStep i).2.workers_ ∨
      t ∈ invokedOf (pool.workerStep i).1
    rcases pool.workerStep_cases i with ⟨e, _⟩ | ⟨task, hwi, e⟩ | ⟨hwi, _, _, e2, _⟩ |
      ⟨hwi, _, e⟩ | ⟨task, rest, hwi, _, e⟩
    · rw [e]; exact Or.inl h
    · rw [e]
      rcases mem_set_or_eq hwi .waiting h with h | h
      · exact Or.inl h
      · right
        injection h with h
        simp [invokedOf, h]
    · rw [e2]
      rcases mem_set_or_eq hwi .terminated h with h | h
      · exact Or.inl h
      · exact WorkerState.noConfusion h
    · rw [e]
      rcases mem_set_or_eq hwi .waiting h with h | h
      · exact Or.inl h
      · exact WorkerState.noConfusion h
    · rw [e]
      rcases mem_set_or_eq hwi (.running task) h with h | h
      · exact Or.inl h
      · exact WorkerState.noConfusion h
  | submit task =>
    rw [(clientStep_facts pool (.submit task) (fun i => Step.noConfusion)).1]
    exact Or.inl h
  | shutdown =>
    rw [(clientStep_facts pool (.shutdown) (fun i => Step.noConfusion)).1]
    exact Or.inl h
  | shutdownNow =>
    rw [(clientStep_facts pool (.shutdownNow) (fun i => Step.noConfusion)).1]
    exact Or.inl h

/-- A task that a step takes from the queue is held by a worker after the step. -/
theorem step_dequeued (pool : ThreadPool) (st : Step) (t : TaskId)
    (h : t ∈ dequeuedOf (pool.step st).1) :
    WorkerState.running t ∈ (pool.step st).2.workers_ := by
  cases st with
  | worker i =>
    have h : t ∈ dequeuedOf (pool.workerStep i).1 := h
    show WorkerState.running t ∈ (pool.workerStep i).2.workers_
    rcases pool.workerStep_cases i with ⟨e, _⟩ | ⟨task, hwi, e⟩ | ⟨_, _, e1, _, _⟩ | ⟨_, _, e⟩ |
      ⟨task, rest, hwi, _, e⟩
    · rw [e] at h; simp [dequeuedOf] at h
    · rw [e] at h; simp [dequeuedOf] at h
    · rw [e1] at h; simp [dequeuedOf] at h
    · rw [e] at h; simp [dequeuedOf] at h
    · rw [e] at h ⊢
      simp only [dequeuedOf, List.mem_singleton] at h
      rw [h]
      exact mem_set_self hwi (.running task)
  | submit task =>
    rw [(clientStep_facts pool (.submit task) (fun i => Step.noConfusion)).2.2.1] at h
    exact absurd h (List.not_mem_nil _)
  | shutdown =>
    rw [(clientStep_facts pool (.shutdown) (fun i => Step.noConfusion)).2.2.1] at h
    exact absurd h (List.not_mem_nil _)
  | shutdownNow =>
    rw [(clientStep_facts pool (.shutdownNow) (fun i => Step.noConfusion)).2.2.1] at h
    exact absurd h (List.not_mem_nil _)

/-- Over a run without `ShutdownNow` that starts with a live worker and ends with every
worker returned, every task queued at the start is taken from the queue. -/
theorem run_drained (steps : List Step) :
    ∀ (pool : ThreadPool), Step.shutdownNow ∉ steps → pool.HasLiveWorker →
      (pool.run steps).2.AllTerminated →
      ∀ t ∈ pool.task_queue_, t ∈ dequeuedOf (pool.run steps).1 := by
  induction steps with
  | nil =>
    intro pool _ hlive hall
    obtain ⟨w, hw, hne⟩ := hlive
    exact absurd (hall w hw) hne
  | cons st rest ih =>
    intro pool hno hlive hall t ht
    have hst : st ≠ .shutdownNow := fun e => hno (by rw [e]; exact List.mem_cons_self _ _)
    have hrest : Step.shutdownNow ∉ rest := fun h => hno (List.mem_cons_of_mem _ h)
    have hall : ((pool.step st).2.run rest).2.AllTerminated := hall
    show t ∈ dequeuedOf ((pool.step st).1 ++ ((pool.step st).2.run rest).1)
    rw [dequeuedOf_append, List.mem_append]
    by_cases hl : (pool.step st).2.HasLiveWorker
    · rcases step_queued_before pool hst t ht with h | h
      · exact Or.inr (ih _ hrest hl hall t h)
      · exact Or.inl h
    · have hall1 : (pool.step st).2.AllTerminated := by
        intro w hw
        by_contra hne
        exact hl ⟨w, hw, hne⟩
      rw [step_last_exit pool st hlive hall1] at ht
      exact absurd ht (List.not_mem_nil _)

/-- Over a run that ends with every worker returned, every task that a worker held at the
start or took during the run is called. -/
theorem run_invoked_all (steps : List Step) :
    ∀ (pool : ThreadPool), (pool.run steps).2.AllTerminated → ∀ t,
      (WorkerState.running t ∈ pool.workers_ ∨ t ∈ dequeuedOf (pool.run steps).1) →
      t ∈ invokedOf (pool.run steps).1 := by
  induction steps with
  | nil =>
    intro pool hall t h
    rcases h with h | h
    · exact WorkerState.noConfusion (hall _ h)
    · exact absurd h (List.not_mem_nil _)
  | cons st rest ih =>
    intro pool hall t h
    have hall : ((pool.step st).2.run rest).2.AllTerminated := hall
    have h : WorkerState.running t ∈ pool.workers_ ∨
        t ∈ dequeuedOf ((pool.step st).1 ++ ((pool.step st).2.run rest).1) := h
    show t ∈ invokedOf ((pool.step st).1 ++ ((pool.step st).2.run rest).1)
    rw [dequeuedOf_append, List.mem_append] at h
    rw [invokedOf_append, List.mem_append]
    rcases h with h | h | h
    · rcases step_held_before pool st t h with h | h
      · exact Or.inr (ih _ hall t (Or.inl h))
      · exact Or.inl h
    · exact Or.inr (ih _ hall t (Or.inl (step_dequeued pool st t h)))
    · exact Or.inr (ih _ hall t (Or.inr h))

theorem singleton_getElem? {w x : WorkerState} {i : Nat} (h : [w][i]? = some x) :
    i = 0 ∧ x = w := by
  cases i with
  | zero =>
    simp only [List.getElem?_cons_zero, Option.some.injEq] at h
    exact ⟨rfl, h.symm⟩
  | succ k => simp at h

/-- With a single worker thread, a step other than `ShutdownNow` keeps the balance of the
tasks: held, queued and submitted on one side, called, held and queued on the other. -/
theorem step_single_balance (pool : ThreadPool) {w : WorkerState} (hws : pool.workers_ = [w])
    {st : Step} (hst : st ≠ .shutdownNow) :
    ∃ w1, (pool.step st).2.workers_ = [w1] ∧
      heldOf [w] ++ pool.task_queue_ ++ submittedOf (pool.step st).1 =
        invokedOf (pool.step st).1 ++ heldOf [w1] ++ (pool.step st).2.task_queue_ := by
  cases st with
  | worker i =>
    show ∃ w1, (pool.workerStep i).2.workers_ = [w1] ∧
      heldOf [w] ++ pool.task_queue_ ++ submittedOf (pool.workerStep i).1 =
        invokedOf (pool.workerStep i).1 ++ heldOf [w1] ++ (pool.workerStep i).2.task_queue_
    rcases pool.workerStep_cases i with ⟨e, _⟩ | ⟨task, hwi, e⟩ | ⟨hwi, hq, e1, e2, e3⟩ |
      ⟨hwi, _, e⟩ | ⟨task, rest, hwi, hq, e⟩
    · rw [e]
      exact ⟨w, hws, by simp [submittedOf, invokedOf]⟩
    · rw [hws] at hwi
      obtain ⟨hi, hw⟩ := singleton_getElem? hwi
      subst hi
      rw [e, ← hw]
      exact ⟨.waiting, by simp [hws], by simp [submittedOf, invokedOf, heldOf]⟩
    · rw [hws] at hwi
      obtain ⟨hi, hw⟩ := singleton_getElem? hwi
      subst hi
      rw [e1, e2, e3, hq, ← hw]
      exact ⟨.terminated, by simp [hws], by simp [submittedOf, invokedOf, heldOf]⟩
    · rw [hws] at hwi
      obtain ⟨hi, hw⟩ := singleton_getElem? hwi
      subst hi
      rw [e, ← hw]
      exact ⟨.waiting, by simp [hws], by simp [submittedOf, invokedOf, heldOf]⟩
    · rw [hws] at hwi
      obtain ⟨hi, hw⟩ := singleton_getElem? hwi
      subst hi
      rw [e, hq, ← hw]
      exact ⟨.running task, by simp [hws], by simp [submittedOf, invokedOf, heldOf]⟩
  | submit task =>
    have hc := clientStep_facts pool (.submit task) (fun i => Step.noConfusion)
    have hb := step_queue_balance pool _ hst
    rw [hc.2.2.1, List.nil_append] at hb
    refine ⟨w, by rw [hc.1, hws], ?_⟩
    rw [hc.2.1, List.nil_append, List.append_assoc, hb]
  | shutdown =>
    have hc := clientStep_facts pool (.shutdown) (fun i => Step.noConfusion)
    have hb := step_queue_balance pool _ hst
    rw [hc.2.2.1, List.nil_append] at hb
    refine ⟨w, by rw [hc.1, hws], ?_⟩
    rw [hc.2.1, List.nil_append, List.append_assoc, hb]
  | shutdownNow => exact absurd rfl hst

/-- The balance of the tasks over a run without `ShutdownNow` of a pool with a single worker
thread. -/
theorem run_single_balance (steps : List Step) :
    ∀ (pool : ThreadPool) (w : WorkerState), pool.workers_ = [w] → Step.shutdownNow ∉ steps →
      ∃ w1, (pool.run steps).2.workers_ = [w1] ∧
        heldOf [w] ++ pool.task_queue_ ++ submittedOf (pool.run steps).1 =
          invokedOf (pool.run steps).1 ++ heldOf [w1] ++ (pool.run steps).2.task_queue_ := by
  induction steps with
  | nil =>
    intro pool w hws _
    exact ⟨w, hws, by simp [run, submittedOf, invokedOf]⟩
  | cons st rest ih =>
    intro pool w hws hno
    have hst : st ≠ .shutdownNow := fun e => hno (by rw [e]; exact List.mem_cons_self _ _)
    have hrest : Step.shutdownNow ∉ rest := fun h => hno (List.mem_cons_of_mem _ h)
    obtain ⟨w1, hw1, h1⟩ := step_single_balance pool hws hst
    obtain ⟨w2, hw2, h2⟩ := ih (pool.step st).2 w1 hw1 hrest
    refine ⟨w2, hw2, ?_⟩
    show heldOf [w] ++ pool.task_queue_ ++
        submittedOf ((pool.step st).1 ++ ((pool.step st).2.run rest).1) =
      invokedOf ((pool.step st).1 ++ ((pool.step st).2.run rest).1) ++ heldOf [w2] ++
        ((pool.step st).2.run rest).2.task_queue_
    rw [submittedOf_append, invokedOf_append, ← List.append_assoc, h1]
    simp only [List.append_assoc] at h2 ⊢
    rw [h2]

/-- What the loop of the constructor builds. -/
theorem constructLoop_spec (n : Nat) :
    ∀ (pool : ThreadPool),
      (constructLoop n pool).workers_ = pool.workers_ ++
        List.replicate (min n (pool.maxThreadCount_ - pool.activeThreadCount_)) .waiting ∧
      (constructLoop n pool).activeThreadCount_ =
        pool.activeThreadCount_ + min n (pool.maxThreadCount_ - pool.activeThreadCount_) ∧
      (constructLoop n pool).task_queue_ = pool.task_queue_ ∧
      (constructLoop n pool).stop_ = pool.stop_ ∧
      (constructLoop n pool).coreThreadCount_ = pool.coreThreadCount_ ∧
      (constructLoop n pool).maxThreadCount_ = pool.maxThreadCount_ ∧
      (constructLoop n pool).maxQueueSize_ = pool.maxQueueSize_ := by
  induction n with
  | zero => intro pool; simp [constructLoop]
  | succ n ih =>
    intro pool
    have hstep : constructLoop (n + 1) pool = constructLoop n pool.AddWorker.2 := rfl
    rw [hstep]
    by_cases hfull : pool.activeThreadCount_ ≥ pool.maxThreadCount_
    · have ha : pool.AddWorker.2 = pool := by
        unfold AddWorker
        rw [if_pos hfull]
      rw [ha]
      obtain ⟨h1, h2, h3, h4, h5, h6, h7⟩ := ih pool
      have e : pool.maxThreadCount_ - pool.activeThreadCount_ = 0 := by omega
      rw [e] at h1 h2
      rw [e]
      exact ⟨by simpa using h1, by simpa using h2, h3, h4, h5, h6, h7⟩
    · have ha : pool.AddWorker.2 =
          { pool with activeThreadCount_ := pool.activeThreadCount_ + 1,
                      workers_ := pool.workers_ ++ [.waiting] } := by
        unfold AddWorker
        rw [if_neg hfull]
      rw [ha]
      obtain ⟨h1, h2, h3, h4, h5, h6, h7⟩ := ih
        { pool with activeThreadCount_ := pool.activeThreadCount_ + 1,
                    workers_ := pool.workers_ ++ [.waiting] }
      dsimp only at h1 h2 h3 h4 h5 h6 h7
      have e1 : min (n + 1) (pool.maxThreadCount_ - pool.activeThreadCount_) =
          min n (pool.maxThreadCount_ - (pool.activeThreadCount_ + 1)) + 1 := by omega
      refine ⟨?_, ?_, h3, h4, h5, h6, h7⟩
      · rw [h1, e1, List.replicate_succ, List.append_assoc]
        rfl
      · rw [h2, e1]
        omega

/-- What the constructor builds: `min core_threads max_threads` waiting workers, an empty
queue, the stop flag clear. -/
theorem new_spec (core_threads max_threads queue_size idle_time : Nat) :
    ∃ pool, new core_threads max_threads queue_size idle_time = .ok pool ∧
      pool.workers_ = List.replicate (min core_threads max_threads) .waiting ∧
      pool.activeThreadCount_ = min core_threads max_threads ∧
      pool.task_queue_ = [] ∧ pool.stop_ = false ∧
      pool.coreThreadCount_ = core_threads ∧ pool.maxThreadCount_ = max_threads ∧
      pool.maxQueueSize_ = queue_size := by
  refine ⟨_, rfl, ?_⟩
  obtain ⟨h1, h2, h3, h4, h5, h6, h7⟩ := constructLoop_spec core_threads
    { coreThreadCount_ := core_threads, maxThreadCount_ := max_threads,
      maxQueueSize_ := queue_size, threadIdleTime_ := idle_time }
  exact ⟨by simpa using h1, by simpa using h2, h3, h4, h5, h6, h7⟩

end ThreadPool

/-! ## Properties of the worker pool: the claims -/

/-- C15. Submit is bounded and never drops: `Submit` throws the queue-full error exactly when
the number of queued tasks is at least `maxQueueSize_`; a call that throws leaves the pool as
it was; a call that returns normally appends the task at the tail of the queue and changes
nothing else of the pool. -/
theorem C15_submit_bounded (pool : ThreadPool) (task : TaskId) :
    ((pool.Submit task).1 = .error .queueFull ↔
      pool.task_queue_.length ≥ pool.maxQueueSize_) ∧
    ((pool.Submit task).1 = .ok () ↔ pool.task_queue_.length < pool.maxQueueSize_) ∧
    (pool.task_queue_.length ≥ pool.maxQueueSize_ → (pool.Submit task).2 = pool) ∧
    (pool.task_queue_.length < pool.maxQueueSize_ →
      (pool.Submit task).2 = { pool with task_queue_ := pool.task_queue_ ++ [task] }) := by
  unfold ThreadPool.Submit
  by_cases h : pool.task_queue_.length ≥ pool.maxQueueSize_
  · rw [if_pos h]
    refine ⟨⟨fun _ => h, fun _ => rfl⟩, ⟨fun e => Except.noConfusion e, fun hl => ?_⟩,
      fun _ => rfl, fun hl => ?_⟩ <;> omega
  · rw [if_neg h]
    refine ⟨⟨fun e => Except.noConfusion e, fun hl => absurd hl h⟩,
      ⟨fun _ => by omega, fun _ => rfl⟩, fun hl => absurd hl h, fun _ => rfl⟩

/-- C15 on a pool whose queue of size 1 is full. -/
theorem C15_submit_bounded_witness :
    ((ThreadPool.mk [.waiting] [7] false 1 1 1 1 0).Submit 8).2 =
      ThreadPool.mk [.waiting] [7] false 1 1 1 1 0 ∧
    ((ThreadPool.mk [.waiting] [] false 1 1 1 1 0).Submit 8).2 =
      ThreadPool.mk [.waiting] [8] false 1 1 1 1 0 :=
  ⟨(C15_submit_bounded (ThreadPool.mk [.waiting] [7] false 1 1 1 1 0) 8).2.2.1 (by decide),
   (C15_submit_bounded (ThreadPool.mk [.waiting] [] false 1 1 1 1 0) 8).2.2.2 (by decide)⟩

/-- C16. Pool FIFO: over every run of a constructed pool in which `ShutdownNow` is not
called, the tasks taken from the queue by workers, followed by the tasks still queued, are
the successfully submitted tasks in submission order; and when the pool has a single worker
thread, the tasks it has called, followed by the one it holds and the queued ones, are the
submitted tasks in submission order. -/
theorem C16_pool_fifo (core_threads max_threads queue_size idle_time : Nat)
    (pool : ThreadPool)
    (hnew : ThreadPool.new core_threads max_threads queue_size idle_time = .ok pool)
    (steps : List ThreadPool.Step) (hno : ThreadPool.Step.shutdownNow ∉ steps) :
    ThreadPool.submittedOf (pool.run steps).1 =
      ThreadPool.dequeuedOf (pool.run steps).1 ++ (pool.run steps).2.task_queue_ ∧
    (min core_threads max_threads = 1 →
      ThreadPool.submittedOf (pool.run steps).1 =
        ThreadPool.invokedOf (pool.run steps).1 ++
          ThreadPool.heldOf (pool.run steps).2.workers_ ++ (pool.run steps).2.task_queue_) := by
  obtain ⟨pool1, e, hws, _, hq, _⟩ :=
    ThreadPool.new_spec core_threads max_threads queue_size idle_time
  rw [hnew] at e
  injection e with e
  subst e
  constructor
  · have h := ThreadPool.run_queue_balance steps pool hno
    rw [hq, List.nil_append] at h
    exact h
  · intro hone
    rw [hone] at hws
    obtain ⟨w1, hw1, h⟩ := ThreadPool.run_single_balance steps pool .waiting hws hno
    rw [hw1]
    rw [hq] at h
    simpa [ThreadPool.heldOf] using h

/-- C16 on a pool with one worker: three tasks are submitted, the worker takes and calls the
first and takes the second. -/
theorem C16_pool_fifo_witness :
    ThreadPool.submittedOf ((ThreadPool.mk [.waiting] [] false 1 1 1 4 0).run
      [.submit 1, .submit 2, .worker 0, .worker 0, .submit 3, .worker 0]).1 =
    ThreadPool.dequeuedOf ((ThreadPool.mk [.waiting] [] false 1 1 1 4 0).run
      [.submit 1, .submit 2, .worker 0, .worker 0, .submit 3, .worker 0]).1 ++
    ((ThreadPool.mk [.waiting] [] false 1 1 1 4 0).run
      [.submit 1, .submit 2, .worker 0, .worker 0, .submit 3, .worker 0]).2.task_queue_ :=
  (C16_pool_fifo 1 1 4 0 (ThreadPool.mk [.waiting] [] false 1 1 1 4 0) rfl
    [.submit 1, .submit 2, .worker 0, .worker 0, .submit 3, .worker 0] (by decide)).1

/-- C17, as stated, fails: in a pool built with one core thread and a maximum of two, the
worker holds a task (no worker is idle) and `activeThreadCount_` is 1; `Submit` returns
normally and the pool still has one worker thread and `activeThreadCount_` 1. -/
theorem C17_spawn_on_demand_counterexample :
    ThreadPool.new 1 2 4 0 = .ok (ThreadPool.mk [.waiting] [] false 1 1 2 4 0) ∧
    ((ThreadPool.mk [.waiting] [] false 1 1 2 4 0).run [.submit 10, .worker 0]).2 =
      ThreadPool.mk [.running 10] [] false 1 1 2 4 0 ∧
    (ThreadPool.mk [.running 10] [] false 1 1 2 4 0).NoIdleWorker ∧
    (ThreadPool.mk [.running 10] [] false 1 1 2 4 0).activeThreadCount_ <
      (ThreadPool.mk [.running 10] [] false 1 1 2 4 0).maxThreadCount_ ∧
    (ThreadPool.mk [.running 10] [] false 1 1 2 4 0).Submit 11 =
      (.ok (), ThreadPool.mk [.running 10] [11] false 1 1 2 4 0) := by
  refine ⟨rfl, rfl, ?_, by decide, rfl⟩
  intro h
  simp at h

/-- C17, amended. `Submit` creates no worker: whether it throws or returns normally, whether
or not a worker is idle and whatever `activeThreadCount_` is, the worker threads and
`activeThreadCount_` are after the call what they were before it. -/
theorem C17_submit_spawns_nothing (pool : ThreadPool) (task : TaskId) :
    (pool.Submit task).2.workers_ = pool.workers_ ∧
    (pool.Submit task).2.activeThreadCount_ = pool.activeThreadCount_ := by
  unfold ThreadPool.Submit
  split_ifs <;> exact ⟨rfl, rfl⟩

/-- C18. Graceful shutdown drains the queue: a worker returns from `Worker()` only in a step
that finds the queue empty; so when `Shutdown` has set the stop flag while some worker had
not returned, and then all workers have returned without `ShutdownNow` being called, every
task that was queued has been taken from the queue and called. -/
theorem C18_graceful_shutdown_drains (pool : ThreadPool) (hlive : pool.HasLiveWorker)
    (steps : List ThreadPool.Step) (hno : ThreadPool.Step.shutdownNow ∉ steps)
    (hall : (pool.Shutdown.run steps).2.AllTerminated) :
    pool.Shutdown.stop_ = true ∧
    (∀ (p : ThreadPool) (st : ThreadPool.Step) (i : Nat),
      ThreadPool.Event.exited i ∈ (p.step st).1 → p.task_queue_ = []) ∧
    (∀ t ∈ pool.task_queue_,
      t ∈ ThreadPool.dequeuedOf (pool.Shutdown.run steps).1 ∧
      t ∈ ThreadPool.invokedOf (pool.Shutdown.run steps).1) := by
  refine ⟨rfl, fun p st i h => ThreadPool.step_exited p st i h, fun t ht => ?_⟩
  have hd := ThreadPool.run_drained steps pool.Shutdown hno hlive hall t ht
  exact ⟨hd, ThreadPool.run_invoked_all steps pool.Shutdown hall t (Or.inr hd)⟩

/-- C18 on a pool with one waiting worker and the queued tasks 7, 8: after `Shutdown` the
worker takes and calls both and returns. -/
theorem C18_graceful_shutdown_drains_witness :
    8 ∈ ThreadPool.dequeuedOf ((ThreadPool.mk [.waiting] [7, 8] false 1 1 1 4 0).Shutdown.run
      [.worker 0, .worker 0, .worker 0, .worker 0, .worker 0]).1 ∧
    8 ∈ ThreadPool.invokedOf ((ThreadPool.mk [.waiting] [7, 8] false 1 1 1 4 0).Shutdown.run
      [.worker 0, .worker 0, .worker 0, .worker 0, .worker 0]).1 :=
  (C18_graceful_shutdown_drains (ThreadPool.mk [.waiting] [7, 8] false 1 1 1 4 0)
    ⟨.waiting, List.mem_singleton.2 rfl, fun h => WorkerState.noConfusion h⟩
    [.worker 0, .worker 0, .worker 0, .worker 0, .worker 0] (by decide)
    (fun w hw => List.mem_singleton.1 hw)).2.2 8 (by decide)

/-- C19. Abrupt shutdown discards pending work: after the critical section of `ShutdownNow`
the stop flag is set and the queue is empty, and whatever a worker calls afterwards is a task
that a worker already held at that moment or that was submitted afterwards; so a task that
was in the queue, was not also held by a worker and is not submitted again, is never
called. -/
theorem C19_shutdown_now_discards (pool : ThreadPool) (steps : List ThreadPool.Step) :
    pool.ShutdownNow.stop_ = true ∧ pool.ShutdownNow.task_queue_ = [] ∧
    (∀ t, t ∈ ThreadPool.invokedOf (pool.ShutdownNow.run steps).1 →
      WorkerState.running t ∈ pool.workers_ ∨
        t ∈ ThreadPool.submittedOf (pool.ShutdownNow.run steps).1) ∧
    (∀ t ∈ pool.task_queue_, WorkerState.running t ∉ pool.workers_ →
      t ∉ ThreadPool.submittedOf (pool.ShutdownNow.run steps).1 →
      t ∉ ThreadPool.invokedOf (pool.ShutdownNow.run steps).1) := by
  have hq : pool.ShutdownNow.task_queue_ = [] := ThreadPool.popAll_eq_nil _
  have key : ∀ t, t ∈ ThreadPool.invokedOf (pool.ShutdownNow.run steps).1 →
      WorkerState.running t ∈ pool.workers_ ∨
        t ∈ ThreadPool.submittedOf (pool.ShutdownNow.run steps).1 := by
    intro t ht
    rcases ThreadPool.run_invoked_origin steps pool.ShutdownNow t ht with h | h | h
    · exact Or.inl h
    · rw [hq] at h
      exact absurd h (List.not_mem_nil _)
    · exact Or.inr h
  refine ⟨rfl, hq, key, fun t _ h1 h2 h3 => ?_⟩
  rcases key t h3 with h | h
  · exact h1 h
  · exact h2 h

/-- C19 on a pool whose worker holds the task 5 while 7 and 8 are queued: after
`ShutdownNow` the worker calls 5, the task 9 is submitted and called, and the worker returns;
7 is not called. -/
theorem C19_shutdown_now_discards_witness :
    ThreadPool.invokedOf ((ThreadPool.mk [.running 5] [7, 8] false 1 1 1 4 0).ShutdownNow.run
      [.worker 0, .submit 9, .worker 0, .worker 0, .worker 0]).1 = [5, 9] ∧
    7 ∉ ThreadPool.invokedOf
      ((ThreadPool.mk [.running 5] [7, 8] false 1 1 1 4 0).ShutdownNow.run
        [.worker 0, .submit 9, .worker 0, .worker 0, .worker 0]).1 :=
  ⟨rfl, (C19_shutdown_now_discards (ThreadPool.mk [.running 5] [7, 8] false 1 1 1 4 0)
    [.worker 0, .submit 9, .worker 0, .worker 0, .worker 0]).2.2.2 7 (by decide) (by decide)
      (by decide)⟩

/-- C20, as stated, fails: the constructor returns a pool for `core_threads = 3 >
max_threads = 1` (with one worker thread) and for `queue_size = 0`. -/
theorem C20_invalid_configuration_counterexample :
    ThreadPool.new 3 1 4 0 = .ok (ThreadPool.mk [.waiting] [] false 3 1 1 4 0) ∧
    ThreadPool.new 1 2 0 0 = .ok (ThreadPool.mk [.waiting] [] false 1 1 2 0 0) := by
  refine ⟨rfl, rfl⟩

/-- C20, amended. The constructor tests nothing: for all arguments it returns a pool, with
`min core_threads max_threads` worker threads (`AddWorker` refuses to go beyond
`max_threads`) and `activeThreadCount_` equal to that number; on a pool built with
`queue_size = 0` every `Submit` throws the queue-full error. -/
theorem C20_constructor_accepts_all (core_threads max_threads queue_size idle_time : Nat) :
    (∃ pool, ThreadPool.new core_threads max_threads queue_size idle_time = .ok pool ∧
      pool.workers_.length = min core_threads max_threads ∧
      pool.activeThreadCount_ = min core_threads max_threads ∧
      pool.maxQueueSize_ = queue_size) ∧
    (∃ pool, ThreadPool.new core_threads max_threads 0 idle_time = .ok pool ∧
      ∀ task, pool.Submit task = (.error .queueFull, pool)) := by
  constructor
  · obtain ⟨pool, e, hws, ha, _, _, _, _, hq⟩ :=
      ThreadPool.new_spec core_threads max_threads queue_size idle_time
    exact ⟨pool, e, by rw [hws, List.length_replicate], ha, hq⟩
  · obtain ⟨pool, e, _, _, _, _, _, _, hq⟩ :=
      ThreadPool.new_spec core_threads max_threads 0 idle_time
    refine ⟨pool, e, fun task => ?_⟩
    unfold ThreadPool.Submit
    rw [if_pos (by rw [hq]; exact Nat.zero_le _)]

/-! ## Properties of the worker pool: worker exits and the thread count -/

namespace ThreadPool

/-- No step changes the configured counts or the number of threads; `activeThreadCount_`
never rises, and stays as it is unless it exceeds `coreThreadCount_`. -/
theorem step_counts (pool : ThreadPool) (st : Step) :
    (pool.step st).2.coreThreadCount_ = pool.coreThreadCount_ ∧
    (pool.step st).2.maxThreadCount_ = pool.maxThreadCount_ ∧
    (pool.step st).2.workers_.length = pool.workers_.length ∧
    (pool.step st).2.activeThreadCount_ ≤ pool.activeThreadCount_ ∧
    (pool.activeThreadCount_ ≤ pool.coreThreadCount_ →
      (pool.step st).2.activeThreadCount_ = pool.activeThreadCount_) := by
  cases st with
  | submit task =>
    show (pool.Submit task).2.coreThreadCount_ = _ ∧ (pool.Submit task).2.maxThreadCount_ = _ ∧
      (pool.Submit task).2.workers_.length = _ ∧ (pool.Submit task).2.activeThreadCount_ ≤ _ ∧
      (_ → (pool.Submit task).2.activeThreadCount_ = _)
    unfold Submit
    split_ifs <;> simp
  | shutdown => simp [step, Shutdown]
  | shutdownNow => simp [step, ShutdownNow]
  | worker i =>
    show (pool.workerStep i).2.coreThreadCount_ = _ ∧ (pool.workerStep i).2.maxThreadCount_ = _ ∧
      (pool.workerStep i).2.workers_.length = _ ∧ (pool.workerStep i).2.activeThreadCount_ ≤ _ ∧
      (_ → (pool.workerStep i).2.activeThreadCount_ = _)
    unfold workerStep
    cases hw : pool.workers_[i]? with
    | none => simp
    | some w =>
      cases w with
      | terminated => simp
      | running task => simp
      | waiting =>
        rcases pool.Worker_cases with ⟨_, _, e⟩ | ⟨_, _, ha, e⟩ | ⟨_, _, _, e⟩ |
          ⟨task, rest, _, e⟩
        · rw [e]; simp
        · rw [e]
          simp
          omega
        · rw [e]; simp
        · rw [e]; simp

theorem run_counts (steps : List Step) :
    ∀ (pool : ThreadPool), pool.activeThreadCount_ ≤ pool.coreThreadCount_ →
      (pool.run steps).2.coreThreadCount_ = pool.coreThreadCount_ ∧
      (pool.run steps).2.maxThreadCount_ = pool.maxThreadCount_ ∧
      (pool.run steps).2.workers_.length = pool.workers_.length ∧
      (pool.run steps).2.activeThreadCount_ = pool.activeThreadCount_ := by
  induction steps with
  | nil => intro pool _; exact ⟨rfl, rfl, rfl, rfl⟩
  | cons st rest ih =>
    intro pool h
    obtain ⟨s1, s2, s3, _, s5⟩ := pool.step_counts st
    obtain ⟨r1, r2, r3, r4⟩ := ih (pool.step st).2 (by rw [s5 h, s1]; exact h)
    show ((pool.step st).2.run rest).2.coreThreadCount_ = _ ∧
      ((pool.step st).2.run rest).2.maxThreadCount_ = _ ∧
      ((pool.step st).2.run rest).2.workers_.length = _ ∧
      ((pool.step st).2.run rest).2.activeThreadCount_ = _
    exact ⟨r1.trans s1, r2.trans s2, r3.trans s3, r4.trans (s5 h)⟩

/-- The events of the worker exits. -/
theorem exited_of_step (pool : ThreadPool) (st : Step) (j : Nat)
    (h : Event.exited j ∈ (pool.step st).1) :
    pool.task_queue_ = [] ∧
      (pool.stop_ = true ∨ pool.activeThreadCount_ > pool.coreThreadCount_) := by
  cases st with
  | submit task =>
    have h : Event.exited j ∈ (match (pool.Submit task).1 with
        | .ok _ => [Event.submitted task]
        | .error _ => [Event.rejected task]) := h
    split at h <;> simp at h
  | shutdown => exact absurd h (List.not_mem_nil _)
  | shutdownNow => exact absurd h (List.not_mem_nil _)
  | worker i =>
    have h : Event.exited j ∈ (pool.workerStep i).1 := h
    unfold workerStep at h
    cases hw : pool.workers_[i]? with
    | none => rw [hw] at h; exact absurd h (List.not_mem_nil _)
    | some w =>
      rw [hw] at h
      cases w with
      | terminated => exact absurd h (List.not_mem_nil _)
      | running task => simp at h
      | waiting =>
        rcases pool.Worker_cases with ⟨hq, hs, _⟩ | ⟨hq, _, ha, _⟩ | ⟨_, _, _, e⟩ |
          ⟨task, rest, _, e⟩
        · exact ⟨hq, Or.inl hs⟩
        · exact ⟨hq, Or.inr ha⟩
        · rw [e] at h; simp at h
        · rw [e] at h; simp at h

/-- While the stop flag is clear and `activeThreadCount_` does not exceed
`coreThreadCount_`, no worker returns from `Worker()`. -/
theorem run_no_exit (steps : List Step) :
    ∀ (pool : ThreadPool), pool.stop_ = false →
      pool.activeThreadCount_ ≤ pool.coreThreadCount_ →
      (∀ st ∈ steps, st ≠ Step.shutdown ∧ st ≠ Step.shutdownNow) →
      ∀ j, Event.exited j ∉ (pool.run steps).1 := by
  induction steps with
  | nil => intro pool _ _ _ j h; exact absurd h (List.not_mem_nil _)
  | cons st rest ih =>
    intro pool hs ha hsteps j h
    have h : Event.exited j ∈ (pool.step st).1 ++ ((pool.step st).2.run rest).1 := h
    obtain ⟨s1, _, _, _, s5⟩ := pool.step_counts st
    have hstop : (pool.step st).2.stop_ = false := by
      obtain ⟨n1, n2⟩ := hsteps st (List.mem_cons_self _ _)
      cases st with
      | submit task =>
        show (pool.Submit task).2.stop_ = false
        unfold Submit
        split_ifs <;> simpa using hs
      | shutdown => exact absurd rfl n1
      | shutdownNow => exact absurd rfl n2
      | worker i =>
        show (pool.workerStep i).2.stop_ = false
        unfold workerStep
        cases hw : pool.workers_[i]? with
        | none => simpa using hs
        | some w =>
          cases w with
          | terminated => simpa using hs
          | running task => simpa using hs
          | waiting =>
            rcases pool.Worker_cases with ⟨_, _, e⟩ | ⟨_, _, _, e⟩ | ⟨_, _, _, e⟩ |
              ⟨task, rest, _, e⟩ <;> rw [e] <;> simpa using hs
    rcases List.mem_append.1 h with h1 | h1
    · obtain ⟨_, h2⟩ := pool.exited_of_step st j h1
      rcases h2 with h2 | h2
      · rw [hs] at h2; exact Bool.noConfusion h2
      · omega
    · exact ih (pool.step st).2 hstop (by rw [s5 ha, s1]; exact ha)
        (fun x hx => hsteps x (List.mem_cons_of_mem _ hx)) j h1

/-- Once every thread of `workers_` has returned, no step takes a task from the queue or
calls one, and the threads stay returned. -/
theorem step_all_terminated (pool : ThreadPool) (st : Step) (h : pool.AllTerminated) :
    (pool.step st).2.AllTerminated ∧ dequeuedOf (pool.step st).1 = [] ∧
    invokedOf (pool.step st).1 = [] ∧ (pool.step st).2.workers_ = pool.workers_ := by
  by_cases hst : ∀ i, st ≠ .worker i
  · obtain ⟨c1, c2, c3, _⟩ := pool.clientStep_facts st hst
    refine ⟨?_, c3, c2, c1⟩
    unfold AllTerminated
    rw [c1]
    exact h
  · have hex : ∃ i, st = .worker i := by
      by_contra hn
      exact hst (fun i hi => hn ⟨i, hi⟩)
    obtain ⟨i, rfl⟩ := hex
    have hno : ∀ w, pool.workers_[i]? = some w → w = .terminated :=
      fun w hw => h w (List.getElem?_mem hw)
    have e : pool.step (.worker i) = ([], pool) := by
      show pool.workerStep i = ([], pool)
      rcases pool.workerStep_cases i with ⟨e, _⟩ | ⟨task, hw, _⟩ | ⟨hw, _⟩ | ⟨hw, _⟩ |
        ⟨task, rest, hw, _⟩
      · exact e
      · exact WorkerState.noConfusion (hno _ hw)
      · exact WorkerState.noConfusion (hno _ hw)
      · exact WorkerState.noConfusion (hno _ hw)
      · exact WorkerState.noConfusion (hno _ hw)
    rw [e]
    exact ⟨h, rfl, rfl, rfl⟩

theorem run_all_terminated (steps : List Step) :
    ∀ (pool : ThreadPool), pool.AllTerminated →
      (pool.run steps).2.AllTerminated ∧ dequeuedOf (pool.run steps).1 = [] ∧
      invokedOf (pool.run steps).1 = [] := by
  induction steps with
  | nil => intro pool h; exact ⟨h, rfl, rfl⟩
  | cons st rest ih =>
    intro pool h
    obtain ⟨s1, s2, s3, _⟩ := pool.step_all_terminated st h
    obtain ⟨r1, r2, r3⟩ := ih (pool.step st).2 s1
    show ((pool.step st).2.run rest).2.AllTerminated ∧
      dequeuedOf ((pool.step st).1 ++ ((pool.step st).2.run rest).1) = [] ∧
      invokedOf ((pool.step st).1 ++ ((pool.step st).2.run rest).1) = []
    rw [dequeuedOf_append, invokedOf_append, s2, s3, r2, r3]
    exact ⟨r1, rfl, rfl⟩

end ThreadPool

/-- C33. The shrink-back step.  For a worker thread at the head of its loop with the stop
flag clear: when the task queue is empty and `activeThreadCount_ > coreThreadCount_`, the
critical section of `Worker()` ends that worker and lowers `activeThreadCount_` by exactly
one; when `activeThreadCount_ <= coreThreadCount_`, the worker does not end in this
iteration, `activeThreadCount_` stays, and no worker ends in any sequence of steps without
`Shutdown` and `ShutdownNow`. -/
theorem C33_shrink_back_step (pool : ThreadPool) (i : Nat)
    (hw : pool.workers_[i]? = some .waiting) (hstop : pool.stop_ = false) :
    (pool.task_queue_ = [] → pool.activeThreadCount_ > pool.coreThreadCount_ →
      pool.Worker =
        (.terminated, { pool with activeThreadCount_ := pool.activeThreadCount_ - 1 }) ∧
      (pool.workerStep i).1 = [.exited i] ∧
      (pool.workerStep i).2.workers_ = pool.workers_.set i .terminated ∧
      (pool.workerStep i).2.activeThreadCount_ + 1 = pool.activeThreadCount_) ∧
    (pool.activeThreadCount_ ≤ pool.coreThreadCount_ →
      pool.Worker.1 ≠ .terminated ∧
      (pool.workerStep i).2.workers_[i]? ≠ some .terminated ∧
      (pool.workerStep i).2.activeThreadCount_ = pool.activeThreadCount_ ∧
      ∀ steps : List ThreadPool.Step,
        (∀ st ∈ steps, st ≠ ThreadPool.Step.shutdown ∧ st ≠ ThreadPool.Step.shutdownNow) →
        ∀ j, ThreadPool.Event.exited j ∉ (pool.run steps).1) := by
  have hstep : pool.workerStep i =
      (match pool.Worker.1 with
        | .waiting => []
        | .running task => [.dequeued i task]
        | .terminated => [.exited i],
       { pool.Worker.2 with workers_ := pool.Worker.2.workers_.set i pool.Worker.1 }) := by
    unfold ThreadPool.workerStep
    rw [hw]
  constructor
  · intro hq ha
    rcases pool.Worker_cases with ⟨_, hs, _⟩ | ⟨_, _, _, e⟩ | ⟨_, _, hle, _⟩ | ⟨task, rest, hq2, _⟩
    · rw [hstop] at hs; exact Bool.noConfusion hs
    · refine ⟨e, ?_⟩
      rw [hstep, e]
      refine ⟨rfl, rfl, ?_⟩
      show pool.activeThreadCount_ - 1 + 1 = pool.activeThreadCount_
      omega
    · omega
    · rw [hq] at hq2; exact List.noConfusion hq2
  · intro hle
    have hlt : i < pool.workers_.length := by
      by_contra hn
      rw [List.getElem?_eq_none (by omega)] at hw
      exact Option.noConfusion hw
    refine ⟨?_, ?_, ?_, fun steps hsteps => ThreadPool.run_no_exit steps pool hstop hle hsteps⟩
    · rcases pool.Worker_cases with ⟨_, hs, _⟩ | ⟨_, _, ha, _⟩ | ⟨_, _, _, e⟩ | ⟨task, rest, _, e⟩
      · rw [hstop] at hs; exact Bool.noConfusion hs
      · omega
      · rw [e]; exact fun h => WorkerState.noConfusion h
      · rw [e]; exact fun h => WorkerState.noConfusion h
    · rw [hstep]
      rcases pool.Worker_cases with ⟨_, hs, _⟩ | ⟨_, _, ha, _⟩ | ⟨_, _, _, e⟩ | ⟨task, rest, _, e⟩
      · rw [hstop] at hs; exact Bool.noConfusion hs
      · omega
      · rw [e]
        show (pool.workers_.set i .waiting)[i]? ≠ _
        rw [List.getElem?_set, if_pos rfl, if_pos hlt]
        exact fun h => WorkerState.noConfusion (Option.some.inj h)
      · rw [e]
        show (pool.workers_.set i (.running task))[i]? ≠ _
        rw [List.getElem?_set, if_pos rfl, if_pos hlt]
        exact fun h => WorkerState.noConfusion (Option.some.inj h)
    · exact (pool.step_counts (.worker i)).2.2.2.2 hle

/-- C33 on a pool with two waiting workers, `coreThreadCount_ = 1` and
`activeThreadCount_ = 2`. -/
theorem C33_shrink_back_step_witness :
    ((ThreadPool.mk [.waiting, .waiting] [] false 1 2 4 8 50).workerStep 0).1 = [.exited 0] ∧
    ((ThreadPool.mk [.waiting, .waiting] [] false 1 2 4 8 50).workerStep 0).2.workers_ =
      [.terminated, .waiting] ∧
    ((ThreadPool.mk [.waiting, .waiting] [] false 1 2 4 8 50).workerStep 0).2.activeThreadCount_
      + 1 = 2 :=
  ((C33_shrink_back_step (ThreadPool.mk [.waiting, .waiting] [] false 1 2 4 8 50) 0 rfl rfl).1
    rfl (by decide)).2

/-- C37. `Submit` ignores the stop flag.  In a pool whose stop flag is set and whose worker
threads have all returned (`Shutdown` or `ShutdownNow` has completed), `Submit` with fewer
than `maxQueueSize_` queued tasks returns normally and appends the task to the queue, leaving
the stop flag and the workers as they were; in every sequence of steps after it no task is
taken from the queue and none is called, all workers staying returned. -/
theorem C37_submit_after_shutdown (pool : ThreadPool) (hstop : pool.stop_ = true)
    (hdone : pool.AllTerminated) (task : TaskId)
    (hroom : pool.task_queue_.length < pool.maxQueueSize_) (steps : List ThreadPool.Step) :
    (pool.Submit task).1 = .ok () ∧
    (pool.Submit task).2.task_queue_ = pool.task_queue_ ++ [task] ∧
    (pool.Submit task).2.stop_ = true ∧
    (pool.Submit task).2.workers_ = pool.workers_ ∧
    ThreadPool.dequeuedOf ((pool.Submit task).2.run steps).1 = [] ∧
    ThreadPool.invokedOf ((pool.Submit task).2.run steps).1 = [] ∧
    ((pool.Submit task).2.run steps).2.AllTerminated := by
  have e : pool.Submit task = (.ok (), { pool with task_queue_ := pool.task_queue_ ++ [task] }) := by
    unfold ThreadPool.Submit
    rw [if_neg (by omega)]
  have h1 : (pool.Submit task).2.AllTerminated := by
    rw [e]
    exact hdone
  obtain ⟨r1, r2, r3⟩ := ThreadPool.run_all_terminated steps _ h1
  refine ⟨by rw [e], by rw [e], by rw [e]; exact hstop, by rw [e], r2, r3, r1⟩

/-- C37 on a pool of one returned worker with the stop flag set and room for two tasks. -/
theorem C37_submit_after_shutdown_witness :
    ((ThreadPool.mk [.terminated] [] true 1 1 1 2 50).Submit 9).1 = .ok () ∧
    ((ThreadPool.mk [.terminated] [] true 1 1 1 2 50).Submit 9).2.task_queue_ = [] ++ [9] ∧
    ThreadPool.dequeuedOf ((((ThreadPool.mk [.terminated] [] true 1 1 1 2 50).Submit 9).2.run
      [.worker 0, .submit 10, .worker 0, .shutdown, .worker 0]).1) = [] :=
  have h := C37_submit_after_shutdown (ThreadPool.mk [.terminated] [] true 1 1 1 2 50) rfl
    (by intro w hw; rcases List.mem_cons.1 hw with h | h
        · exact h
        · exact absurd h (List.not_mem_nil _))
    9 (by decide) [.worker 0, .submit 10, .worker 0, .shutdown, .worker 0]
  ⟨h.1, h.2.1, h.2.2.2.2.1⟩

/-- C38. The pool never grows.  In every state reached from the constructor by steps of
clients and workers, `coreThreadCount_` and `maxThreadCount_` are the constructor arguments,
`activeThreadCount_` is at most (in fact equal to) their minimum, and `workers_` holds that
many threads; so `activeThreadCount_ > coreThreadCount_` never holds and a worker that finds
the queue empty with the stop flag clear goes on waiting: the shrink-back branch is not
taken. -/
theorem C38_pool_never_grows (core_threads max_threads queue_size idle_time : Nat)
    (pool : ThreadPool)
    (hnew : ThreadPool.new core_threads max_threads queue_size idle_time = .ok pool)
    (steps : List ThreadPool.Step) :
    (pool.run steps).2.coreThreadCount_ = core_threads ∧
    (pool.run steps).2.maxThreadCount_ = max_threads ∧
    (pool.run steps).2.activeThreadCount_ ≤
      min (pool.run steps).2.coreThreadCount_ (pool.run steps).2.maxThreadCount_ ∧
    (pool.run steps).2.activeThreadCount_ = min core_threads max_threads ∧
    (pool.run steps).2.workers_.length = min core_threads max_threads ∧
    ¬ (pool.run steps).2.activeThreadCount_ > (pool.run steps).2.coreThreadCount_ ∧
    ((pool.run steps).2.task_queue_ = [] → (pool.run steps).2.stop_ = false →
      (pool.run steps).2.Worker = (.waiting, (pool.run steps).2)) := by
  obtain ⟨p, e, n1, n2, _, _, n5, n6, _⟩ :=
    ThreadPool.new_spec core_threads max_threads queue_size idle_time
  rw [hnew] at e
  injection e with e
  subst e
  obtain ⟨r1, r2, r3, r4⟩ := ThreadPool.run_counts steps pool (by rw [n2, n5]; omega)
  have hlen : pool.workers_.length = min core_threads max_threads := by
    rw [n1, List.length_replicate]
  have hact : (pool.run steps).2.activeThreadCount_ = min core_threads max_threads := by
    rw [r4, n2]
  refine ⟨by rw [r1, n5], by rw [r2, n6], by rw [r1, r2, n5, n6, hact], hact,
    by rw [r3, hlen], by rw [hact, r1, n5]; omega, fun hq hs => ?_⟩
  rcases (pool.run steps).2.Worker_cases with ⟨_, hs2, _⟩ | ⟨_, _, ha, _⟩ | ⟨_, _, _, e⟩ |
    ⟨task, rest, hq2, _⟩
  · rw [hs] at hs2; exact Bool.noConfusion hs2
  · rw [hact, r1, n5] at ha; omega
  · exact e
  · rw [hq] at hq2; exact List.noConfusion hq2

/-- C38 on the pool built by `ThreadPool(2, 3, 8, 50ms)`, after a task was submitted and run. -/
theorem C38_pool_never_grows_witness :
    (((ThreadPool.mk [.waiting, .waiting] [] false 2 2 3 8 50).run
      [.submit 1, .worker 0, .worker 1, .worker 0]).2).activeThreadCount_ = min 2 3 ∧
    (((ThreadPool.mk [.waiting, .waiting] [] false 2 2 3 8 50).run
      [.submit 1, .worker 0, .worker 1, .worker 0]).2).workers_.length = min 2 3 :=
  have h := C38_pool_never_grows 2 3 8 50 (ThreadPool.mk [.waiting, .waiting] [] false 2 2 3 8 50)
    rfl [.submit 1, .worker 0, .worker 1, .worker 0]
  ⟨h.2.2.2.1, h.2.2.2.2.1⟩

end common.thread

/-! # Properties of `Integer` -/

namespace common.entity.base_type

theorem wrapInt_of_range {n : Int} (h1 : -2 ^ 31 ≤ n) (h2 : n < 2 ^ 31) : wrapInt n = n := by
  unfold wrapInt
  omega

/-- When the difference of the two values is an `int`, `compareTo` has the sign of the
order. -/
theorem compareTo_sign_of_no_overflow (a b : Integer)
    (h1 : -2 ^ 31 ≤ a.value_ - b.value_) (h2 : a.value_ - b.value_ < 2 ^ 31) :
    (a.compareTo b < 0 ↔ a.value_ < b.value_) ∧ (a.compareTo b = 0 ↔ a.value_ = b.value_) ∧
    (a.compareTo b > 0 ↔ a.value_ > b.value_) := by
  unfold Integer.compareTo
  rw [wrapInt_of_range h1 h2]
  omega

/-- C32 at a failing input: `Integer(2147483647).compareTo(Integer(-1))` is the difference
`2 ^ 31` reduced modulo `2 ^ 32`, that is `-2147483648`, a negative number, although
`2147483647 > -1`; and `Integer(-2147483648).compareTo(Integer(1))` is `2147483647`, a positive
number, although `-2147483648 < 1`. -/
theorem C32_compareTo_overflow :
    (Integer.new 2147483647).compareTo (Integer.new (-1)) = -2147483648 ∧
    (Integer.new 2147483647).compareTo (Integer.new (-1)) < 0 ∧
    (Integer.new 2147483647).value_ > (Integer.new (-1)).value_ ∧
    (Integer.new (-2147483648)).compareTo (Integer.new 1) = 2147483647 ∧
    (Integer.new (-2147483648)).compareTo (Integer.new 1) > 0 ∧
    (Integer.new (-2147483648)).value_ < (Integer.new 1).value_ := by
  refine ⟨by decide, by decide, by decide, by decide, by decide, by decide⟩

end common.entity.base_type

/-! # Properties of `UuidGenerator` -/

namespace common.entity.util

theorem hexDigit_facts : ∀ d, d < 16 →
    hexDigit d ≠ 45 ∧ UuidGenerator.hexValue (hexDigit d) = d ∧ IsLowerHex (hexDigit d) := by
  intro d hd
  interval_cases d <;> refine ⟨by decide, by decide, ?_⟩ <;> unfold IsLowerHex <;> decide

theorem fixedHex_zero (w : Nat) : fixedHex w 0 = List.replicate w 48 := by
  induction w with
  | zero => rfl
  | succ w ih =>
    show fixedHex w (0 / 16) ++ [hexDigit (0 % 16)] = _
    rw [Nat.zero_div, ih, List.replicate_succ']
    rfl

theorem fixedHex_length (w v : Nat) : (fixedHex w v).length = w := by
  induction w generalizing v with
  | zero => rfl
  | succ w ih =>
    show (fixedHex w (v / 16) ++ [hexDigit (v % 16)]).length = w + 1
    rw [List.length_append, ih]
    rfl

theorem fixedHex_lower (w : Nat) : ∀ v, ∀ c ∈ fixedHex w v, IsLowerHex c := by
  induction w with
  | zero => intro v c hc; exact absurd hc (List.not_mem_nil _)
  | succ w ih =>
    intro v c hc
    have hc : c ∈ fixedHex w (v / 16) ++ [hexDigit (v % 16)] := hc
    rcases List.mem_append.1 hc with h | h
    · exact ih _ c h
    · rw [List.mem_singleton.1 h]
      exact (hexDigit_facts _ (Nat.mod_lt _ (by decide))).2.2

/-- The digits that `std::hex` prints, padded to `k` places, are the `k` lowest digits. -/
theorem hexDigitsAux_spec (fuel : Nat) :
    ∀ (k v : Nat) (acc : List common.io.CChar), 1 ≤ k → k ≤ fuel → v < 16 ^ k →
      (hexDigitsAux fuel v acc).length ≤ k + acc.length ∧
      List.replicate (k + acc.length - (hexDigitsAux fuel v acc).length) 48 ++
        hexDigitsAux fuel v acc = fixedHex k v ++ acc := by
  induction fuel with
  | zero => intro k v acc h1 h2 _; omega
  | succ fuel ih =>
    intro k v acc h1 h2 hv
    obtain ⟨k1, rfl⟩ : ∃ k1, k = k1 + 1 := ⟨k - 1, by omega⟩
    by_cases hsmall : v < 16
    · have e : hexDigitsAux (fuel + 1) v acc = hexDigit v :: acc := by
        rw [hexDigitsAux, if_pos hsmall]
      have ef : fixedHex (k1 + 1) v = List.replicate k1 48 ++ [hexDigit v] := by
        show fixedHex k1 (v / 16) ++ [hexDigit (v % 16)] = _
        rw [Nat.div_eq_of_lt hsmall, Nat.mod_eq_of_lt hsmall, fixedHex_zero]
      rw [e, ef]
      refine ⟨by rw [List.length_cons]; omega, ?_⟩
      have en : k1 + 1 + acc.length - (hexDigit v :: acc).length = k1 := by
        rw [List.length_cons]; omega
      rw [en, List.append_assoc]
      rfl
    · have e : hexDigitsAux (fuel + 1) v acc =
          hexDigitsAux fuel (v / 16) (hexDigit (v % 16) :: acc) := by
        rw [hexDigitsAux, if_neg hsmall]
      have hk1 : 1 ≤ k1 := by
        by_contra hn
        have : k1 = 0 := by omega
        subst this
        exact hsmall (by simpa using hv)
      have hdiv : v / 16 < 16 ^ k1 := by
        apply Nat.div_lt_of_lt_mul
        rw [pow_succ] at hv
        omega
      obtain ⟨i1, i2⟩ := ih k1 (v / 16) (hexDigit (v % 16) :: acc) hk1 (by omega) hdiv
      rw [List.length_cons] at i1 i2
      rw [e]
      refine ⟨by omega, ?_⟩
      have en : k1 + 1 + acc.length = k1 + (acc.length + 1) := by omega
      rw [en, i2]
      show _ = fixedHex k1 (v / 16) ++ [hexDigit (v % 16)] ++ acc
      rw [List.append_assoc]
      rfl

theorem putHex_eq {w v : Nat} (h1 : 1 ≤ w) (h2 : w ≤ 16) (hv : v < 16 ^ w) :
    putHex w v = fixedHex w v := by
  obtain ⟨_, e⟩ := hexDigitsAux_spec 16 w v [] h1 h2 hv
  unfold putHex hexDigits
  rw [List.append_nil] at e
  exact e

namespace UuidGenerator

theorem step_hyphen (st : Nat × Nat × Nat) : fromStringStep st 45 = st := by
  unfold fromStringStep
  rw [if_pos rfl]

theorem shift_or {M d : Nat} (hd : d < 16) (h : M * 16 + d < 2 ^ 64) :
    wrap64 (M <<< 4) ||| d = M * 16 + d := by
  have e : wrap64 (M <<< 4) = 2 ^ 4 * M := by
    unfold wrap64
    rw [Nat.shiftLeft_eq, Nat.mod_eq_of_lt (by omega)]
    omega
  rw [e, ← Nat.mul_add_lt_is_or (by omega)]
  omega

/-- The loop of `fromString` over a field of `w` digits while `idx < 16`. -/
theorem foldl_fixedHex_msb (w : Nat) :
    ∀ (v m l idx : Nat), v < 16 ^ w → idx + w ≤ 16 → m * 16 ^ w + v < 2 ^ 64 →
      (fixedHex w v).foldl fromStringStep (m, l, idx) = (m * 16 ^ w + v, l, idx + w) := by
  induction w with
  | zero =>
    intro v m l idx hv _ _
    have : v = 0 := by simpa using hv
    subst this
    simp [fixedHex]
  | succ w ih =>
    intro v m l idx hv hidx hm
    have hp : 16 ^ (w + 1) = 16 * 16 ^ w := by rw [pow_succ]; omega
    have hq : m * 16 ^ (w + 1) = 16 * (m * 16 ^ w) := by rw [hp]; ring
    have hdiv : v / 16 < 16 ^ w := by
      apply Nat.div_lt_of_lt_mul
      omega
    obtain ⟨f1, f2, _⟩ := hexDigit_facts (v % 16) (Nat.mod_lt _ (by decide))
    have hstep : fromStringStep (m * 16 ^ w + v / 16, l, idx + w) (hexDigit (v % 16)) =
        (m * 16 ^ (w + 1) + v, l, idx + (w + 1)) := by
      unfold fromStringStep
      rw [if_neg f1]
      dsimp only
      rw [if_pos (by omega), f2, shift_or (Nat.mod_lt _ (by decide)) (by omega)]
      have hw : common.io.wrapSize (idx + w + 1) = idx + (w + 1) := by
        unfold common.io.wrapSize
        rw [Nat.mod_eq_of_lt (by omega)]
        omega
      rw [hw]
      congr 1
      omega
    show (fixedHex w (v / 16) ++ [hexDigit (v % 16)]).foldl fromStringStep (m, l, idx) = _
    rw [List.foldl_append, ih (v / 16) m l idx hdiv (by omega) (by omega)]
    exact hstep

/-- The loop of `fromString` over a field of `w` digits once `idx >= 16`. -/
theorem foldl_fixedHex_lsb (w : Nat) :
    ∀ (v m l idx : Nat), v < 16 ^ w → 16 ≤ idx → idx + w < 2 ^ 64 →
      l * 16 ^ w + v < 2 ^ 64 →
      (fixedHex w v).foldl fromStringStep (m, l, idx) = (m, l * 16 ^ w + v, idx + w) := by
  induction w with
  | zero =>
    intro v m l idx hv _ _ _
    have : v = 0 := by simpa using hv
    subst this
    simp [fixedHex]
  | succ w ih =>
    intro v m l idx hv hidx hmax hm
    have hp : 16 ^ (w + 1) = 16 * 16 ^ w := by rw [pow_succ]; omega
    have hq : l * 16 ^ (w + 1) = 16 * (l * 16 ^ w) := by rw [hp]; ring
    have hdiv : v / 16 < 16 ^ w := by
      apply Nat.div_lt_of_lt_mul
      omega
    obtain ⟨f1, f2, _⟩ := hexDigit_facts (v % 16) (Nat.mod_lt _ (by decide))
    have hstep : fromStringStep (m, l * 16 ^ w + v / 16, idx + w) (hexDigit (v % 16)) =
        (m, l * 16 ^ (w + 1) + v, idx + (w + 1)) := by
      unfold fromStringStep
      rw [if_neg f1]
      dsimp only
      rw [if_neg (by omega), f2, shift_or (Nat.mod_lt _ (by decide)) (by omega)]
      have hw : common.io.wrapSize (idx + w + 1) = idx + (w + 1) := by
        unfold common.io.wrapSize
        rw [Nat.mod_eq_of_lt (by omega)]
        omega
      rw [hw]
      congr 2
      omega
    show (fixedHex w (v / 16) ++ [hexDigit (v % 16)]).foldl fromStringStep (m, l, idx) = _
    rw [List.foldl_append, ih (v / 16) m l idx hdiv hidx (by omega) (by omega)]
    exact hstep

/-- The text of a UUID is made of five fields of fixed width. -/
theorem toString_eq (msb lsb : Nat) (hm : msb < 2 ^ 64) (hl : lsb < 2 ^ 64) :
    (UuidGenerator.mk msb lsb).toString =
      fixedHex 8 (msb / 2 ^ 32) ++ [(45 : common.io.CChar)] ++
      fixedHex 4 (msb / 2 ^ 16 % 2 ^ 16) ++ [(45 : common.io.CChar)] ++
      fixedHex 4 (msb % 2 ^ 16) ++ [(45 : common.io.CChar)] ++
      fixedHex 4 (lsb / 2 ^ 48) ++ [(45 : common.io.CChar)] ++
      fixedHex 12 (lsb % 2 ^ 48) := by
  have a1 : (0xFFFF : Nat) = 2 ^ 16 - 1 := by norm_num
  have a2 : (0xFFFFFFFFFFFF : Nat) = 2 ^ 48 - 1 := by norm_num
  unfold toString
  dsimp only
  rw [a1, a2, Nat.and_pow_two_sub_one_eq_mod, Nat.and_pow_two_sub_one_eq_mod,
    Nat.and_pow_two_sub_one_eq_mod, Nat.shiftRight_eq_div_pow, Nat.shiftRight_eq_div_pow,
    Nat.shiftRight_eq_div_pow]
  rw [putHex_eq (by decide) (by decide) (show msb / 2 ^ 32 < 16 ^ 8 by omega),
    putHex_eq (by decide) (by decide) (show msb / 2 ^ 16 % 2 ^ 16 < 16 ^ 4 by omega),
    putHex_eq (by decide) (by decide) (show msb % 2 ^ 16 < 16 ^ 4 by omega),
    putHex_eq (by decide) (by decide) (show lsb / 2 ^ 48 < 16 ^ 4 by omega),
    putHex_eq (by decide) (by decide) (show lsb % 2 ^ 48 < 16 ^ 12 by omega)]

end UuidGenerator

/-- C39. The text of a UUID and back.  For all 64-bit values `msb` and `lsb`, `toString()`
of `UuidGenerator(msb, lsb)` has 36 characters, the characters at the positions 8, 13, 18 and
23 are hyphens and all others are lower-case hexadecimal digits, and `fromString` of that
text has the most significant bits `msb` and the least significant bits `lsb`. -/
theorem C39_uuid_text_round_trip (msb lsb : Nat) (hm : msb < 2 ^ 64) (hl : lsb < 2 ^ 64) :
    (UuidGenerator.new msb lsb).toString.length = 36 ∧
    (∀ i ch, (UuidGenerator.new msb lsb).toString[i]? = some ch →
      if i = 8 ∨ i = 13 ∨ i = 18 ∨ i = 23 then ch = 45 else IsLowerHex ch) ∧
    UuidGenerator.fromString (UuidGenerator.new msb lsb).toString =
      UuidGenerator.new msb lsb := by
  have e := UuidGenerator.toString_eq msb lsb hm hl
  have e' : (UuidGenerator.new msb lsb).toString = _ := e
  refine ⟨?_, ?_, ?_⟩
  · rw [e']
    simp only [List.length_append, fixedHex_length, List.length_singleton]
  · intro i ch h
    rw [e'] at h
    simp only [List.getElem?_append, List.length_append, fixedHex_length,
      List.length_singleton] at h
    split_ifs at h
    all_goals first
      | (rw [if_neg (by omega)]; exact fixedHex_lower _ _ _ (List.getElem?_mem h))
      | (rw [if_pos (by omega)]; exact List.mem_singleton.1 (List.getElem?_mem h))
  · have s1 := UuidGenerator.foldl_fixedHex_msb 8 (msb / 2 ^ 32) 0 0 0 (by omega) (by omega)
      (by omega)
    have s2 := UuidGenerator.foldl_fixedHex_msb 4 (msb / 2 ^ 16 % 2 ^ 16)
      (0 * 16 ^ 8 + msb / 2 ^ 32) 0 (0 + 8) (by omega) (by omega) (by omega)
    have s3 := UuidGenerator.foldl_fixedHex_msb 4 (msb % 2 ^ 16)
      ((0 * 16 ^ 8 + msb / 2 ^ 32) * 16 ^ 4 + msb / 2 ^ 16 % 2 ^ 16) 0 (0 + 8 + 4)
      (by omega) (by omega) (by omega)
    have s4 := UuidGenerator.foldl_fixedHex_lsb 4 (lsb / 2 ^ 48)
      (((0 * 16 ^ 8 + msb / 2 ^ 32) * 16 ^ 4 + msb / 2 ^ 16 % 2 ^ 16) * 16 ^ 4 + msb % 2 ^ 16)
      0 (0 + 8 + 4 + 4) (by omega) (by omega) (by omega) (by omega)
    have s5 := UuidGenerator.foldl_fixedHex_lsb 12 (lsb % 2 ^ 48)
      (((0 * 16 ^ 8 + msb / 2 ^ 32) * 16 ^ 4 + msb / 2 ^ 16 % 2 ^ 16) * 16 ^ 4 + msb % 2 ^ 16)
      (0 * 16 ^ 4 + lsb / 2 ^ 48) (0 + 8 + 4 + 4 + 4) (by omega) (by omega) (by omega)
      (by omega)
    unfold UuidGenerator.fromString
    rw [e']
    simp only [List.foldl_append, List.foldl_cons, List.foldl_nil, UuidGenerator.step_hyphen,
      s1, s2, s3, s4, s5]
    have hM : ((0 * 16 ^ 8 + msb / 2 ^ 32) * 16 ^ 4 + msb / 2 ^ 16 % 2 ^ 16) * 16 ^ 4 +
        msb % 2 ^ 16 = msb := by omega
    have hL : (0 * 16 ^ 4 + lsb / 2 ^ 48) * 16 ^ 12 + lsb % 2 ^ 48 = lsb := by omega
    rw [hM, hL]
    rfl

/-- C39 on the bits `0x0123456789abcdef` and `0xfedcba9876543210`. -/
theorem C39_uuid_text_round_trip_witness :
    (0x0123456789abcdef : Nat) < 2 ^ 64 ∧ (0xfedcba9876543210 : Nat) < 2 ^ 64 ∧
    (UuidGenerator.new 0x0123456789abcdef 0xfedcba9876543210).toString.length = 36 ∧
    UuidGenerator.fromString
        (UuidGenerator.new 0x0123456789abcdef 0xfedcba9876543210).toString =
      UuidGenerator.new 0x0123456789abcdef 0xfedcba9876543210 :=
  ⟨by decide, by decide,
    (C39_uuid_text_round_trip 0x0123456789abcdef 0xfedcba9876543210 (by decide) (by decide)).1,
    (C39_uuid_text_round_trip 0x0123456789abcdef 0xfedcba9876543210 (by decide)
      (by decide)).2.2⟩

end common.entity.util
